import Mathlib

/-!
# WaveManager (src/src/waveManager.js): a shallow embedding

JavaScript numbers are binary64 values. Configuration values and timer delays
are rationals, and the arithmetic of the two per-wave formulas rounds each
result to the nearest binary64 value (`roundF64`); a result of magnitude
`2 ^ 1024` or more, which JavaScript turns into `Infinity`, is outside the
embedding (`f64Finite`). Counters and wave numbers are integers: they change
in steps of 1, which is exact below `2 ^ 53`. The two timers
of the class are kept in an explicit table of live timers (what `setInterval`,
`setTimeout`, `clearInterval` and `clearTimeout` manage), so that a handle
stored in `_spawnTimer` or `_intermissionTimer` can be stale, as in the source.
Host callbacks are not run; each call of the scheduler is given a `Host`
record saying how the callbacks it may invoke behave (return or raise), and
every invocation is appended to a log. A `Host` stands for callbacks that do
not call back into the scheduler; host code that does (a sink calling
`stop()`) is given as `Sinks` to the `...With` versions of the methods that
invoke a notification sink.
-/

namespace WaveManager

/-- The numeric fields set by the constructor (lines 5 to 10). -/
structure Config where
  intermissionMs : ℚ
  baseEnemies : ℚ
  perWaveIncrement : ℚ
  baseSpawnIntervalMs : ℚ
  minSpawnIntervalMs : ℚ
  spawnAccelPerWaveMs : ℚ
  deriving DecidableEq

/-- The closure a live timer runs: the tick of `_startSpawnLoop` or the
timeout of `_scheduleIntermission`. -/
inductive TimerKind where
  | spawnTick
  | intermission
  deriving DecidableEq, Repr

/-- A live timer of the JavaScript runtime. -/
structure Timer where
  id : Nat
  kind : TimerKind
  delay : ℚ
  deriving DecidableEq

/-- The `info` object built in `_spawnEnemy`. -/
structure SpawnInfo where
  wave : ℤ
  index : ℤ
  remainingToSpawn : ℤ
  deriving DecidableEq

/-- One invocation of a host callback, with its argument. -/
inductive Event where
  | spawnEnemy (info : SpawnInfo)
  | onEnemySpawned (info : SpawnInfo) (enemy : Option Nat)
  | onWaveStart (wave : ℤ) (count : ℤ) (spawnIntervalMs : ℚ)
  | onWaveComplete (wave : ℤ)
  | onIntermission (waveJustCompleted : ℤ) (ms : ℚ)
  deriving DecidableEq

/-- What `spawnEnemy(info)` does: it returns a value (`none` is `undefined`)
or it raises. -/
inductive SpawnOutcome where
  | returns (enemy : Option Nat)
  | raises
  deriving DecidableEq

/-- Behaviour of the host callbacks during one call into the scheduler, for
callbacks that do not call back into the scheduler: each returns or raises.
Each callback is invoked at most once per call. -/
structure Host where
  spawnEnemy : SpawnOutcome
  onEnemySpawnedRaises : Bool
  onWaveStartRaises : Bool
  onWaveCompleteRaises : Bool
  onIntermissionRaises : Bool
  deriving DecidableEq

/-- The mutable fields of a `WaveManager` (set by `_resetState`), together
with the runtime's live timers, the next fresh timer handle and the log of
callback invocations. -/
structure State where
  wave : ℤ
  running : Bool
  paused : Bool
  _spawned : ℤ
  _toSpawn : ℤ
  _active : ℤ
  _spawnTimer : Option Nat
  _intermissionTimer : Option Nat
  timers : List Timer
  nextId : Nat
  log : List Event
  deriving DecidableEq

/-- Result of a method or timer callback: the state it leaves and whether an
exception escaped it. -/
structure Res where
  st : State
  raised : Bool
  deriving DecidableEq

/-- Normal return. -/
def Res.ok (s : State) : Res := ⟨s, false⟩

/-- An exception of a host callback propagates. -/
def Res.throw (s : State) : Res := ⟨s, true⟩

/-- Record the invocation of a host callback. -/
def State.emit (s : State) (e : Event) : State :=
  { s with log := s.log ++ [e] }

/-- Calls `clearInterval(h)` and `clearTimeout(h)`: the timer with this handle, if
live, is cancelled; `null` or a stale handle cancels nothing. -/
def clearTimer (ts : List Timer) (h : Option Nat) : List Timer :=
  match h with
  | none => ts
  | some i => ts.filter (fun t => t.id ≠ i)

/-- Method `_resetState` (lines 18 to 27) on a fresh runtime: timer handles start
at 1, so a handle is always truthy. -/
def _resetState : State :=
  { wave := 0, running := false, paused := false, _spawned := 0, _toSpawn := 0,
    _active := 0, _spawnTimer := none, _intermissionTimer := none,
    timers := [], nextId := 1, log := [] }

/-- Rounds a rational to the nearest integer, a tie to the even one. -/
def roundHalfEven (y : ℚ) : ℤ :=
  if Int.fract y < 1 / 2 then ⌊y⌋
  else if 1 / 2 < Int.fract y then ⌊y⌋ + 1
  else if ⌊y⌋ % 2 = 0 then ⌊y⌋ else ⌊y⌋ + 1

/-- The binary exponent of the binary64 values around `x`: `floor(log2 |x|)`,
and -1022 for zero and the subnormal range. -/
def f64Exponent (x : ℚ) : ℤ := if x = 0 then -1022 else max (Int.log 2 |x|) (-1022)

/-- The spacing of the binary64 values around `x`: 52 fraction bits below the
exponent. -/
def f64Ulp (x : ℚ) : ℚ := (2 : ℚ) ^ (f64Exponent x - 52)

/-- Rounding of an arithmetic result to binary64, the number type of
JavaScript: the nearest multiple of the spacing, a tie to the even multiple.
The exponent is not bounded above here: JavaScript gives `Infinity` where the
rounded value reaches `2 ^ 1024` (see `f64Finite`). -/
@[irreducible]
def roundF64 (x : ℚ) : ℚ := roundHalfEven (x / f64Ulp x) * f64Ulp x


/-- Whether the binary64 value nearest to `x` is finite; JavaScript gives
`Infinity` or `-Infinity` otherwise. -/
def f64Finite (x : ℚ) : Prop := |roundF64 x| < 2 ^ 1024

/-- Method `_calcEnemiesForWave` (lines 120 to 122), in binary64 arithmetic:
the difference `w - 1`, the product and the sum are each rounded; `Math.floor`
and `Math.max` are exact. -/
def _calcEnemiesForWave (c : Config) (w : ℤ) : ℤ :=
  max 1 ⌊roundF64 (c.baseEnemies + roundF64 (c.perWaveIncrement * roundF64 ((w : ℚ) - 1)))⌋

/-- Method `_calcSpawnIntervalForWave` (lines 124 to 127), in binary64
arithmetic: the difference `w - 1`, the product and the outer difference are
each rounded; `Math.max` is exact. -/
def _calcSpawnIntervalForWave (c : Config) (w : ℤ) : ℚ :=
  let interval := roundF64 (c.baseSpawnIntervalMs
    - roundF64 (c.spawnAccelPerWaveMs * roundF64 ((w : ℚ) - 1)))
  max c.minSpawnIntervalMs interval

/-- Method `_startSpawnLoop` (lines 73 to 86): the previous cadence is cleared and a
new repeating timer is armed. -/
def _startSpawnLoop (c : Config) (s : State) (intervalOverride : Option ℚ) : State :=
  let interval := intervalOverride.getD (_calcSpawnIntervalForWave c s.wave)
  { s with
    timers := clearTimer s.timers s._spawnTimer ++ [⟨s.nextId, .spawnTick, interval⟩]
    _spawnTimer := some s.nextId
    nextId := s.nextId + 1 }

/-- Method `_beginWave` (lines 64 to 71). -/
def _beginWave (c : Config) (h : Host) (s : State) : Res :=
  let s1 := { s with _spawned := 0, _toSpawn := _calcEnemiesForWave c s.wave, _active := 0 }
  let interval := _calcSpawnIntervalForWave c s1.wave
  let s2 := s1.emit (.onWaveStart s1.wave s1._toSpawn interval)
  if h.onWaveStartRaises then .throw s2
  else .ok (_startSpawnLoop c s2 (some interval))

/-- Method `_scheduleIntermission` (lines 109 to 118), up to arming the timeout. -/
def _scheduleIntermission (c : Config) (h : Host) (s : State) : Res :=
  let ms := c.intermissionMs
  let s1 := s.emit (.onIntermission s.wave ms)
  if h.onIntermissionRaises then .throw s1
  else .ok { s1 with
    timers := s1.timers ++ [⟨s1.nextId, .intermission, ms⟩]
    _intermissionTimer := some s1.nextId
    nextId := s1.nextId + 1 }

/-- Method `_maybeCompleteWave` (lines 102 to 107). -/
def _maybeCompleteWave (c : Config) (h : Host) (s : State) : Res :=
  if s._spawned ≥ s._toSpawn ∧ s._active = 0 ∧ s._intermissionTimer = none then
    let s1 := s.emit (.onWaveComplete s.wave)
    if h.onWaveCompleteRaises then .throw s1
    else _scheduleIntermission c h s1
  else .ok s

/-- Method `_spawnEnemy` (lines 88 to 100). The `try` block swallows whatever the two
callbacks raise; when `spawnEnemy` raises, `onEnemySpawned` is skipped. -/
def _spawnEnemy (h : Host) (s : State) : State :=
  let s1 := { s with _spawned := s._spawned + 1, _active := s._active + 1 }
  let info : SpawnInfo := ⟨s1.wave, s1._spawned, s1._toSpawn - s1._spawned⟩
  let s2 := s1.emit (.spawnEnemy info)
  let s3 : State := match h.spawnEnemy with
    | .returns enemy => s2.emit (.onEnemySpawned info enemy)
    | .raises => s2
  if s3._spawned ≥ s3._toSpawn then
    { s3 with timers := clearTimer s3.timers s3._spawnTimer, _spawnTimer := none }
  else s3

/-- The tick closure of `_startSpawnLoop` (lines 76 to 85). -/
def spawnTick (c : Config) (h : Host) (s : State) : Res :=
  if s.paused then .ok s
  else if s._spawned ≥ s._toSpawn then
    _maybeCompleteWave c h
      { s with timers := clearTimer s.timers s._spawnTimer, _spawnTimer := none }
  else .ok (_spawnEnemy h s)

/-- The timeout closure of `_scheduleIntermission` (lines 112 to 117). -/
def intermissionTimeout (c : Config) (h : Host) (s : State) : Res :=
  let s1 := { s with _intermissionTimer := none }
  if !s1.running then .ok s1
  else _beginWave c h { s1 with wave := s1.wave + 1 }

/-- Method `start` (lines 29 to 34). -/
def start (c : Config) (h : Host) (s : State) : Res :=
  if s.running then .ok s
  else _beginWave c h { s with running := true, wave := 1 }

/-- Method `stop` (lines 36 to 43). -/
def stop (s : State) : State :=
  { s with
    running := false
    paused := false
    timers := clearTimer (clearTimer s.timers s._spawnTimer) s._intermissionTimer
    _spawnTimer := none
    _intermissionTimer := none }

/-- Method `pause` (lines 45 to 49): the handle in `_spawnTimer` is kept, stale. -/
def pause (s : State) : State :=
  if !s.running || s.paused then s
  else { s with paused := true, timers := clearTimer s.timers s._spawnTimer }

/-- Method `resume` (lines 51 to 55). -/
def resume (c : Config) (s : State) : State :=
  if !s.running || !s.paused then s
  else
    let s1 := { s with paused := false }
    if s1._spawned < s1._toSpawn then _startSpawnLoop c s1 none else s1

/-- Method `onEnemyKilled` (lines 58 to 62). -/
def onEnemyKilled (c : Config) (h : Host) (s : State) : Res :=
  if !s.running then .ok s
  else _maybeCompleteWave c h { s with _active := max 0 (s._active - 1) }

/-- The runtime fires the live timer with handle `i`: a repeating timer stays
live, a one-shot timer is removed before its closure runs. A handle that is
not live fires nothing. -/
def fireTimer (c : Config) (h : Host) (s : State) (i : Nat) : Res :=
  match s.timers.find? (fun t => t.id = i) with
  | none => .ok s
  | some t =>
    match t.kind with
    | .spawnTick => spawnTick c h s
    | .intermission =>
      intermissionTimeout c h { s with timers := s.timers.filter (fun t => t.id ≠ i) }

/-- What can happen to a scheduler: a call of the host, or a timer firing. -/
inductive Call where
  | start
  | stop
  | pause
  | resume
  | onEnemyKilled
  | fire (id : Nat)
  deriving DecidableEq

/-- One step of a run: what happens, and how the host callbacks behave
while it happens. -/
structure Action where
  call : Call
  host : Host
  deriving DecidableEq

/-- One step of the scheduler. -/
def step (c : Config) (s : State) (a : Action) : Res :=
  match a.call with
  | .start => start c a.host s
  | .stop => .ok (stop s)
  | .pause => .ok (pause s)
  | .resume => .ok (resume c s)
  | .onEnemyKilled => onEnemyKilled c a.host s
  | .fire i => fireTimer c a.host s i

/-- The state after a sequence of steps; an exception that escapes a step
goes to the host or the event loop, and the scheduler object lives on. -/
def run (c : Config) (s : State) (as : List Action) : State :=
  as.foldl (fun s a => (step c s a).st) s

/-- A state reachable from a freshly constructed scheduler. -/
def Reachable (c : Config) (s : State) : Prop :=
  ∃ as : List Action, run c _resetState as = s

/-- The configuration of the test suite (tests/waveManager.test.js, lines 17
to 23). -/
def testConfig : Config :=
  { intermissionMs := 100, baseEnemies := 3, perWaveIncrement := 2,
    baseSpawnIntervalMs := 50, minSpawnIntervalMs := 10, spawnAccelPerWaveMs := 5 }

/-- A configuration whose enemy count at wave 2 is rounded up to 2. -/
def fractionalConfig : Config :=
  { testConfig with baseEnemies := 3 / 2, perWaveIncrement := 1 / 2 - 1 / 2 ^ 54 }

/-- A configuration whose base count is the largest power of two below which
every integer is a binary64 value. -/
def largeBaseConfig : Config :=
  { testConfig with baseEnemies := 2 ^ 53, perWaveIncrement := 1 }

/-- A configuration whose acceleration is the binary64 value next above 1. -/
def unevenAccelConfig : Config :=
  { testConfig with
    baseSpawnIntervalMs := 10
    minSpawnIntervalMs := 0
    spawnAccelPerWaveMs := 1 + 1 / 2 ^ 52 }

/-- A configuration whose acceleration is the smallest positive binary64
value. -/
def tinyAccelConfig : Config :=
  { testConfig with
    baseSpawnIntervalMs := 800
    minSpawnIntervalMs := 200
    spawnAccelPerWaveMs := 1 / 2 ^ 1074 }

/-- A host whose callbacks all return. -/
def quietHost : Host :=
  { spawnEnemy := .returns none, onEnemySpawnedRaises := false,
    onWaveStartRaises := false, onWaveCompleteRaises := false,
    onIntermissionRaises := false }

/-- What holds of the counters and timers in every state a scheduler can
reach: `_spawned` stays between 0 and `_toSpawn`, `_active` is not negative,
every live timer is the one its field refers to, an idle scheduler has no
live timer, and while an intermission is pending the wave is fully spawned
and cleared. -/
structure Inv (s : State) : Prop where
  spawned_nonneg : 0 ≤ s._spawned
  spawned_le : s._spawned ≤ s._toSpawn
  active_nonneg : 0 ≤ s._active
  tick_owned : ∀ t ∈ s.timers, t.kind = .spawnTick → s._spawnTimer = some t.id
  interm_owned : ∀ t ∈ s.timers, t.kind = .intermission → s._intermissionTimer = some t.id
  idle : s.running = false → s.timers = [] ∧ s._intermissionTimer = none
  pending : s._intermissionTimer ≠ none → s._active = 0 ∧ s._toSpawn ≤ s._spawned

/-- A step during which every host callback returns. -/
def act (call : Call) : Action := ⟨call, quietHost⟩

/-- Wave 1 of the test scenario: start, three spawn ticks of timer 1, three
kill reports. -/
def wave1Cleared : List Action :=
  [act .start, act (.fire 1), act (.fire 1), act (.fire 1),
   act .onEnemyKilled, act .onEnemyKilled, act .onEnemyKilled]

/-- The notifications a step adds to the log. -/
def emitted (c : Config) (s : State) (a : Action) : List Event :=
  (step c s a).st.log.drop s.log.length

/-- Where a log of notifications stands with respect to the completion
protocol of the spec: `inWave` after an `onWaveStart` with no completion yet,
`completed w` between `onWaveComplete(w)` and its intermission notice,
`settled` when no wave awaits completion (none has started, or the last
completion has been followed by its intermission notice), `violated` once the
protocol has been broken. -/
inductive Phase where
  | settled
  | inWave
  | completed (wave : ℤ)
  | violated
  deriving DecidableEq

/-- The phase after one more notification. A completion is allowed only in
`inWave`, so at most once between two `onWaveStart`; an intermission notice is
allowed only right after the completion of the same wave, so exactly once per
completion; a wave may not start while a completion still lacks its notice.
Spawn notifications do not move the phase. -/
def Phase.next : Phase → Event → Phase
  | .violated, _ => .violated
  | p, .spawnEnemy _ => p
  | p, .onEnemySpawned _ _ => p
  | .completed _, .onWaveStart _ _ _ => .violated
  | _, .onWaveStart _ _ _ => .inWave
  | .inWave, .onWaveComplete w => .completed w
  | _, .onWaveComplete _ => .violated
  | .completed w, .onIntermission w' _ => if w = w' then .settled else .violated
  | _, .onIntermission _ _ => .violated

/-- The phase a whole log ends in. -/
def logPhase (log : List Event) : Phase :=
  log.foldl Phase.next .settled

/-- A log observes the completion protocol: it never broke it, and no
completion is left without its intermission notice. -/
def completionProtocol (log : List Event) : Bool :=
  match logPhase log with
  | .settled => true
  | .inWave => true
  | .completed _ => false
  | .violated => false

/-- How the log's phase relates to the state between two steps: a wave is in
progress, or none awaits completion and, while running, the pending
intermission blocks a further completion. -/
def ProtoInv (s : State) : Prop :=
  logPhase s.log = .inWave
    ∨ (logPhase s.log = .settled ∧ (s.running = true → s._intermissionTimer ≠ none))

/-- Wave 1 of the test scenario up to the second kill report: one unit is
still active. -/
def wave1OneLeft : List Action :=
  [act .start, act (.fire 1), act (.fire 1), act (.fire 1),
   act .onEnemyKilled, act .onEnemyKilled]

/-- The test scheduler started and stopped at once: idle, with the counters
of wave 1 (`_spawned` 0, `_toSpawn` 3) and no live timer. -/
def startedThenStopped : State :=
  run testConfig _resetState [act .start, act .stop]

/-- Whether a log entry is an invocation of `spawnEnemy` or `onEnemySpawned`. -/
def Event.isSpawn : Event → Bool
  | .spawnEnemy _ => true
  | .onEnemySpawned _ _ => true
  | _ => false

/-- Whether a log entry is an invocation of `onWaveStart`. -/
def Event.isWaveStart : Event → Bool
  | .onWaveStart _ _ _ => true
  | _ => false

/-- The latest `onWaveStart` notification of a log, if there is one. -/
def lastWaveStart (log : List Event) : Option Event :=
  log.foldl (fun acc e => if e.isWaveStart then some e else acc) none

/-- Further facts about every reachable state: timer handles are fresh (below
the next handle of the runtime) and the two fields never hold the same handle,
an idle scheduler is not paused and holds no spawn handle, `_active` never
exceeds `_spawned`, and while running the latest `onWaveStart` announced the
current wave, its `_toSpawn` and its spawn interval. -/
structure Coherent (c : Config) (s : State) : Prop where
  ids_lt : ∀ t ∈ s.timers, t.id < s.nextId
  spawn_lt : ∀ i, s._spawnTimer = some i → i < s.nextId
  interm_lt : ∀ i, s._intermissionTimer = some i → i < s.nextId
  handles_ne : ∀ i, s._spawnTimer = some i → s._intermissionTimer ≠ some i
  idle_clean : s.running = false → s.paused = false ∧ s._spawnTimer = none
  active_le : s._active ≤ s._spawned
  announced : s.running = true →
    lastWaveStart s.log
      = some (.onWaveStart s.wave s._toSpawn (_calcSpawnIntervalForWave c s.wave))

/-- The test scheduler right after `start()`: wave 1 announced, cadence armed,
nothing spawned yet. -/
def wave1Started : List Action := [act .start]

/-- The test scheduler paused after the first spawn of wave 1. -/
def wave1Paused : List Action := [act .start, act (.fire 1), act .pause]

/-- The test scenario up to the start of wave 2: wave 1 spawned and cleared,
then the intermission timer (handle 2) fires. -/
def wave2Started : List Action := wave1Cleared ++ [act (.fire 2)]

/-- A host whose `spawnEnemy` raises; the other callbacks return. -/
def raisingHost : Host := { quietHost with spawnEnemy := .raises }

/-- A host whose `onWaveStart` raises; the other callbacks return. -/
def startRaisingHost : Host := { quietHost with onWaveStartRaises := true }

/-- The notifications a run adds to the log, step by step. -/
def deltas (c : Config) (s : State) : List Action → List (List Event)
  | [] => []
  | a :: as => emitted c s a :: deltas c (step c s a).st as

/-- The end-to-end scenario of the spec on the test scheduler: start, three
spawn ticks (timer 1), three kill reports, then the intermission timer
(timer 2) fires. -/
def scenario : List Action :=
  [act .start, act (.fire 1), act (.fire 1), act (.fire 1),
   act .onEnemyKilled, act .onEnemyKilled, act .onEnemyKilled, act (.fire 2)]

/-- Whether a log entry is an `onWaveComplete` or `onIntermission`
notification. -/
def Event.isCompletion : Event → Bool
  | .onWaveComplete _ => true
  | .onIntermission _ _ => true
  | _ => false

/-- The wave numbers carried by the `onWaveStart` notifications of a log, in
order. -/
def waveStarts (log : List Event) : List ℤ :=
  log.filterMap (fun e => match e with
    | .onWaveStart w _ _ => some w
    | _ => none)

/-- The list 1, 2, ..., k. -/
def wavesUpTo (k : ℤ) : List ℤ :=
  (List.range k.toNat).map (fun (n : Nat) => (n : ℤ) + 1)

/-- What holds of every state reached without any `onEnemyKilled` call: every
spawned unit is still active, a target of at least one unit has been set
unless the scheduler has never been started, no intermission is pending, the
log holds no completion or intermission notice, and a running scheduler is in
wave 1. -/
structure Unkilled (s : State) : Prop where
  active_eq : s._active = s._spawned
  target_pos : 1 ≤ s._toSpawn ∨ (s.running = false ∧ s.timers = [])
  no_pending : s._intermissionTimer = none
  quiet : ∀ e ∈ s.log, e.isCompletion = false
  wave_one : s.running = true → s.wave = 1

/-- The numeric fields of the `opts` object passed to the constructor; `none`
is a field that is omitted (or `undefined`, or `null`). -/
structure Opts where
  intermissionMs : Option ℚ
  baseEnemies : Option ℚ
  perWaveIncrement : Option ℚ
  baseSpawnIntervalMs : Option ℚ
  minSpawnIntervalMs : Option ℚ
  spawnAccelPerWaveMs : Option ℚ
  deriving DecidableEq

/-- The object `{}`: every field omitted. -/
def Opts.empty : Opts :=
  { intermissionMs := none, baseEnemies := none, perWaveIncrement := none,
    baseSpawnIntervalMs := none, minSpawnIntervalMs := none, spawnAccelPerWaveMs := none }

/-- The constructor (lines 2 to 16): `opts || {}`, then `opts.x ?? default` for
each numeric field, then `_resetState()`. The argument `none` is a call without
options. The callback fields are not stored here: their behaviour is given
step by step as a `Host`, and the default `() => {}` is `quietHost`. -/
def constructor (opts : Option Opts) : Config × State :=
  let opts := opts.getD Opts.empty
  ({ intermissionMs := opts.intermissionMs.getD 10000
     baseEnemies := opts.baseEnemies.getD 5
     perWaveIncrement := opts.perWaveIncrement.getD 2
     baseSpawnIntervalMs := opts.baseSpawnIntervalMs.getD 800
     minSpawnIntervalMs := opts.minSpawnIntervalMs.getD 200
     spawnAccelPerWaveMs := opts.spawnAccelPerWaveMs.getD 50 },
   _resetState)

/-- How the timers follow the phase of the wave, in every reachable state: a
live spawn cadence means there are units left to spawn, and a set
`_intermissionTimer` refers to a live intermission timer. -/
structure Phases (s : State) : Prop where
  cadence_lt : ∀ t ∈ s.timers, t.kind = .spawnTick → s._spawned < s._toSpawn
  interm_live : ∀ i, s._intermissionTimer = some i →
    ∃ t ∈ s.timers, t.id = i ∧ t.kind = .intermission

/-- No missed completion: a running scheduler whose wave is fully spawned and
fully cleared has its intermission pending. -/
def Completed (s : State) : Prop :=
  s.running = true → s._spawned = s._toSpawn → s._active = 0 →
    s._intermissionTimer ≠ none

/-- No missed cadence: a running scheduler that is not paused and has units
left to spawn has a live spawn cadence. -/
def CadenceLive (s : State) : Prop :=
  s.running = true → s.paused = false → s._spawned < s._toSpawn →
    ∃ t ∈ s.timers, t.kind = TimerKind.spawnTick

/-- The contexts of the first `k` spawns of a wave of `count` units, in the
words of the spec: indices 1, 2, ..., k in that order, each with the wave
number and `remainingToSpawn = count - index`. -/
def spawnContexts (wave count k : ℤ) : List SpawnInfo :=
  (List.range k.toNat).map
    (fun (n : Nat) => (⟨wave, (n : ℤ) + 1, count - ((n : ℤ) + 1)⟩ : SpawnInfo))

/-- What a reader of the notification log has seen so far: the wave and count
of the latest `onWaveStart`, the contexts passed to `spawnEnemy` since then,
and whether every `onWaveComplete` so far carried the wave of the latest
`onWaveStart` and came after exactly the contexts 1, ..., count of it. -/
structure WaveLog where
  announced : Option (ℤ × ℤ)
  spawns : List SpawnInfo
  ok : Bool
  deriving DecidableEq

/-- The reader takes in one more notification. -/
def WaveLog.next (m : WaveLog) (e : Event) : WaveLog :=
  match e with
  | .onWaveStart w n _ => { m with announced := some (w, n), spawns := [] }
  | .spawnEnemy info => { m with spawns := m.spawns ++ [info] }
  | .onWaveComplete w =>
    { m with ok := m.ok && (match m.announced with
        | some (v, n) => decide (v = w ∧ m.spawns = spawnContexts v n n)
        | none => false) }
  | _ => m

/-- The reader after a whole log. -/
def waveLog (log : List Event) : WaveLog :=
  log.foldl WaveLog.next ⟨none, [], true⟩

/-- The spawns of the current wave are in index order: the log passes the
reader, the contexts since the latest `onWaveStart` are those of the first
`_spawned` spawns of the current wave, and while running that `onWaveStart`
announced the current wave and `_toSpawn`. -/
structure SpawnOrder (s : State) : Prop where
  ok : (waveLog s.log).ok = true
  spawns : (waveLog s.log).spawns = spawnContexts s.wave s._toSpawn s._spawned
  announced : s.running = true → (waveLog s.log).announced = some (s.wave, s._toSpawn)

/-- A host whose `onWaveComplete` sink raises. -/
def completeRaisingHost : Host := { quietHost with onWaveCompleteRaises := true }

/-- Host code run synchronously inside the three notification sinks, given as
what it does to the scheduler before it returns or raises: a sink that only
observes is `Res.ok`, a sink that raises at once is `Res.throw`, and a sink
that calls `stop()` is `fun s => Res.ok (stop s)`. -/
structure Sinks where
  onWaveStart : State → Res
  onWaveComplete : State → Res
  onIntermission : State → Res

/-- The sinks of a host whose callbacks do not call back into the scheduler. -/
def Host.sinks (h : Host) : Sinks :=
  { onWaveStart := fun s => if h.onWaveStartRaises then .throw s else .ok s
    onWaveComplete := fun s => if h.onWaveCompleteRaises then .throw s else .ok s
    onIntermission := fun s => if h.onIntermissionRaises then .throw s else .ok s }

/-- Method `_beginWave` (lines 64 to 71) with the host code of `onWaveStart`
run inside it: the cadence is armed on the state the sink leaves, with the
interval computed before the call. -/
def _beginWaveWith (c : Config) (k : Sinks) (s : State) : Res :=
  let s1 := { s with _spawned := 0, _toSpawn := _calcEnemiesForWave c s.wave, _active := 0 }
  let interval := _calcSpawnIntervalForWave c s1.wave
  let r := k.onWaveStart (s1.emit (.onWaveStart s1.wave s1._toSpawn interval))
  if r.raised then r
  else .ok (_startSpawnLoop c r.st (some interval))

/-- Method `_scheduleIntermission` (lines 109 to 118), up to arming the
timeout, with the host code of `onIntermission` run inside it. -/
def _scheduleIntermissionWith (c : Config) (k : Sinks) (s : State) : Res :=
  let ms := c.intermissionMs
  let r := k.onIntermission (s.emit (.onIntermission s.wave ms))
  if r.raised then r
  else .ok { r.st with
    timers := r.st.timers ++ [⟨r.st.nextId, .intermission, ms⟩]
    _intermissionTimer := some r.st.nextId
    nextId := r.st.nextId + 1 }

/-- Method `_maybeCompleteWave` (lines 102 to 107) with the host code of
`onWaveComplete` run inside it. -/
def _maybeCompleteWaveWith (c : Config) (k : Sinks) (s : State) : Res :=
  if s._spawned ≥ s._toSpawn ∧ s._active = 0 ∧ s._intermissionTimer = none then
    let r := k.onWaveComplete (s.emit (.onWaveComplete s.wave))
    if r.raised then r
    else _scheduleIntermissionWith c k r.st
  else .ok s

/-- Method `start` (lines 29 to 34) with the host code of the sinks. -/
def startWith (c : Config) (k : Sinks) (s : State) : Res :=
  if s.running then .ok s
  else _beginWaveWith c k { s with running := true, wave := 1 }

/-- Method `onEnemyKilled` (lines 58 to 62) with the host code of the sinks. -/
def onEnemyKilledWith (c : Config) (k : Sinks) (s : State) : Res :=
  if !s.running then .ok s
  else _maybeCompleteWaveWith c k { s with _active := max 0 (s._active - 1) }

/-- A host whose `onWaveStart` sink calls `stop()`. -/
def stopOnWaveStart : Sinks :=
  { onWaveStart := fun s => .ok (stop s), onWaveComplete := .ok, onIntermission := .ok }

/-- A host whose `onWaveComplete` sink calls `stop()`. -/
def stopOnWaveComplete : Sinks :=
  { onWaveStart := .ok, onWaveComplete := fun s => .ok (stop s), onIntermission := .ok }

/-! ## The two per-wave formulas -/

/-! ### Rounding to binary64 -/

theorem roundHalfEven_intCast (n : ℤ) : roundHalfEven (n : ℚ) = n := by
  simp [roundHalfEven]

theorem floor_le_roundHalfEven (y : ℚ) : ⌊y⌋ ≤ roundHalfEven y := by
  unfold roundHalfEven
  split_ifs <;> omega

theorem roundHalfEven_le_floor_add_one (y : ℚ) : roundHalfEven y ≤ ⌊y⌋ + 1 := by
  unfold roundHalfEven
  split_ifs <;> omega

theorem roundHalfEven_mono {y z : ℚ} (h : y ≤ z) : roundHalfEven y ≤ roundHalfEven z := by
  rcases (Int.floor_mono h).lt_or_eq with hlt | heq
  · calc roundHalfEven y ≤ ⌊y⌋ + 1 := roundHalfEven_le_floor_add_one y
      _ ≤ ⌊z⌋ := hlt
      _ ≤ roundHalfEven z := floor_le_roundHalfEven z
  · have hf : Int.fract y ≤ Int.fract z := by
      have h1 := Int.floor_add_fract y
      have h2 := Int.floor_add_fract z
      rw [heq] at h1
      linarith
    unfold roundHalfEven
    rw [heq]
    split_ifs <;> first | omega | (exfalso; linarith)

theorem roundHalfEven_eq_of_lt {y : ℚ} {n : ℤ} (h1 : (n : ℚ) - 1 / 2 < y)
    (h2 : y < (n : ℚ) + 1 / 2) : roundHalfEven y = n := by
  rcases le_or_lt (n : ℚ) y with hny | hyn
  · have hfl : ⌊y⌋ = n := by
      rw [Int.floor_eq_iff]
      constructor <;> linarith
    have hfr : Int.fract y < 1 / 2 := by
      have := Int.floor_add_fract y
      rw [hfl] at this
      linarith
    unfold roundHalfEven
    rw [if_pos hfr, hfl]
  · have hfl : ⌊y⌋ = n - 1 := by
      rw [Int.floor_eq_iff]
      push_cast
      constructor <;> linarith
    have hfr : 1 / 2 < Int.fract y := by
      have := Int.floor_add_fract y
      rw [hfl] at this
      push_cast at this
      linarith
    have hfr2 : ¬ Int.fract y < 1 / 2 := not_lt.mpr hfr.le
    unfold roundHalfEven
    rw [if_neg hfr2, if_pos hfr, hfl]
    omega

theorem roundHalfEven_tie {y : ℚ} {n : ℤ} (h : y = (n : ℚ) + 1 / 2) :
    roundHalfEven y = if n % 2 = 0 then n else n + 1 := by
  have hfl : ⌊y⌋ = n := by
    rw [Int.floor_eq_iff]
    constructor <;> linarith
  have hfr : Int.fract y = 1 / 2 := by
    have := Int.floor_add_fract y
    rw [hfl] at this
    linarith
  unfold roundHalfEven
  rw [if_neg (by rw [hfr]; exact lt_irrefl _), if_neg (by rw [hfr]; exact lt_irrefl _), hfl]

theorem roundHalfEven_neg (y : ℚ) : roundHalfEven (-y) = -roundHalfEven y := by
  rcases lt_trichotomy (Int.fract y) (1 / 2) with h | h | h
  · have h1 : roundHalfEven y = ⌊y⌋ := by
      unfold roundHalfEven
      rw [if_pos h]
    have h0 := Int.floor_le y
    have h3 := Int.floor_add_fract y
    rw [h1]
    apply roundHalfEven_eq_of_lt <;> push_cast <;> linarith [Int.fract_nonneg y]
  · have h3 := Int.floor_add_fract y
    have hy : y = (⌊y⌋ : ℚ) + 1 / 2 := by linarith
    have hny : -y = ((-⌊y⌋ - 1 : ℤ) : ℚ) + 1 / 2 := by push_cast; linarith
    rw [roundHalfEven_tie hny, roundHalfEven_tie hy]
    split_ifs <;> omega
  · have h1 : roundHalfEven y = ⌊y⌋ + 1 := by
      have h2 : ¬ Int.fract y < 1 / 2 := not_lt.mpr h.le
      unfold roundHalfEven
      rw [if_neg h2, if_pos h]
    have h3 := Int.floor_add_fract y
    rw [h1]
    apply roundHalfEven_eq_of_lt <;> push_cast <;> linarith [Int.fract_lt_one y]


theorem f64Ulp_pos (x : ℚ) : 0 < f64Ulp x := by
  unfold f64Ulp
  positivity

theorem f64Exponent_neg (x : ℚ) : f64Exponent (-x) = f64Exponent x := by
  simp [f64Exponent]

theorem f64Exponent_ge (x : ℚ) : -1022 ≤ f64Exponent x := by
  unfold f64Exponent
  split
  · exact le_rfl
  · exact le_max_right _ _

theorem f64Exponent_of_ne {x : ℚ} (hx : x ≠ 0) :
    f64Exponent x = max (Int.log 2 |x|) (-1022) := by
  simp [f64Exponent, hx]

theorem two_zpow_succ_eq (e : ℤ) : (2 : ℚ) ^ (e + 1) = ((2 ^ 53 : ℤ) : ℚ) * (2 : ℚ) ^ (e - 52) := by
  have h : ((2 ^ 53 : ℤ) : ℚ) = (2 : ℚ) ^ (53 : ℤ) := by norm_num
  rw [h, ← zpow_add₀ (by norm_num)]
  congr 1
  ring

theorem two_zpow_eq (e : ℤ) : (2 : ℚ) ^ e = ((2 ^ 52 : ℤ) : ℚ) * (2 : ℚ) ^ (e - 52) := by
  have h : ((2 ^ 52 : ℤ) : ℚ) = (2 : ℚ) ^ (52 : ℤ) := by norm_num
  rw [h, ← zpow_add₀ (by norm_num)]
  congr 1
  ring

theorem roundF64_neg (x : ℚ) : roundF64 (-x) = -roundF64 x := by
  simp [roundF64, f64Ulp, f64Exponent_neg, neg_div, roundHalfEven_neg]

theorem roundF64_zero : roundF64 0 = 0 := by
  simp [roundF64, roundHalfEven]

theorem f64Exponent_of_bounds {x : ℚ} {e : ℤ} (he : -1022 ≤ e) (hlo : (2 : ℚ) ^ e ≤ |x|)
    (hhi : |x| < (2 : ℚ) ^ (e + 1)) : f64Exponent x = e := by
  have hpos : 0 < |x| := lt_of_lt_of_le (by positivity) hlo
  have h1 : e ≤ Int.log 2 |x| := (Int.zpow_le_iff_le_log (by norm_num) hpos).mp (by exact_mod_cast hlo)
  have h2 : Int.log 2 |x| < e + 1 :=
    (Int.lt_zpow_iff_log_lt (by norm_num) hpos).mp (by exact_mod_cast hhi)
  rw [f64Exponent_of_ne (abs_pos.mp hpos)]
  omega

theorem f64Exponent_subnormal {x : ℚ} (hhi : |x| < (2 : ℚ) ^ (-1022 : ℤ)) :
    f64Exponent x = -1022 := by
  by_cases h0 : x = 0
  · simp [f64Exponent, h0]
  · have hpos : 0 < |x| := abs_pos.mpr h0
    have : Int.log 2 |x| < -1022 :=
      (Int.lt_zpow_iff_log_lt (by norm_num) hpos).mp (by exact_mod_cast hhi)
    rw [f64Exponent_of_ne h0]
    omega

theorem roundF64_nonneg {x : ℚ} (hx : 0 ≤ x) : 0 ≤ roundF64 x := by
  unfold roundF64
  apply mul_nonneg _ (f64Ulp_pos x).le
  have h := roundHalfEven_mono (div_nonneg hx (f64Ulp_pos x).le)
  rw [show roundHalfEven (0 : ℚ) = 0 from by simpa using roundHalfEven_intCast 0] at h
  exact_mod_cast h

theorem f64Exponent_mono {x y : ℚ} (hx : 0 ≤ x) (h : x ≤ y) :
    f64Exponent x ≤ f64Exponent y := by
  rcases eq_or_lt_of_le hx with h0 | hpos
  · rw [← h0]
    simpa [f64Exponent] using f64Exponent_ge y
  · have hy : 0 < y := lt_of_lt_of_le hpos h
    rw [f64Exponent_of_ne hpos.ne', f64Exponent_of_ne hy.ne']
    apply max_le_max _ le_rfl
    rw [abs_of_pos hpos, abs_of_pos hy]
    exact Int.log_mono_right hpos h

theorem roundF64_le_pow {x : ℚ} (hx : 0 ≤ x) :
    roundF64 x ≤ (2 : ℚ) ^ (f64Exponent x + 1) := by
  have hlt : x < (2 : ℚ) ^ (f64Exponent x + 1) := by
    rcases eq_or_lt_of_le hx with h0 | hpos
    · rw [← h0]; positivity
    · have h1 : |x| < ((2 : ℕ) : ℚ) ^ (Int.log 2 |x| + 1) :=
        Int.lt_zpow_succ_log_self (by norm_num) |x|
      have h2 : (2 : ℚ) ^ (Int.log 2 |x| + 1) ≤ (2 : ℚ) ^ (f64Exponent x + 1) := by
        apply zpow_le_zpow_right₀ (by norm_num)
        rw [f64Exponent_of_ne hpos.ne']
        omega
      rw [abs_of_nonneg hx] at h1 h2
      push_cast at h1
      linarith
  have hu : (2 : ℚ) ^ (f64Exponent x + 1) = ((2 ^ 53 : ℤ) : ℚ) * f64Ulp x :=
    two_zpow_succ_eq _
  rw [hu]
  unfold roundF64
  apply mul_le_mul_of_nonneg_right _ (f64Ulp_pos x).le
  have h := roundHalfEven_mono (y := x / f64Ulp x) (z := ((2 ^ 53 : ℤ) : ℚ)) (by
    rw [div_le_iff₀ (f64Ulp_pos x), ← hu]
    exact hlt.le)
  rw [roundHalfEven_intCast] at h
  exact_mod_cast h

theorem pow_le_roundF64 {x : ℚ} (hx : 0 < x) (he : -1022 < f64Exponent x) :
    (2 : ℚ) ^ f64Exponent x ≤ roundF64 x := by
  have hlog : f64Exponent x = Int.log 2 |x| := by
    rw [f64Exponent_of_ne hx.ne'] at he ⊢
    omega
  have hle : (2 : ℚ) ^ f64Exponent x ≤ x := by
    have h1 : ((2 : ℕ) : ℚ) ^ Int.log 2 |x| ≤ |x| :=
      Int.zpow_log_le_self (by norm_num) (abs_pos.mpr hx.ne')
    rw [abs_of_pos hx] at h1
    rw [hlog, abs_of_pos hx]
    exact_mod_cast h1
  have hu : (2 : ℚ) ^ f64Exponent x = ((2 ^ 52 : ℤ) : ℚ) * f64Ulp x :=
    two_zpow_eq _
  rw [hu]
  unfold roundF64
  apply mul_le_mul_of_nonneg_right _ (f64Ulp_pos x).le
  have h := roundHalfEven_mono (y := ((2 ^ 52 : ℤ) : ℚ)) (z := x / f64Ulp x) (by
    rw [le_div_iff₀ (f64Ulp_pos x), ← hu]
    exact hle)
  rw [roundHalfEven_intCast] at h
  exact_mod_cast h

theorem roundF64_mono_nonneg {x y : ℚ} (hx : 0 ≤ x) (h : x ≤ y) :
    roundF64 x ≤ roundF64 y := by
  rcases (f64Exponent_mono hx h).lt_or_eq with hlt | heq
  · have hy : 0 < y := by
      rcases eq_or_lt_of_le (hx.trans h) with h0 | hpos
      · exfalso
        have : x = 0 := le_antisymm (h0 ▸ h) hx
        rw [this, ← h0] at hlt
        exact lt_irrefl _ hlt
      · exact hpos
    have he : -1022 < f64Exponent y := by
      have := f64Exponent_ge x
      omega
    calc roundF64 x ≤ (2 : ℚ) ^ (f64Exponent x + 1) := roundF64_le_pow hx
      _ ≤ (2 : ℚ) ^ f64Exponent y := zpow_le_zpow_right₀ (by norm_num) (by omega)
      _ ≤ roundF64 y := pow_le_roundF64 hy he
  · unfold roundF64 f64Ulp
    rw [heq]
    apply mul_le_mul_of_nonneg_right _ (by positivity)
    have : roundHalfEven (x / (2 : ℚ) ^ (f64Exponent y - 52))
        ≤ roundHalfEven (y / (2 : ℚ) ^ (f64Exponent y - 52)) :=
      roundHalfEven_mono (div_le_div_of_nonneg_right h (by positivity))
    exact_mod_cast this

/-- Rounding to binary64 is monotone. -/
theorem roundF64_mono {x y : ℚ} (h : x ≤ y) : roundF64 x ≤ roundF64 y := by
  rcases le_total 0 x with hx | hx
  · exact roundF64_mono_nonneg hx h
  · rcases le_total 0 y with hy | hy
    · have h1 := roundF64_nonneg (x := -x) (by linarith)
      rw [roundF64_neg] at h1
      linarith [roundF64_nonneg hy]
    · have h1 := roundF64_mono_nonneg (x := -y) (y := -x) (by linarith) (by linarith)
      rw [roundF64_neg, roundF64_neg] at h1
      linarith


theorem roundF64_of_grid {x : ℚ} (m : ℤ) (h : x = (m : ℚ) * f64Ulp x) : roundF64 x = x := by
  unfold roundF64
  have hd : x / f64Ulp x = (m : ℚ) := by
    rw [div_eq_iff (f64Ulp_pos x).ne']
    exact h
  rw [hd, roundHalfEven_intCast]
  exact h.symm

/-- A value of the binary64 grid at exponent `e` inside the binade of `e` is
left as it is. -/
theorem roundF64_exact {x : ℚ} (e m : ℤ) (he : -1022 ≤ e) (hlo : (2 : ℚ) ^ e ≤ |x|)
    (hhi : |x| < (2 : ℚ) ^ (e + 1)) (h : x = (m : ℚ) * (2 : ℚ) ^ (e - 52)) :
    roundF64 x = x := by
  apply roundF64_of_grid m
  rw [f64Ulp, f64Exponent_of_bounds he hlo hhi]
  exact h

/-- Rounding in the binade of exponent `e`: the nearest multiple of
`2 ^ (e - 52)`, when there is one nearest. -/
theorem roundF64_eq {x : ℚ} (e n : ℤ) (he : -1022 ≤ e) (hlo : (2 : ℚ) ^ e ≤ |x|)
    (hhi : |x| < (2 : ℚ) ^ (e + 1))
    (h1 : ((n : ℚ) - 1 / 2) * (2 : ℚ) ^ (e - 52) < x)
    (h2 : x < ((n : ℚ) + 1 / 2) * (2 : ℚ) ^ (e - 52)) :
    roundF64 x = (n : ℚ) * (2 : ℚ) ^ (e - 52) := by
  have hu : (0 : ℚ) < (2 : ℚ) ^ (e - 52) := by positivity
  unfold roundF64
  rw [f64Ulp, f64Exponent_of_bounds he hlo hhi]
  rw [roundHalfEven_eq_of_lt (n := n)]
  · rw [lt_div_iff₀ hu]; exact h1
  · rw [div_lt_iff₀ hu]; exact h2

/-- Rounding in the binade of exponent `e`, at the midpoint of two
neighbours: the one with the even multiplier. -/
theorem roundF64_tie {x : ℚ} (e n : ℤ) (he : -1022 ≤ e) (hlo : (2 : ℚ) ^ e ≤ |x|)
    (hhi : |x| < (2 : ℚ) ^ (e + 1))
    (h : x = ((n : ℚ) + 1 / 2) * (2 : ℚ) ^ (e - 52)) :
    roundF64 x = ((if n % 2 = 0 then n else n + 1 : ℤ) : ℚ) * (2 : ℚ) ^ (e - 52) := by
  have hu : (0 : ℚ) < (2 : ℚ) ^ (e - 52) := by positivity
  unfold roundF64
  rw [f64Ulp, f64Exponent_of_bounds he hlo hhi]
  rw [roundHalfEven_tie (n := n)]
  rw [div_eq_iff hu.ne']
  exact h

theorem roundF64_natCast_of_lt {n : ℕ} (hn : n < 2 ^ 53) : roundF64 (n : ℚ) = n := by
  rcases Nat.eq_zero_or_pos n with h0 | hpos
  · rw [h0]; simpa using roundF64_zero
  have hq : (0 : ℚ) < (n : ℚ) := by exact_mod_cast hpos
  have hlog : Int.log 2 |(n : ℚ)| = (Nat.log 2 n : ℤ) := by
    rw [abs_of_pos hq, Int.log_natCast]
  have hl : Nat.log 2 n < 53 := Nat.log_lt_of_lt_pow (by omega) hn
  have hE : f64Exponent (n : ℚ) = (Nat.log 2 n : ℤ) := by
    rw [f64Exponent_of_ne hq.ne', hlog]
    omega
  apply roundF64_of_grid ((n * 2 ^ (52 - Nat.log 2 n) : ℕ) : ℤ)
  rw [f64Ulp, hE]
  have h2 : ((Nat.log 2 n : ℤ) - 52) = -((52 - Nat.log 2 n : ℕ) : ℤ) := by omega
  rw [h2, zpow_neg, zpow_natCast]
  push_cast
  field_simp

theorem roundF64_two_pow_53 : roundF64 ((2 : ℚ) ^ 53) = (2 : ℚ) ^ 53 := by
  apply roundF64_exact 53 (2 ^ 52) (by norm_num) <;> norm_num [abs_of_pos]

/-- Integers up to `2 ^ 53` in magnitude are binary64 values. -/
theorem roundF64_intCast {n : ℤ} (hn : |n| ≤ 2 ^ 53) : roundF64 (n : ℚ) = n := by
  have key : ∀ k : ℕ, k ≤ 2 ^ 53 → roundF64 (k : ℚ) = k := by
    intro k hk
    rcases Nat.lt_or_eq_of_le hk with hlt | heq
    · exact roundF64_natCast_of_lt hlt
    · rw [heq]
      push_cast
      exact roundF64_two_pow_53
  rcases le_total 0 n with h0 | h0
  · obtain ⟨k, rfl⟩ := Int.eq_ofNat_of_zero_le h0
    have hk : k ≤ 2 ^ 53 := by
      rw [abs_of_nonneg h0] at hn
      exact_mod_cast hn
    simpa using key k hk
  · obtain ⟨k, hk⟩ := Int.eq_ofNat_of_zero_le (neg_nonneg.mpr h0)
    have hk2 : k ≤ 2 ^ 53 := by
      rw [abs_of_nonpos h0, hk] at hn
      exact_mod_cast hn
    have hn2 : (n : ℚ) = -((k : ℚ)) := by
      have : n = -(k : ℤ) := by omega
      rw [this]; push_cast; ring
    rw [hn2, roundF64_neg, key k hk2]


/-! ## The two formulas on integers -/

theorem calcEnemiesForWave_int (c : Config) (b i w : ℤ) (hb : c.baseEnemies = b)
    (hi : c.perWaveIncrement = i) (h1 : |w - 1| ≤ 2 ^ 53) (h2 : |i * (w - 1)| ≤ 2 ^ 53)
    (h3 : |b + i * (w - 1)| ≤ 2 ^ 53) :
    _calcEnemiesForWave c w = max 1 (b + i * (w - 1)) := by
  have e1 : (w : ℚ) - 1 = ((w - 1 : ℤ) : ℚ) := by push_cast; ring
  have e2 : (i : ℚ) * ((w - 1 : ℤ) : ℚ) = ((i * (w - 1) : ℤ) : ℚ) := by push_cast; ring
  have e3 : (b : ℚ) + ((i * (w - 1) : ℤ) : ℚ) = ((b + i * (w - 1) : ℤ) : ℚ) := by
    push_cast; ring
  unfold _calcEnemiesForWave
  rw [hb, hi, e1, roundF64_intCast h1, e2, roundF64_intCast h2, e3, roundF64_intCast h3,
    Int.floor_intCast]

theorem calcSpawnIntervalForWave_int (c : Config) (b a w : ℤ)
    (hb : c.baseSpawnIntervalMs = b) (ha : c.spawnAccelPerWaveMs = a)
    (h1 : |w - 1| ≤ 2 ^ 53) (h2 : |a * (w - 1)| ≤ 2 ^ 53)
    (h3 : |b - a * (w - 1)| ≤ 2 ^ 53) :
    _calcSpawnIntervalForWave c w = max c.minSpawnIntervalMs ((b - a * (w - 1) : ℤ) : ℚ) := by
  have e1 : (w : ℚ) - 1 = ((w - 1 : ℤ) : ℚ) := by push_cast; ring
  have e2 : (a : ℚ) * ((w - 1 : ℤ) : ℚ) = ((a * (w - 1) : ℤ) : ℚ) := by push_cast; ring
  have e3 : (b : ℚ) - ((a * (w - 1) : ℤ) : ℚ) = ((b - a * (w - 1) : ℤ) : ℚ) := by
    push_cast; ring
  unfold _calcSpawnIntervalForWave
  simp only
  rw [hb, ha, e1, roundF64_intCast h1, e2, roundF64_intCast h2, e3, roundF64_intCast h3]

theorem calcEnemiesForWave_mono (c : Config) (hinc : 0 ≤ c.perWaveIncrement) {v w : ℤ}
    (h : v ≤ w) : _calcEnemiesForWave c v ≤ _calcEnemiesForWave c w := by
  unfold _calcEnemiesForWave
  apply max_le_max le_rfl
  apply Int.floor_mono
  apply roundF64_mono
  apply add_le_add_left
  apply roundF64_mono
  apply mul_le_mul_of_nonneg_left _ hinc
  apply roundF64_mono
  have : (v : ℚ) ≤ (w : ℚ) := by exact_mod_cast h
  linarith

theorem calcSpawnIntervalForWave_anti (c : Config) (hacc : 0 ≤ c.spawnAccelPerWaveMs)
    {v w : ℤ} (h : v ≤ w) :
    _calcSpawnIntervalForWave c w ≤ _calcSpawnIntervalForWave c v := by
  unfold _calcSpawnIntervalForWave
  apply max_le_max le_rfl
  apply roundF64_mono
  apply sub_le_sub_left
  apply roundF64_mono
  apply mul_le_mul_of_nonneg_left _ hacc
  apply roundF64_mono
  have : (v : ℚ) ≤ (w : ℚ) := by exact_mod_cast h
  linarith

theorem testConfig_enemies (w : ℤ) (h1 : 1 ≤ w) (h2 : w < 2 ^ 52) :
    _calcEnemiesForWave testConfig w = 3 + 2 * (w - 1) := by
  rw [calcEnemiesForWave_int testConfig 3 2 w (by norm_num [testConfig])
    (by norm_num [testConfig]) (by rw [abs_of_nonneg] <;> omega)
    (by rw [abs_of_nonneg] <;> omega) (by rw [abs_of_nonneg] <;> omega)]
  exact max_eq_right (by omega)

theorem testConfig_interval (w : ℤ) (h1 : 1 ≤ w) (h2 : w < 2 ^ 50) :
    _calcSpawnIntervalForWave testConfig w = max 10 ((50 - 5 * (w - 1) : ℤ) : ℚ) := by
  rw [calcSpawnIntervalForWave_int testConfig 50 5 w (by norm_num [testConfig])
    (by norm_num [testConfig]) (by rw [abs_of_nonneg] <;> omega)
    (by rw [abs_of_nonneg] <;> omega) (by rw [abs_le]; constructor <;> omega)]
  rfl

theorem testConfig_wave1 :
    _calcEnemiesForWave testConfig 1 = 3 ∧ _calcSpawnIntervalForWave testConfig 1 = 50 := by
  constructor
  · rw [testConfig_enemies 1 (by norm_num) (by norm_num)]; norm_num
  · rw [testConfig_interval 1 (by norm_num) (by norm_num)]; norm_num

theorem testConfig_wave2 :
    _calcEnemiesForWave testConfig 2 = 5
      ∧ _calcSpawnIntervalForWave testConfig 2 = 45 := by
  constructor
  · rw [testConfig_enemies 2 (by norm_num) (by norm_num)]; norm_num
  · rw [testConfig_interval 2 (by norm_num) (by norm_num)]; norm_num


/-! ## Where rounding shows -/

theorem roundF64_one : roundF64 1 = 1 := by
  simpa using roundF64_intCast (n := 1) (by norm_num)

theorem fractionalConfig_values :
    roundF64 (3 / 2) = 3 / 2
      ∧ roundF64 (1 / 2 - 1 / 2 ^ 54) = 1 / 2 - 1 / 2 ^ 54
      ∧ roundF64 (3 / 2 + (1 / 2 - 1 / 2 ^ 54)) = 2 := by
  refine ⟨?_, ?_, ?_⟩
  · apply roundF64_exact 0 (3 * 2 ^ 51) (by norm_num) <;> norm_num [abs_of_pos]
  · apply roundF64_exact (-2) (2 ^ 53 - 1) (by norm_num) <;> norm_num [abs_of_pos]
  · have h := roundF64_eq (x := 3 / 2 + (1 / 2 - 1 / 2 ^ 54)) 0 (2 ^ 53) (by norm_num)
      (by rw [abs_of_pos] <;> norm_num) (by rw [abs_of_pos] <;> norm_num)
      (by norm_num) (by norm_num)
    rw [h]; norm_num

/-- C1, as stated, fails: with base 1.5 and increment 0.49999999999999994
(both binary64 values) the sum `1.5 + 0.49999999999999994` is rounded to 2, so
`_calcEnemiesForWave(2)` is 2, while `max(1, floor(...))` of the exact sum
1.99999999999999994 is 1. -/
theorem calcEnemiesForWave_not_exact :
    roundF64 fractionalConfig.baseEnemies = fractionalConfig.baseEnemies
      ∧ roundF64 fractionalConfig.perWaveIncrement = fractionalConfig.perWaveIncrement
      ∧ _calcEnemiesForWave fractionalConfig 2 = 2
      ∧ max 1 ⌊fractionalConfig.baseEnemies
          + fractionalConfig.perWaveIncrement * (((2 : ℤ) : ℚ) - 1)⌋ = 1 := by
  have hv := fractionalConfig_values
  refine ⟨hv.1, hv.2.1, ?_, ?_⟩
  · have e1 : (((2 : ℤ) : ℚ) - 1) = 1 := by norm_num
    unfold _calcEnemiesForWave
    rw [e1, roundF64_one]
    simp only [fractionalConfig, testConfig, mul_one]
    rw [hv.2.1, hv.2.2]
    norm_num
  · have hfl : ⌊(3 / 2 : ℚ) + (1 / 2 - 1 / 2 ^ 54) * (((2 : ℤ) : ℚ) - 1)⌋ = 1 := by
      rw [Int.floor_eq_iff]
      norm_num
    simp only [fractionalConfig, testConfig]
    rw [hfl]
    rfl


theorem roundF64_two_pow_53_add_one : roundF64 (2 ^ 53 + 1) = 2 ^ 53 := by
  have h := roundF64_tie (x := 2 ^ 53 + 1) 53 (2 ^ 52) (by norm_num)
    (by rw [abs_of_pos] <;> norm_num) (by rw [abs_of_pos] <;> norm_num)
    (by norm_num)
  rw [h]; norm_num

theorem roundF64_two_pow_54_add_one : roundF64 (2 ^ 54 + 1) = 2 ^ 54 := by
  have h := roundF64_eq (x := 2 ^ 54 + 1) 54 (2 ^ 52) (by norm_num)
    (by rw [abs_of_pos] <;> norm_num) (by rw [abs_of_pos] <;> norm_num)
    (by norm_num) (by norm_num)
  rw [h]; norm_num

theorem roundF64_two_pow_54_sub_two : roundF64 (2 ^ 54 - 2) = 2 ^ 54 - 2 := by
  apply roundF64_exact 53 (2 ^ 53 - 1) (by norm_num) <;> norm_num [abs_of_pos]

theorem largeBaseConfig_wave1 : _calcEnemiesForWave largeBaseConfig 1 = 2 ^ 53 := by
  have e1 : (((1 : ℤ) : ℚ) - 1) = 0 := by norm_num
  unfold _calcEnemiesForWave
  rw [e1, roundF64_zero]
  simp only [largeBaseConfig, testConfig, mul_zero, add_zero]
  rw [roundF64_zero, add_zero, roundF64_two_pow_53]
  have : ((2 : ℚ) ^ 53) = ((2 ^ 53 : ℤ) : ℚ) := by norm_num
  rw [this, Int.floor_intCast]
  norm_num

theorem largeBaseConfig_wave2 : _calcEnemiesForWave largeBaseConfig 2 = 2 ^ 53 := by
  have e1 : (((2 : ℤ) : ℚ) - 1) = 1 := by norm_num
  unfold _calcEnemiesForWave
  rw [e1, roundF64_one]
  simp only [largeBaseConfig, testConfig, mul_one]
  rw [roundF64_one, roundF64_two_pow_53_add_one]
  have : ((2 : ℚ) ^ 53) = ((2 ^ 53 : ℤ) : ℚ) := by norm_num
  rw [this, Int.floor_intCast]
  norm_num

theorem testConfig_wave_two_pow_52 : _calcEnemiesForWave testConfig (2 ^ 52) = 2 ^ 53 := by
  have e1 : (((2 ^ 52 : ℤ) : ℚ) - 1) = ((2 ^ 52 - 1 : ℤ) : ℚ) := by norm_num
  have e2 : (2 : ℚ) * ((2 ^ 52 - 1 : ℤ) : ℚ) = ((2 ^ 53 - 2 : ℤ) : ℚ) := by norm_num
  have e3 : (3 : ℚ) + ((2 ^ 53 - 2 : ℤ) : ℚ) = 2 ^ 53 + 1 := by norm_num
  have e4 : ((2 : ℚ) ^ 53) = ((2 ^ 53 : ℤ) : ℚ) := by norm_num
  unfold _calcEnemiesForWave
  simp only [testConfig]
  rw [e1, roundF64_intCast (by norm_num), e2, roundF64_intCast (by norm_num), e3,
    roundF64_two_pow_53_add_one, e4, Int.floor_intCast]
  norm_num

theorem testConfig_wave_two_pow_53 : _calcEnemiesForWave testConfig (2 ^ 53) = 2 ^ 54 := by
  have e1 : (((2 ^ 53 : ℤ) : ℚ) - 1) = ((2 ^ 53 - 1 : ℤ) : ℚ) := by norm_num
  have e2 : (2 : ℚ) * ((2 ^ 53 - 1 : ℤ) : ℚ) = 2 ^ 54 - 2 := by norm_num
  have e3 : (3 : ℚ) + (2 ^ 54 - 2) = 2 ^ 54 + 1 := by norm_num
  have e4 : ((2 : ℚ) ^ 54) = ((2 ^ 54 : ℤ) : ℚ) := by norm_num
  unfold _calcEnemiesForWave
  simp only [testConfig]
  rw [e1, roundF64_intCast (by norm_num), e2, roundF64_two_pow_54_sub_two, e3,
    roundF64_two_pow_54_add_one, e4, Int.floor_intCast]
  norm_num

theorem unevenAccelConfig_values :
    roundF64 (1 + 1 / 2 ^ 52) = 1 + 1 / 2 ^ 52
      ∧ roundF64 ((1 + 1 / 2 ^ 52) * 3) = 3 + 1 / 2 ^ 50
      ∧ roundF64 (10 - (3 + 1 / 2 ^ 50)) = 7 - 1 / 2 ^ 50 := by
  refine ⟨?_, ?_, ?_⟩
  · apply roundF64_exact 0 (2 ^ 52 + 1) (by norm_num) <;> norm_num [abs_of_pos]
  · have h := roundF64_tie (x := (1 + 1 / 2 ^ 52) * 3) 1 (3 * 2 ^ 51 + 1) (by norm_num)
      (by rw [abs_of_pos] <;> norm_num) (by rw [abs_of_pos] <;> norm_num)
      (by norm_num)
    rw [h]; norm_num
  · have h := roundF64_exact (x := 10 - (3 + 1 / 2 ^ 50)) 2 (7 * 2 ^ 50 - 1) (by norm_num)
      (by rw [abs_of_pos] <;> norm_num) (by rw [abs_of_pos] <;> norm_num) (by norm_num)
    rw [h]; norm_num

theorem unevenAccelConfig_wave4 :
    _calcSpawnIntervalForWave unevenAccelConfig 4 = 7 - 1 / 2 ^ 50 := by
  have hv := unevenAccelConfig_values
  have e1 : (((4 : ℤ) : ℚ) - 1) = ((3 : ℤ) : ℚ) := by norm_num
  unfold _calcSpawnIntervalForWave
  simp only [unevenAccelConfig, testConfig]
  rw [e1, roundF64_intCast (by norm_num)]
  push_cast
  rw [hv.2.1, hv.2.2]
  norm_num

theorem roundF64_two_pow_1024 : roundF64 (2 ^ 1024) = 2 ^ 1024 := by
  apply roundF64_exact 1024 (2 ^ 52) (by norm_num) <;> norm_num [abs_of_pos]

theorem tinyAccelConfig_interval (w : ℤ) (h1 : 1 ≤ w) (h2 : (w : ℚ) < 2 ^ 1024) :
    _calcSpawnIntervalForWave tinyAccelConfig w = 800 := by
  have hw : (0 : ℚ) ≤ (w : ℚ) - 1 := by
    have : (1 : ℚ) ≤ (w : ℚ) := by exact_mod_cast h1
    linarith
  have hv0 : 0 ≤ roundF64 ((w : ℚ) - 1) := roundF64_nonneg hw
  have hv1 : roundF64 ((w : ℚ) - 1) ≤ 2 ^ 1024 := by
    rw [← roundF64_two_pow_1024]
    exact roundF64_mono (by linarith)
  have hp0 : 0 ≤ roundF64 (1 / 2 ^ 1074 * roundF64 ((w : ℚ) - 1)) :=
    roundF64_nonneg (mul_nonneg (by norm_num) hv0)
  have hp1 : roundF64 (1 / 2 ^ 1074 * roundF64 ((w : ℚ) - 1)) ≤ 1 / 2 ^ 50 := by
    have h50 : roundF64 (1 / 2 ^ 50) = 1 / 2 ^ 50 := by
      apply roundF64_exact (-50) (2 ^ 52) (by norm_num) <;> norm_num [abs_of_pos]
    rw [← h50]
    apply roundF64_mono
    calc (1 : ℚ) / 2 ^ 1074 * roundF64 ((w : ℚ) - 1)
        ≤ 1 / 2 ^ 1074 * 2 ^ 1024 := mul_le_mul_of_nonneg_left hv1 (by norm_num)
      _ = 1 / 2 ^ 50 := by norm_num
  have hlo : roundF64 (800 - 1 / 2 ^ 50) = 800 := by
    have h := roundF64_eq (x := 800 - 1 / 2 ^ 50) 9 (800 * 2 ^ 43) (by norm_num)
      (by rw [abs_of_pos] <;> norm_num) (by rw [abs_of_pos] <;> norm_num)
      (by norm_num) (by norm_num)
    rw [h]; norm_num
  have hhi : roundF64 800 = 800 := by
    simpa using roundF64_intCast (n := 800) (by norm_num)
  have hq : roundF64 (800 - roundF64 (1 / 2 ^ 1074 * roundF64 ((w : ℚ) - 1))) = 800 := by
    apply le_antisymm
    · have := roundF64_mono
        (x := 800 - roundF64 (1 / 2 ^ 1074 * roundF64 ((w : ℚ) - 1))) (y := 800)
        (by linarith)
      rw [hhi] at this
      exact this
    · have := roundF64_mono (x := 800 - 1 / 2 ^ 50)
        (y := 800 - roundF64 (1 / 2 ^ 1074 * roundF64 ((w : ℚ) - 1))) (by linarith)
      rw [hlo] at this
      exact this
  unfold _calcSpawnIntervalForWave
  simp only [tinyAccelConfig, testConfig]
  rw [hq]
  norm_num


/-! ## The two per-wave formulas: the claims -/

theorem f64Finite_of_eq_intCast {x : ℚ} (n : ℤ) (hx : x = (n : ℚ)) (h : |n| ≤ 2 ^ 53) :
    f64Finite x ∧ roundF64 x = (n : ℚ) := by
  have hr : roundF64 x = (n : ℚ) := by rw [hx]; exact roundF64_intCast h
  refine ⟨?_, hr⟩
  unfold f64Finite
  rw [hr]
  have h1 : |(n : ℚ)| ≤ 2 ^ 53 := by exact_mod_cast h
  have h2 : (2 : ℚ) ^ 53 < 2 ^ 1024 := by norm_num
  linarith

theorem beginWave_toSpawn (c : Config) (h : Host) (s : State) :
    (_beginWave c h s).st._toSpawn = _calcEnemiesForWave c s.wave := by
  unfold _beginWave
  split <;> rfl

/-- C1, amended: `_calcEnemiesForWave(w)` is `max(1, floor(...))` of
`baseEnemies + perWaveIncrement*(w-1)` as binary64 arithmetic computes it, the
difference, the product and the sum each rounded to the nearest binary64
value (none of them reaching `2^1024`). When `baseEnemies` and
`perWaveIncrement` are integers and `w-1`, the product and the sum stay within
`2^53` in magnitude, nothing is rounded and the value is that of the exact
formula. The value is at least 1 for every `w`, and `_beginWave` stores it for
the current wave in `_toSpawn` and passes it as `count` to `onWaveStart`, the
only callback it invokes. -/
theorem calcEnemiesForWave_spec (c : Config) (w : ℤ) (h : Host) (s : State) :
    (f64Finite ((w : ℚ) - 1) →
        f64Finite (c.perWaveIncrement * roundF64 ((w : ℚ) - 1)) →
        f64Finite (c.baseEnemies + roundF64 (c.perWaveIncrement * roundF64 ((w : ℚ) - 1))) →
        _calcEnemiesForWave c w
          = max 1 ⌊roundF64 (c.baseEnemies
              + roundF64 (c.perWaveIncrement * roundF64 ((w : ℚ) - 1)))⌋)
      ∧ (∀ b i : ℤ, c.baseEnemies = (b : ℚ) → c.perWaveIncrement = (i : ℚ) →
          |w - 1| ≤ 2 ^ 53 → |i * (w - 1)| ≤ 2 ^ 53 → |b + i * (w - 1)| ≤ 2 ^ 53 →
          _calcEnemiesForWave c w
            = max 1 ⌊c.baseEnemies + c.perWaveIncrement * ((w : ℚ) - 1)⌋)
      ∧ 1 ≤ _calcEnemiesForWave c w
      ∧ (_beginWave c h s).st._toSpawn = _calcEnemiesForWave c s.wave
      ∧ (_beginWave c h s).st.log
          = s.log ++ [Event.onWaveStart s.wave (_calcEnemiesForWave c s.wave)
                        (_calcSpawnIntervalForWave c s.wave)] := by
  refine ⟨fun _ _ _ => rfl, ?_, le_max_left _ _, beginWave_toSpawn c h s, ?_⟩
  · intro b i hb hi h1 h2 h3
    have e : c.baseEnemies + c.perWaveIncrement * ((w : ℚ) - 1)
        = ((b + i * (w - 1) : ℤ) : ℚ) := by
      rw [hb, hi]; push_cast; ring
    rw [calcEnemiesForWave_int c b i w hb hi h1 h2 h3, e, Int.floor_intCast]
  · unfold _beginWave
    split <;> rfl

/-- The amended C1 at the test configuration, wave 2: nothing is rounded and
the count is 5. -/
theorem calcEnemiesForWave_spec_witness :
    f64Finite (((2 : ℤ) : ℚ) - 1)
      ∧ f64Finite (testConfig.perWaveIncrement * roundF64 (((2 : ℤ) : ℚ) - 1))
      ∧ f64Finite (testConfig.baseEnemies
          + roundF64 (testConfig.perWaveIncrement * roundF64 (((2 : ℤ) : ℚ) - 1)))
      ∧ _calcEnemiesForWave testConfig 2
          = max 1 ⌊roundF64 (testConfig.baseEnemies
              + roundF64 (testConfig.perWaveIncrement * roundF64 (((2 : ℤ) : ℚ) - 1)))⌋
      ∧ testConfig.baseEnemies = ((3 : ℤ) : ℚ)
      ∧ testConfig.perWaveIncrement = ((2 : ℤ) : ℚ)
      ∧ |(2 : ℤ) - 1| ≤ 2 ^ 53
      ∧ |(2 : ℤ) * (2 - 1)| ≤ 2 ^ 53
      ∧ |(3 : ℤ) + 2 * (2 - 1)| ≤ 2 ^ 53
      ∧ _calcEnemiesForWave testConfig 2
          = max 1 ⌊testConfig.baseEnemies + testConfig.perWaveIncrement * (((2 : ℤ) : ℚ) - 1)⌋ :=
  have f1 := f64Finite_of_eq_intCast (x := ((2 : ℤ) : ℚ) - 1) 1 (by norm_num) (by norm_num)
  have f2 := f64Finite_of_eq_intCast
    (x := testConfig.perWaveIncrement * roundF64 (((2 : ℤ) : ℚ) - 1)) 2
    (by rw [f1.2]; norm_num [testConfig]) (by norm_num)
  have f3 := f64Finite_of_eq_intCast
    (x := testConfig.baseEnemies
      + roundF64 (testConfig.perWaveIncrement * roundF64 (((2 : ℤ) : ℚ) - 1))) 5
    (by rw [f2.2]; norm_num [testConfig]) (by norm_num)
  have hb : testConfig.baseEnemies = ((3 : ℤ) : ℚ) := by norm_num [testConfig]
  have hi : testConfig.perWaveIncrement = ((2 : ℤ) : ℚ) := by norm_num [testConfig]
  ⟨f1.1, f2.1, f3.1,
    (calcEnemiesForWave_spec testConfig 2 quietHost _resetState).1 f1.1 f2.1 f3.1,
    hb, hi, by norm_num, by norm_num, by norm_num,
    (calcEnemiesForWave_spec testConfig 2 quietHost _resetState).2.1 3 2 hb hi
      (by norm_num) (by norm_num) (by norm_num)⟩

/-- C2, as stated, fails: with a positive increment the target count need not
grow from wave 1 to wave 2, because `max(1, ·)` clamps both waves (base 0,
increment 1), because `floor` absorbs a fractional increment (base 5,
increment 1/2), or because the sum is rounded to binary64 (base `2^53`,
increment 1: both waves give `2^53`). -/
theorem calcEnemiesForWave_not_strictly_increasing :
    (0 < ({ testConfig with baseEnemies := 0, perWaveIncrement := 1 } : Config).perWaveIncrement
      ∧ ¬ _calcEnemiesForWave { testConfig with baseEnemies := 0, perWaveIncrement := 1 } (1 + 1)
          > _calcEnemiesForWave { testConfig with baseEnemies := 0, perWaveIncrement := 1 } 1)
    ∧ (0 < ({ testConfig with baseEnemies := 5, perWaveIncrement := 1 / 2 } : Config).perWaveIncrement
      ∧ ¬ _calcEnemiesForWave { testConfig with baseEnemies := 5, perWaveIncrement := 1 / 2 } (1 + 1)
          > _calcEnemiesForWave { testConfig with baseEnemies := 5, perWaveIncrement := 1 / 2 } 1)
    ∧ (0 < largeBaseConfig.perWaveIncrement
      ∧ ¬ _calcEnemiesForWave largeBaseConfig (1 + 1) > _calcEnemiesForWave largeBaseConfig 1) := by
  have e0 : (((1 : ℤ) : ℚ) - 1) = 0 := by norm_num
  have e1 : (((1 + 1 : ℤ) : ℚ) - 1) = 1 := by norm_num
  have hhalf : roundF64 (1 / 2) = 1 / 2 := by
    apply roundF64_exact (-1) (2 ^ 52) (by norm_num) <;> norm_num [abs_of_pos]
  have h5 : roundF64 5 = 5 := by simpa using roundF64_intCast (n := 5) (by norm_num)
  have h55 : roundF64 (5 + 1 / 2) = 11 / 2 := by
    have h := roundF64_exact (x := 5 + 1 / 2) 2 (11 * 2 ^ 49) (by norm_num)
      (by rw [abs_of_pos] <;> norm_num) (by rw [abs_of_pos] <;> norm_num) (by norm_num)
    rw [h]; norm_num
  have hfl : ⌊(11 / 2 : ℚ)⌋ = 5 := by
    rw [Int.floor_eq_iff]; norm_num
  refine ⟨⟨by norm_num [testConfig], ?_⟩, ⟨by norm_num [testConfig], ?_⟩,
    ⟨by norm_num [largeBaseConfig, testConfig], ?_⟩⟩
  · have a1 : _calcEnemiesForWave { testConfig with baseEnemies := 0, perWaveIncrement := 1 }
        (1 + 1) = 1 := by
      unfold _calcEnemiesForWave
      rw [e1, roundF64_one]
      simp only [mul_one, zero_add]
      rw [roundF64_one, roundF64_one]
      norm_num
    have a0 : _calcEnemiesForWave { testConfig with baseEnemies := 0, perWaveIncrement := 1 }
        1 = 1 := by
      unfold _calcEnemiesForWave
      rw [e0, roundF64_zero]
      simp only [mul_zero, zero_add]
      rw [roundF64_zero, roundF64_zero]
      norm_num
    rw [a1, a0]
    norm_num
  · have a1 : _calcEnemiesForWave { testConfig with baseEnemies := 5, perWaveIncrement := 1 / 2 }
        (1 + 1) = 5 := by
      unfold _calcEnemiesForWave
      rw [e1, roundF64_one]
      simp only [mul_one]
      rw [hhalf, h55, hfl]
      norm_num
    have a0 : _calcEnemiesForWave { testConfig with baseEnemies := 5, perWaveIncrement := 1 / 2 }
        1 = 5 := by
      unfold _calcEnemiesForWave
      rw [e0, roundF64_zero]
      simp only [mul_zero, add_zero]
      rw [roundF64_zero, add_zero, h5]
      norm_num
    rw [a1, a0]
    norm_num
  · have a1 : _calcEnemiesForWave largeBaseConfig (1 + 1) = 2 ^ 53 := largeBaseConfig_wave2
    rw [a1, largeBaseConfig_wave1]
    norm_num

/-- C2, amended: when `baseEnemies` and `perWaveIncrement` are integers, the
increment is at least 1, the unclamped value `baseEnemies +
perWaveIncrement*(w-1)` is at least 1 (as it is for every `w >= 1` when
`baseEnemies >= 1`) and the product and the sum for wave `w+1` stay within
`2^53`, the target count of wave `w+1` is strictly greater than that of wave
`w`. -/
theorem calcEnemiesForWave_strictly_increasing (c : Config) (b i w : ℤ)
    (hb : c.baseEnemies = (b : ℚ)) (hi : c.perWaveIncrement = (i : ℚ))
    (hw : 1 ≤ w) (hinc : 1 ≤ i) (hval : 1 ≤ b + i * (w - 1))
    (h1 : i * w ≤ 2 ^ 53) (h2 : b + i * w ≤ 2 ^ 53) :
    _calcEnemiesForWave c (w + 1) > _calcEnemiesForWave c w := by
  have e : i * (w - 1) = i * w - i := by ring
  have e' : i * (w + 1 - 1) = i * w := by ring_nf
  have hiw : w ≤ i * w := by nlinarith
  have hp : 0 ≤ i * w - i := by nlinarith
  rw [calcEnemiesForWave_int c b i w hb hi
      (abs_le.mpr ⟨by linarith, by linarith⟩)
      (abs_le.mpr ⟨by linarith, by linarith⟩)
      (abs_le.mpr ⟨by linarith, by linarith⟩),
    calcEnemiesForWave_int c b i (w + 1) hb hi
      (abs_le.mpr ⟨by linarith, by linarith⟩)
      (abs_le.mpr ⟨by linarith, by linarith⟩)
      (abs_le.mpr ⟨by linarith, by linarith⟩),
    e', max_eq_right hval, max_eq_right (by linarith)]
  linarith

/-- The amended C2 at the test configuration, wave 1. -/
theorem calcEnemiesForWave_strictly_increasing_witness :
    testConfig.baseEnemies = ((3 : ℤ) : ℚ)
      ∧ testConfig.perWaveIncrement = ((2 : ℤ) : ℚ)
      ∧ (1 : ℤ) ≤ 1 ∧ (1 : ℤ) ≤ 2 ∧ (1 : ℤ) ≤ 3 + 2 * (1 - 1)
      ∧ (2 : ℤ) * 1 ≤ 2 ^ 53 ∧ (3 : ℤ) + 2 * 1 ≤ 2 ^ 53
      ∧ _calcEnemiesForWave testConfig (1 + 1) > _calcEnemiesForWave testConfig 1 :=
  ⟨by norm_num [testConfig], by norm_num [testConfig], by norm_num, by norm_num,
    by norm_num, by norm_num, by norm_num,
    calcEnemiesForWave_strictly_increasing testConfig 3 2 1 (by norm_num [testConfig])
      (by norm_num [testConfig]) (by norm_num) (by norm_num) (by norm_num) (by norm_num)
      (by norm_num)⟩

/-- C3, as stated, fails: with base interval 10, minimum 0 and acceleration
1.0000000000000002 (the binary64 value next above 1) the product
`1.0000000000000002 * 3` is rounded up, so `_calcSpawnIntervalForWave(4)` is
`7 - 2^-50`, while the exact value of `max(min, base - accel*(w-1))` is
`7 - 3*2^-52`. -/
theorem calcSpawnIntervalForWave_not_exact :
    roundF64 unevenAccelConfig.spawnAccelPerWaveMs = unevenAccelConfig.spawnAccelPerWaveMs
      ∧ _calcSpawnIntervalForWave unevenAccelConfig 4 = 7 - 1 / 2 ^ 50
      ∧ max unevenAccelConfig.minSpawnIntervalMs
          (unevenAccelConfig.baseSpawnIntervalMs
            - unevenAccelConfig.spawnAccelPerWaveMs * (((4 : ℤ) : ℚ) - 1)) = 7 - 3 / 2 ^ 52
      ∧ _calcSpawnIntervalForWave unevenAccelConfig 4
          ≠ max unevenAccelConfig.minSpawnIntervalMs
              (unevenAccelConfig.baseSpawnIntervalMs
                - unevenAccelConfig.spawnAccelPerWaveMs * (((4 : ℤ) : ℚ) - 1)) := by
  have hx : max unevenAccelConfig.minSpawnIntervalMs
      (unevenAccelConfig.baseSpawnIntervalMs
        - unevenAccelConfig.spawnAccelPerWaveMs * (((4 : ℤ) : ℚ) - 1)) = 7 - 3 / 2 ^ 52 := by
    simp only [unevenAccelConfig, testConfig]
    norm_num
  refine ⟨unevenAccelConfig_values.1, unevenAccelConfig_wave4, hx, ?_⟩
  rw [hx, unevenAccelConfig_wave4]
  norm_num

/-- C3, amended: `_calcSpawnIntervalForWave(w)` is
`max(minSpawnIntervalMs, ...)` of `baseSpawnIntervalMs -
spawnAccelPerWaveMs*(w-1)` as binary64 arithmetic computes it, the difference
`w-1`, the product and the outer difference each rounded to the nearest
binary64 value (none of them reaching `2^1024`). When `baseSpawnIntervalMs`
and `spawnAccelPerWaveMs` are integers and `w-1`, the product and the
difference stay within `2^53` in magnitude, nothing is rounded and the value
is that of the exact formula. The value is never below the minimum;
`_beginWave` passes it for the current wave as `spawnIntervalMs` to
`onWaveStart` and, once `onWaveStart` has returned, replaces the spawn cadence
by a repeating timer with this delay. -/
theorem calcSpawnIntervalForWave_spec (c : Config) (w : ℤ) (h : Host) (s : State) :
    (f64Finite ((w : ℚ) - 1) →
        f64Finite (c.spawnAccelPerWaveMs * roundF64 ((w : ℚ) - 1)) →
        f64Finite (c.baseSpawnIntervalMs
          - roundF64 (c.spawnAccelPerWaveMs * roundF64 ((w : ℚ) - 1))) →
        _calcSpawnIntervalForWave c w
          = max c.minSpawnIntervalMs
              (roundF64 (c.baseSpawnIntervalMs
                - roundF64 (c.spawnAccelPerWaveMs * roundF64 ((w : ℚ) - 1)))))
      ∧ (∀ b a : ℤ, c.baseSpawnIntervalMs = (b : ℚ) → c.spawnAccelPerWaveMs = (a : ℚ) →
          |w - 1| ≤ 2 ^ 53 → |a * (w - 1)| ≤ 2 ^ 53 → |b - a * (w - 1)| ≤ 2 ^ 53 →
          _calcSpawnIntervalForWave c w
            = max c.minSpawnIntervalMs
                (c.baseSpawnIntervalMs - c.spawnAccelPerWaveMs * ((w : ℚ) - 1)))
      ∧ c.minSpawnIntervalMs ≤ _calcSpawnIntervalForWave c w
      ∧ (_beginWave c h s).st.log
          = s.log ++ [Event.onWaveStart s.wave (_calcEnemiesForWave c s.wave)
                        (_calcSpawnIntervalForWave c s.wave)]
      ∧ (h.onWaveStartRaises = false →
          (_beginWave c h s).st.timers
              = clearTimer s.timers s._spawnTimer
                  ++ [⟨s.nextId, TimerKind.spawnTick, _calcSpawnIntervalForWave c s.wave⟩]
            ∧ (_beginWave c h s).st._spawnTimer = some s.nextId) := by
  refine ⟨fun _ _ _ => rfl, ?_, le_max_left _ _, ?_, ?_⟩
  · intro b a hb ha h1 h2 h3
    have e : c.baseSpawnIntervalMs - c.spawnAccelPerWaveMs * ((w : ℚ) - 1)
        = ((b - a * (w - 1) : ℤ) : ℚ) := by
      rw [hb, ha]; push_cast; ring
    rw [calcSpawnIntervalForWave_int c b a w hb ha h1 h2 h3, e]
  · unfold _beginWave
    split <;> rfl
  · intro hq
    simp [_beginWave, hq, _startSpawnLoop, State.emit, Res.ok]

/-- The amended C3 at the test configuration: at wave 3 nothing is rounded
and the interval is 40; `_beginWave` on a fresh scheduler arms timer 1. -/
theorem calcSpawnIntervalForWave_spec_witness :
    f64Finite (((3 : ℤ) : ℚ) - 1)
      ∧ f64Finite (testConfig.spawnAccelPerWaveMs * roundF64 (((3 : ℤ) : ℚ) - 1))
      ∧ f64Finite (testConfig.baseSpawnIntervalMs
          - roundF64 (testConfig.spawnAccelPerWaveMs * roundF64 (((3 : ℤ) : ℚ) - 1)))
      ∧ _calcSpawnIntervalForWave testConfig 3
          = max testConfig.minSpawnIntervalMs
              (roundF64 (testConfig.baseSpawnIntervalMs
                - roundF64 (testConfig.spawnAccelPerWaveMs * roundF64 (((3 : ℤ) : ℚ) - 1))))
      ∧ testConfig.baseSpawnIntervalMs = ((50 : ℤ) : ℚ)
      ∧ testConfig.spawnAccelPerWaveMs = ((5 : ℤ) : ℚ)
      ∧ |(3 : ℤ) - 1| ≤ 2 ^ 53
      ∧ |(5 : ℤ) * (3 - 1)| ≤ 2 ^ 53
      ∧ |(50 : ℤ) - 5 * (3 - 1)| ≤ 2 ^ 53
      ∧ _calcSpawnIntervalForWave testConfig 3
          = max testConfig.minSpawnIntervalMs
              (testConfig.baseSpawnIntervalMs
                - testConfig.spawnAccelPerWaveMs * (((3 : ℤ) : ℚ) - 1))
      ∧ quietHost.onWaveStartRaises = false
      ∧ (_beginWave testConfig quietHost _resetState).st._spawnTimer = some 1 :=
  have f1 := f64Finite_of_eq_intCast (x := ((3 : ℤ) : ℚ) - 1) 2 (by norm_num) (by norm_num)
  have f2 := f64Finite_of_eq_intCast
    (x := testConfig.spawnAccelPerWaveMs * roundF64 (((3 : ℤ) : ℚ) - 1)) 10
    (by rw [f1.2]; norm_num [testConfig]) (by norm_num)
  have f3 := f64Finite_of_eq_intCast
    (x := testConfig.baseSpawnIntervalMs
      - roundF64 (testConfig.spawnAccelPerWaveMs * roundF64 (((3 : ℤ) : ℚ) - 1))) 40
    (by rw [f2.2]; norm_num [testConfig]) (by norm_num)
  have hb : testConfig.baseSpawnIntervalMs = ((50 : ℤ) : ℚ) := by norm_num [testConfig]
  have ha : testConfig.spawnAccelPerWaveMs = ((5 : ℤ) : ℚ) := by norm_num [testConfig]
  ⟨f1.1, f2.1, f3.1,
    (calcSpawnIntervalForWave_spec testConfig 3 quietHost _resetState).1 f1.1 f2.1 f3.1,
    hb, ha, by norm_num, by norm_num, by norm_num,
    (calcSpawnIntervalForWave_spec testConfig 3 quietHost _resetState).2.1 50 5 hb ha
      (by norm_num) (by norm_num) (by norm_num),
    rfl,
    ((calcSpawnIntervalForWave_spec testConfig 1 quietHost _resetState).2.2.2.2 rfl).2⟩

/-- C4: with a non-negative acceleration the spawn interval of wave `w+1` is
at most that of wave `w`, for every wave number `w` (so for every `w >= 1`). -/
theorem calcSpawnIntervalForWave_antitone (c : Config) (w : ℤ)
    (hacc : 0 ≤ c.spawnAccelPerWaveMs) :
    _calcSpawnIntervalForWave c (w + 1) ≤ _calcSpawnIntervalForWave c w :=
  calcSpawnIntervalForWave_anti c hacc (by omega)

/-- C4 at the test configuration, wave 3. -/
theorem calcSpawnIntervalForWave_antitone_witness :
    0 ≤ testConfig.spawnAccelPerWaveMs
      ∧ _calcSpawnIntervalForWave testConfig (3 + 1) ≤ _calcSpawnIntervalForWave testConfig 3 :=
  ⟨by norm_num [testConfig],
    calcSpawnIntervalForWave_antitone testConfig 3 (by norm_num [testConfig])⟩

/-- C5, as stated, fails: with base interval 800, minimum 200 and the
positive acceleration `2^-1074` (5e-324, the smallest positive binary64 value)
the product `accel*(w-1)` is at most `2^-50` at every wave number below
`2^1024`, beyond which there is no binary64 number, and `800` minus it is
rounded to 800: the interval is 800 at every wave and no wave `W` has the
minimum from `W` on. -/
theorem calcSpawnIntervalForWave_never_converges :
    0 < tinyAccelConfig.spawnAccelPerWaveMs
      ∧ roundF64 tinyAccelConfig.spawnAccelPerWaveMs = tinyAccelConfig.spawnAccelPerWaveMs
      ∧ (∀ w : ℤ, 1 ≤ w → (w : ℚ) < 2 ^ 1024 →
          _calcSpawnIntervalForWave tinyAccelConfig w = 800)
      ∧ ¬ ∃ W : ℤ, (W : ℚ) < 2 ^ 1024 ∧ ∀ w : ℤ, W ≤ w → (w : ℚ) < 2 ^ 1024 →
          _calcSpawnIntervalForWave tinyAccelConfig w
            = tinyAccelConfig.minSpawnIntervalMs := by
  refine ⟨by norm_num [tinyAccelConfig], ?_, tinyAccelConfig_interval, ?_⟩
  · simp only [tinyAccelConfig]
    apply roundF64_of_grid 1
    rw [f64Ulp, f64Exponent_subnormal (by rw [abs_of_pos] <;> norm_num)]
    norm_num
  · rintro ⟨W, hW, hall⟩
    have hm : ((max W 1 : ℤ) : ℚ) < 2 ^ 1024 := by
      rcases le_total W 1 with h | h
      · rw [max_eq_right h]; norm_num
      · rw [max_eq_left h]; exact hW
    have h1 := hall (max W 1) (le_max_left _ _) hm
    rw [tinyAccelConfig_interval (max W 1) (le_max_right _ _) hm] at h1
    norm_num [tinyAccelConfig] at h1

/-- C5, amended: with a non-negative acceleration, once the interval of some
wave `W` is `minSpawnIntervalMs` it is `minSpawnIntervalMs` at every `w >= W`.
When `baseSpawnIntervalMs` and `spawnAccelPerWaveMs > 0` are integers, any
wave `W >= 1` with `baseSpawnIntervalMs - spawnAccelPerWaveMs*(W-1) <=
minSpawnIntervalMs` whose product and difference stay within `2^53` is such a
wave. With the test configuration (base 50, minimum 10, acceleration 5) the
interval at wave 20 and at wave 1000 is 10. -/
theorem calcSpawnIntervalForWave_converges :
    (∀ c : Config, 0 ≤ c.spawnAccelPerWaveMs → ∀ W : ℤ,
        _calcSpawnIntervalForWave c W = c.minSpawnIntervalMs →
        ∀ w : ℤ, W ≤ w → _calcSpawnIntervalForWave c w = c.minSpawnIntervalMs)
      ∧ (∀ (c : Config) (b a W : ℤ),
          c.baseSpawnIntervalMs = (b : ℚ) → c.spawnAccelPerWaveMs = (a : ℚ) →
          0 < a → 1 ≤ W → a * (W - 1) ≤ 2 ^ 53 → |b - a * (W - 1)| ≤ 2 ^ 53 →
          c.baseSpawnIntervalMs - c.spawnAccelPerWaveMs * ((W : ℚ) - 1)
              ≤ c.minSpawnIntervalMs →
          ∀ w : ℤ, W ≤ w → _calcSpawnIntervalForWave c w = c.minSpawnIntervalMs)
      ∧ _calcSpawnIntervalForWave testConfig 20 = 10
      ∧ _calcSpawnIntervalForWave testConfig 1000 = 10 := by
  have stay : ∀ c : Config, 0 ≤ c.spawnAccelPerWaveMs → ∀ W : ℤ,
      _calcSpawnIntervalForWave c W = c.minSpawnIntervalMs →
      ∀ w : ℤ, W ≤ w → _calcSpawnIntervalForWave c w = c.minSpawnIntervalMs := by
    intro c hacc W hW w hw
    apply le_antisymm
    · rw [← hW]
      exact calcSpawnIntervalForWave_anti c hacc hw
    · exact le_max_left _ _
  refine ⟨stay, ?_, ?_, ?_⟩
  · intro c b a W hb ha ha0 hW1 h2 h3 hle w hw
    have haq : (0 : ℚ) ≤ c.spawnAccelPerWaveMs := by
      rw [ha]; exact_mod_cast ha0.le
    have hW0 : W - 1 ≤ a * (W - 1) := by nlinarith
    have e : c.baseSpawnIntervalMs - c.spawnAccelPerWaveMs * ((W : ℚ) - 1)
        = ((b - a * (W - 1) : ℤ) : ℚ) := by
      rw [hb, ha]; push_cast; ring
    have hp0 : 0 ≤ a * (W - 1) := by nlinarith
    refine stay c haq W ?_ w hw
    rw [calcSpawnIntervalForWave_int c b a W hb ha
      (abs_le.mpr ⟨by linarith, by linarith⟩)
      (abs_le.mpr ⟨by linarith, by linarith⟩) h3, ← e]
    exact max_eq_left hle
  · rw [testConfig_interval 20 (by norm_num) (by norm_num)]; norm_num
  · rw [testConfig_interval 1000 (by norm_num) (by norm_num)]; norm_num

/-- The amended C5 at the test configuration: wave 9 is such a `W`, so wave
12 already has the minimum interval. -/
theorem calcSpawnIntervalForWave_converges_witness :
    testConfig.baseSpawnIntervalMs = ((50 : ℤ) : ℚ)
      ∧ testConfig.spawnAccelPerWaveMs = ((5 : ℤ) : ℚ)
      ∧ (0 : ℤ) < 5 ∧ (1 : ℤ) ≤ 9 ∧ (5 : ℤ) * (9 - 1) ≤ 2 ^ 53
      ∧ |(50 : ℤ) - 5 * (9 - 1)| ≤ 2 ^ 53
      ∧ testConfig.baseSpawnIntervalMs - testConfig.spawnAccelPerWaveMs * (((9 : ℤ) : ℚ) - 1)
          ≤ testConfig.minSpawnIntervalMs
      ∧ (9 : ℤ) ≤ 12
      ∧ _calcSpawnIntervalForWave testConfig 12 = testConfig.minSpawnIntervalMs
      ∧ 0 ≤ testConfig.spawnAccelPerWaveMs
      ∧ _calcSpawnIntervalForWave testConfig 12 = testConfig.minSpawnIntervalMs
      ∧ (12 : ℤ) ≤ 30
      ∧ _calcSpawnIntervalForWave testConfig 30 = testConfig.minSpawnIntervalMs :=
  have h12 : _calcSpawnIntervalForWave testConfig 12 = testConfig.minSpawnIntervalMs :=
    calcSpawnIntervalForWave_converges.2.1 testConfig 50 5 9 (by norm_num [testConfig])
      (by norm_num [testConfig]) (by norm_num) (by norm_num) (by norm_num) (by norm_num)
      (by norm_num [testConfig]) 12 (by norm_num)
  ⟨by norm_num [testConfig], by norm_num [testConfig], by norm_num, by norm_num,
    by norm_num, by norm_num, by norm_num [testConfig], by norm_num, h12,
    by norm_num [testConfig], h12, by norm_num,
    calcSpawnIntervalForWave_converges.1 testConfig (by norm_num [testConfig]) 12 h12 30
      (by norm_num)⟩


/-! ## Invariants of reachable states -/

theorem run_nil (c : Config) (s : State) : run c s [] = s := rfl

theorem run_cons (c : Config) (s : State) (a : Action) (as : List Action) :
    run c s (a :: as) = run c (step c s a).st as := rfl

theorem run_append (c : Config) (s : State) (as bs : List Action) :
    run c s (as ++ bs) = run c (run c s as) bs := by
  simp [run, List.foldl_append]

theorem inv_resetState : Inv _resetState := by
  constructor <;> simp [_resetState]

theorem mem_clearTimer {ts : List Timer} {h : Option Nat} {t : Timer}
    (ht : t ∈ clearTimer ts h) : t ∈ ts ∧ h ≠ some t.id := by
  cases h with
  | none => exact ⟨ht, by simp⟩
  | some i =>
    simp only [clearTimer, List.mem_filter, decide_eq_true_eq] at ht
    exact ⟨ht.1, fun h => ht.2 (by injection h with h; exact h.symm)⟩

theorem clearTimer_nil (h : Option Nat) : clearTimer [] h = [] := by
  cases h <;> rfl

theorem inv_beginWave (c : Config) (h : Host) (s : State)
    (htick : ∀ t ∈ s.timers, t.kind = .spawnTick → s._spawnTimer = some t.id)
    (hint : ∀ t ∈ s.timers, t.kind ≠ .intermission)
    (hrun : s.running = true) (hnone : s._intermissionTimer = none) :
    Inv (_beginWave c h s).st := by
  have h1 : (1 : ℤ) ≤ _calcEnemiesForWave c s.wave := le_max_left _ _
  unfold _beginWave
  split
  · constructor <;> simp [Res.throw, State.emit, hrun, hnone]
    · omega
    · exact htick
    · intro t ht hk; exact absurd hk (hint t ht)
  · constructor <;> simp [Res.ok, State.emit, _startSpawnLoop, hrun, hnone]
    · omega
    · intro t ht hk
      rcases ht with ht | ht
      · have := mem_clearTimer ht
        exact absurd (htick t this.1 hk) this.2
      · simp [ht]
    · intro t ht hk
      rcases ht with ht | ht
      · exact absurd hk (hint t (mem_clearTimer ht).1)
      · simp [ht] at hk

theorem inv_maybeCompleteWave (c : Config) (h : Host) (s : State) (hs : Inv s)
    (hrun : s.running = true) : Inv (_maybeCompleteWave c h s).st := by
  unfold _maybeCompleteWave
  split
  · rename_i hg
    obtain ⟨hg1, hg2, hg3⟩ := hg
    have hno : ∀ t ∈ s.timers, t.kind ≠ .intermission := by
      intro t ht hk
      have := hs.interm_owned t ht hk
      simp [hg3] at this
    split
    · constructor <;> simp [Res.throw, State.emit, hrun, hg3]
      · exact hs.spawned_nonneg
      · exact hs.spawned_le
      · exact hs.active_nonneg
      · exact hs.tick_owned
      · intro t ht hk; exact absurd hk (hno t ht)
    · unfold _scheduleIntermission
      split
      · constructor <;> simp [Res.throw, State.emit, hrun, hg3]
        · exact hs.spawned_nonneg
        · exact hs.spawned_le
        · exact hs.active_nonneg
        · exact hs.tick_owned
        · intro t ht hk; exact absurd hk (hno t ht)
      · constructor <;> simp [Res.ok, State.emit, hrun, hg3]
        · exact hs.spawned_nonneg
        · exact hs.spawned_le
        · exact hs.active_nonneg
        · intro t ht hk
          rcases ht with ht | ht
          · exact hs.tick_owned t ht hk
          · simp [ht] at hk
        · intro t ht hk
          rcases ht with ht | ht
          · exact absurd hk (hno t ht)
          · simp [ht]
        · exact ⟨hg2, hg1⟩
  · exact hs

theorem inv_spawnEnemy (h : Host) (s : State) (hs : Inv s)
    (hlt : s._spawned < s._toSpawn) : Inv (_spawnEnemy h s) := by
  have hnone : s._intermissionTimer = none := by
    by_contra hne
    have := (hs.pending hne).2
    omega
  have hno : ∀ t ∈ s.timers, t.kind ≠ .intermission := by
    intro t ht hk
    have := hs.interm_owned t ht hk
    simp [hnone] at this
  have hidle := hs.idle
  have h1 := hs.spawned_nonneg
  have h2 := hs.active_nonneg
  unfold _spawnEnemy
  cases h.spawnEnemy <;> simp only [State.emit] <;> split
  all_goals constructor <;> simp [hnone]
  all_goals first
    | omega
    | exact hs.tick_owned
    | (intro t ht hk; exact absurd hk (hno t ht))
    | (intro t ht hk; exact absurd (hs.tick_owned t (mem_clearTimer ht).1 hk) (mem_clearTimer ht).2)
    | (intro t ht hk; exact absurd hk (hno t (mem_clearTimer ht).1))
    | (intro hr; rw [(hidle hr).1]; exact clearTimer_nil _)
    | (intro hr; exact (hidle hr).1)

theorem inv_clearSpawn (s : State) (hs : Inv s) :
    Inv { s with timers := clearTimer s.timers s._spawnTimer, _spawnTimer := none } := by
  constructor <;> simp
  · exact hs.spawned_nonneg
  · exact hs.spawned_le
  · exact hs.active_nonneg
  · intro t ht hk
    exact absurd (hs.tick_owned t (mem_clearTimer ht).1 hk) (mem_clearTimer ht).2
  · intro t ht hk
    exact hs.interm_owned t (mem_clearTimer ht).1 hk
  · intro hr
    refine ⟨?_, (hs.idle hr).2⟩
    rw [(hs.idle hr).1]; exact clearTimer_nil _
  · intro hne
    exact hs.pending (by simpa using hne)

theorem inv_spawnTick (c : Config) (h : Host) (s : State) (hs : Inv s)
    (hrun : s.running = true) : Inv (spawnTick c h s).st := by
  unfold spawnTick
  split
  · exact hs
  · split
    · exact inv_maybeCompleteWave c h _ (inv_clearSpawn s hs) hrun
    · exact inv_spawnEnemy h s hs (by omega)

theorem inv_intermissionTimeout (c : Config) (h : Host) (s : State) (i : Nat)
    (hs : Inv s) (hrun : s.running = true) (hi : s._intermissionTimer = some i) :
    Inv (intermissionTimeout c h
      { s with timers := s.timers.filter (fun t => t.id ≠ i) }).st := by
  unfold intermissionTimeout
  simp only [hrun, Bool.not_true, Bool.false_eq_true, if_false]
  apply inv_beginWave
  · intro t ht hk
    simp only [List.mem_filter] at ht
    exact hs.tick_owned t ht.1 hk
  · intro t ht hk
    simp only [List.mem_filter, decide_eq_true_eq] at ht
    have := hs.interm_owned t ht.1 hk
    rw [hi] at this
    injection this with this
    exact ht.2 this.symm
  · rfl
  · rfl

theorem inv_start (c : Config) (h : Host) (s : State) (hs : Inv s) :
    Inv (start c h s).st := by
  unfold start
  split
  · exact hs
  · rename_i hr
    have hr : s.running = false := by simpa using hr
    have hi := hs.idle hr
    apply inv_beginWave <;> simp [hi.1, hi.2]

theorem inv_stop (s : State) (hs : Inv s) : Inv (stop s) := by
  have hnil : clearTimer (clearTimer s.timers s._spawnTimer) s._intermissionTimer = [] := by
    apply List.eq_nil_iff_forall_not_mem.mpr
    intro t ht
    have h1 := mem_clearTimer ht
    have h2 := mem_clearTimer h1.1
    cases hk : t.kind with
    | spawnTick => exact h2.2 (hs.tick_owned t h2.1 hk)
    | intermission => exact h1.2 (hs.interm_owned t h2.1 hk)
  unfold stop
  rw [hnil]
  constructor <;> simp
  · exact hs.spawned_nonneg
  · exact hs.spawned_le
  · exact hs.active_nonneg

theorem inv_pause (s : State) (hs : Inv s) : Inv (pause s) := by
  unfold pause
  split
  · exact hs
  · rename_i hc
    have hr : s.running = true := by
      cases hrun : s.running <;> simp [hrun] at hc ⊢
    constructor <;> simp [hr]
    · exact hs.spawned_nonneg
    · exact hs.spawned_le
    · exact hs.active_nonneg
    · intro t ht hk
      exact hs.tick_owned t (mem_clearTimer ht).1 hk
    · intro t ht hk
      exact hs.interm_owned t (mem_clearTimer ht).1 hk
    · intro hne
      exact hs.pending (by simpa using hne)

theorem inv_resume (c : Config) (s : State) (hs : Inv s) : Inv (resume c s) := by
  unfold resume
  split
  · exact hs
  · rename_i hc
    have hr : s.running = true := by
      cases hrun : s.running <;> simp [hrun] at hc ⊢
    simp only
    split
    · rename_i hlt
      have hnone : s._intermissionTimer = none := by
        by_contra hne
        have := (hs.pending hne).2
        omega
      constructor <;> simp [_startSpawnLoop, hr, hnone]
      · exact hs.spawned_nonneg
      · exact hs.spawned_le
      · exact hs.active_nonneg
      · intro t ht hk
        rcases ht with ht | ht
        · exact absurd (hs.tick_owned t (mem_clearTimer ht).1 hk) (mem_clearTimer ht).2
        · simp [ht]
      · intro t ht hk
        rcases ht with ht | ht
        · have := hs.interm_owned t (mem_clearTimer ht).1 hk
          simp [hnone] at this
        · simp [ht] at hk
    · constructor <;> simp [hr]
      · exact hs.spawned_nonneg
      · exact hs.spawned_le
      · exact hs.active_nonneg
      · exact hs.tick_owned
      · exact hs.interm_owned
      · intro hne
        exact hs.pending (by simpa using hne)

theorem inv_onEnemyKilled (c : Config) (h : Host) (s : State) (hs : Inv s) :
    Inv (onEnemyKilled c h s).st := by
  unfold onEnemyKilled
  split
  · exact hs
  · rename_i hc
    have hr : s.running = true := by
      cases hrun : s.running <;> simp [hrun] at hc ⊢
    refine inv_maybeCompleteWave c h _ ?_ hr
    constructor <;> simp [hr]
    · exact hs.spawned_nonneg
    · exact hs.spawned_le
    · exact hs.tick_owned
    · exact hs.interm_owned
    · intro hne
      have := hs.pending (by simpa using hne)
      exact ⟨by omega, this.2⟩

theorem inv_fireTimer (c : Config) (h : Host) (s : State) (i : Nat) (hs : Inv s) :
    Inv (fireTimer c h s i).st := by
  unfold fireTimer
  split
  · exact hs
  · rename_i t hfind
    have hmem : t ∈ s.timers := List.mem_of_find?_eq_some hfind
    have hid : t.id = i := by simpa using List.find?_some hfind
    have hr : s.running = true := by
      cases hrun : s.running
      · have := (hs.idle hrun).1
        rw [this] at hmem
        cases hmem
      · rfl
    split
    · exact inv_spawnTick c h s hs hr
    · rename_i hk
      exact inv_intermissionTimeout c h s i hs hr (hid ▸ hs.interm_owned t hmem hk)

theorem inv_step (c : Config) (s : State) (a : Action) (hs : Inv s) :
    Inv (step c s a).st := by
  unfold step
  split
  · exact inv_start c a.host s hs
  · exact inv_stop s hs
  · exact inv_pause s hs
  · exact inv_resume c s hs
  · exact inv_onEnemyKilled c a.host s hs
  · exact inv_fireTimer c a.host s _ hs

theorem inv_run (c : Config) (as : List Action) (s : State) (hs : Inv s) :
    Inv (run c s as) := by
  induction as generalizing s with
  | nil => exact hs
  | cons a as ih => exact ih _ (inv_step c s a hs)

theorem inv_of_reachable {c : Config} {s : State} (hs : Reachable c s) : Inv s := by
  obtain ⟨as, rfl⟩ := hs
  exact inv_run c as _ inv_resetState

/-- C6: in every state reachable from a freshly constructed scheduler by any
sequence of start, stop, pause, resume, onEnemyKilled calls and timer firings,
whatever the host callbacks do, `0 <= _spawned <= _toSpawn` and
`_active >= 0`. -/
theorem counters_in_range (c : Config) (as : List Action) :
    0 ≤ (run c _resetState as)._spawned
      ∧ (run c _resetState as)._spawned ≤ (run c _resetState as)._toSpawn
      ∧ 0 ≤ (run c _resetState as)._active :=
  have hinv := inv_run c as _resetState inv_resetState
  ⟨hinv.spawned_nonneg, hinv.spawned_le, hinv.active_nonneg⟩

/-- C8: extra kill reports are absorbed. In every reachable state and for
every host behaviour, `onEnemyKilled` in a running state with `_active == 0`
leaves `_active` at 0, and `onEnemyKilled` while an intermission is pending
(`_intermissionTimer` set) returns normally with the whole state, log of
notifications included, unchanged. -/
theorem onEnemyKilled_absorbed (c : Config) (as : List Action) (h : Host) :
    ((run c _resetState as).running = true → (run c _resetState as)._active = 0 →
        (onEnemyKilled c h (run c _resetState as)).st._active = 0)
      ∧ ((run c _resetState as)._intermissionTimer ≠ none →
        onEnemyKilled c h (run c _resetState as) = Res.ok (run c _resetState as)) := by
  have hinv := inv_run c as _resetState inv_resetState
  generalize run c _resetState as = s at hinv
  constructor
  · intro hr ha
    simp [onEnemyKilled, _maybeCompleteWave, hr, ha]
    split
    · split
      · rfl
      · unfold _scheduleIntermission
        split <;> rfl
    · rfl
  · intro hpend
    have hp := hinv.pending hpend
    have hr : s.running = true := by
      cases hrun : s.running
      · exact absurd (hinv.idle hrun).2 hpend
      · rfl
    have hmax : max 0 (s._active - 1) = s._active := by rw [hp.1]; rfl
    simp only [onEnemyKilled, _maybeCompleteWave, hr, hmax, hpend, Bool.not_true,
      Bool.false_eq_true, if_false, and_false]
    congr 1
    rw [← hr]

set_option maxRecDepth 4000 in
theorem wave1Cleared_state :
    run testConfig _resetState wave1Cleared
      = { wave := 1, running := true, paused := false, _spawned := 3, _toSpawn := 3,
          _active := 0, _spawnTimer := none, _intermissionTimer := some 2,
          timers := [⟨2, .intermission, 100⟩], nextId := 3,
          log := [.onWaveStart 1 3 50,
                  .spawnEnemy ⟨1, 1, 2⟩, .onEnemySpawned ⟨1, 1, 2⟩ none,
                  .spawnEnemy ⟨1, 2, 1⟩, .onEnemySpawned ⟨1, 2, 1⟩ none,
                  .spawnEnemy ⟨1, 3, 0⟩, .onEnemySpawned ⟨1, 3, 0⟩ none,
                  .onWaveComplete 1, .onIntermission 1 100] } := by
  simp [run, wave1Cleared, act, step, start, _beginWave, _startSpawnLoop, fireTimer, spawnTick,
    _spawnEnemy, onEnemyKilled, _maybeCompleteWave, _scheduleIntermission, clearTimer,
    State.emit, Res.ok, Res.throw, _resetState, quietHost, testConfig_wave1]
  rfl

/-- C8 in the test scenario: once wave 1 is spawned and cleared the
intermission is pending, and a further kill report changes nothing. -/
theorem onEnemyKilled_absorbed_witness :
    (run testConfig _resetState wave1Cleared).running = true
      ∧ (run testConfig _resetState wave1Cleared)._active = 0
      ∧ (run testConfig _resetState wave1Cleared)._intermissionTimer ≠ none
      ∧ (onEnemyKilled testConfig quietHost (run testConfig _resetState wave1Cleared)).st._active = 0
      ∧ onEnemyKilled testConfig quietHost (run testConfig _resetState wave1Cleared)
          = Res.ok (run testConfig _resetState wave1Cleared) :=
  ⟨by rw [wave1Cleared_state], by rw [wave1Cleared_state],
    by rw [wave1Cleared_state]; simp,
    (onEnemyKilled_absorbed testConfig wave1Cleared quietHost).1
      (by rw [wave1Cleared_state]) (by rw [wave1Cleared_state]),
    (onEnemyKilled_absorbed testConfig wave1Cleared quietHost).2
      (by rw [wave1Cleared_state]; simp)⟩

theorem idle_step (c : Config) (s : State) (a : Action)
    (hr : s.running = false) (ht : s.timers = []) (ha : a.call ≠ Call.start) :
    (step c s a).st.running = false ∧ (step c s a).st.timers = []
      ∧ (step c s a).st.log = s.log := by
  unfold step
  split
  · exact absurd (by assumption) ha
  · simp [stop, ht, clearTimer_nil, Res.ok]
  · simp [pause, hr, ht, Res.ok]
  · simp [resume, hr, ht, Res.ok]
  · simp [onEnemyKilled, hr, ht, Res.ok]
  · simp [fireTimer, hr, ht, Res.ok]

theorem idle_run (c : Config) (as : List Action) (s : State)
    (hr : s.running = false) (ht : s.timers = [])
    (has : ∀ a ∈ as, a.call ≠ Call.start) :
    (run c s as).log = s.log := by
  induction as generalizing s with
  | nil => rfl
  | cons a as ih =>
    have h1 := idle_step c s a hr ht (has a (List.mem_cons_self _ _))
    rw [run_cons, ih _ h1.1 h1.2.1 (fun b hb => has b (List.mem_cons_of_mem _ hb)), h1.2.2]

/-- With callbacks that do not call back into the scheduler: `stop()` in any
reachable state leaves no live timer, whichever timers were armed, and clears
both handles; in every continuation that contains no `start()` call the log of
callback invocations (spawnEnemy, onEnemySpawned, onWaveStart, onWaveComplete,
onIntermission) stays as it was before `stop()`. -/
theorem stop_silences (c : Config) (as bs : List Action)
    (hbs : ∀ a ∈ bs, a.call ≠ Call.start) :
    (stop (run c _resetState as)).timers = []
      ∧ (stop (run c _resetState as))._spawnTimer = none
      ∧ (stop (run c _resetState as))._intermissionTimer = none
      ∧ (run c (stop (run c _resetState as)) bs).log = (run c _resetState as).log := by
  have hinv := inv_stop _ (inv_run c as _resetState inv_resetState)
  have hidle := hinv.idle rfl
  exact ⟨hidle.1, rfl, rfl, idle_run c bs _ rfl hidle.1 hbs⟩

/-- In the test scenario: stop during the intermission after wave 1, then
the intermission timer's handle, a spawn tick's handle, a kill report and a
resume: the log still ends with the intermission notice of wave 1. -/
theorem stop_silences_witness :
    (∀ a ∈ [act (.fire 2), act (.fire 1), act .onEnemyKilled, act .resume],
        a.call ≠ Call.start)
      ∧ (run testConfig (stop (run testConfig _resetState wave1Cleared))
            [act (.fire 2), act (.fire 1), act .onEnemyKilled, act .resume]).log
          = (run testConfig _resetState wave1Cleared).log :=
  ⟨by simp [act],
    (stop_silences testConfig wave1Cleared
      [act (.fire 2), act (.fire 1), act .onEnemyKilled, act .resume]
      (by simp [act])).2.2.2⟩

/-! ## The completion protocol -/

theorem logPhase_emit (s : State) (e : Event) :
    logPhase (s.emit e).log = (logPhase s.log).next e := by
  simp [logPhase, State.emit, List.foldl_append]

theorem protoInv_congr {s s' : State} (hs : ProtoInv s) (hl : s'.log = s.log)
    (hi : s'._intermissionTimer = s._intermissionTimer)
    (hr : s'.running = true → s.running = true) : ProtoInv s' := by
  unfold ProtoInv at *
  rw [hl, hi]
  rcases hs with hs | hs
  · exact Or.inl hs
  · exact Or.inr ⟨hs.1, fun h => hs.2 (hr h)⟩

theorem protoInv_phase {s s' : State} (hs : ProtoInv s) (hl : s'.log = s.log) :
    logPhase s'.log = .inWave ∨ logPhase s'.log = .settled :=
  hl ▸ hs.elim Or.inl (fun h => Or.inr h.1)

theorem protoInv_beginWave (c : Config) (h : Host) (s : State)
    (hs : logPhase s.log = .inWave ∨ logPhase s.log = .settled) :
    ProtoInv (_beginWave c h s).st := by
  have hp : logPhase (_beginWave c h s).st.log
      = (logPhase s.log).next (.onWaveStart s.wave (_calcEnemiesForWave c s.wave)
          (_calcSpawnIntervalForWave c s.wave)) := by
    unfold _beginWave
    split
    · exact logPhase_emit _ _
    · exact logPhase_emit _ _
  left
  rw [hp]
  rcases hs with hs | hs
  · rw [hs]; rfl
  · rw [hs]; rfl

theorem protoInv_maybeCompleteWave (c : Config) (h : Host) (s : State) (hs : ProtoInv s)
    (hrun : s.running = true)
    (hwc : h.onWaveCompleteRaises = false) (him : h.onIntermissionRaises = false) :
    ProtoInv (_maybeCompleteWave c h s).st := by
  unfold _maybeCompleteWave
  split
  · rename_i hg
    have hin : logPhase s.log = .inWave := by
      rcases hs with hs | hs
      · exact hs
      · exact absurd hg.2.2 (hs.2 hrun)
    right
    simp only [hwc, Bool.false_eq_true, if_false, _scheduleIntermission, him, Res.ok]
    refine ⟨?_, by simp⟩
    show logPhase ((s.emit (.onWaveComplete s.wave)).emit
      (.onIntermission s.wave c.intermissionMs)).log = .settled
    rw [logPhase_emit, logPhase_emit, hin]
    simp [Phase.next, State.emit]
  · exact hs

theorem protoInv_spawnEnemy (h : Host) (s : State) (hs : ProtoInv s) :
    ProtoInv (_spawnEnemy h s) := by
  have key : logPhase (_spawnEnemy h s).log = logPhase s.log
      ∧ (_spawnEnemy h s)._intermissionTimer = s._intermissionTimer
      ∧ (_spawnEnemy h s).running = s.running := by
    have hnext : ∀ (p : Phase) (i : SpawnInfo), p.next (.spawnEnemy i) = p := by
      intro p i; cases p <;> rfl
    have hnext2 : ∀ (p : Phase) (i : SpawnInfo) (e : Option Nat),
        p.next (.onEnemySpawned i e) = p := by
      intro p i e; cases p <;> rfl
    unfold _spawnEnemy
    cases h.spawnEnemy <;> simp only <;> split <;>
      simp [logPhase_emit, hnext, hnext2] <;>
      simp [State.emit, logPhase, List.foldl_append, hnext, hnext2]
  unfold ProtoInv
  rw [key.1, key.2.1, key.2.2]
  exact hs

theorem protoInv_step (c : Config) (s : State) (a : Action) (hinv : Inv s)
    (hs : ProtoInv s)
    (hwc : a.host.onWaveCompleteRaises = false)
    (him : a.host.onIntermissionRaises = false) :
    ProtoInv (step c s a).st := by
  unfold step
  split
  · unfold start
    split
    · exact hs
    · exact protoInv_beginWave c _ _ (protoInv_phase hs rfl)
  · exact (protoInv_phase hs rfl).elim Or.inl (fun h => Or.inr ⟨h, by simp [stop, Res.ok]⟩)
  · refine protoInv_congr hs ?_ ?_ ?_ <;>
      (simp only [pause, Res.ok]; split <;> simp)
  · refine protoInv_congr hs ?_ ?_ ?_ <;>
      (simp only [resume, Res.ok, _startSpawnLoop]; split <;> try split) <;> simp
  · unfold onEnemyKilled
    split
    · exact hs
    · rename_i hc
      have hr : s.running = true := by
        cases hrun : s.running <;> simp [hrun] at hc ⊢
      exact protoInv_maybeCompleteWave c _ _ (protoInv_congr hs rfl rfl id) hr hwc him
  · rename_i i
    unfold fireTimer
    split
    · exact hs
    · rename_i t hfind
      have hmem : t ∈ s.timers := List.mem_of_find?_eq_some hfind
      have hr : s.running = true := by
        cases hrun : s.running
        · have := (hinv.idle hrun).1
          rw [this] at hmem
          cases hmem
        · rfl
      split
      · unfold spawnTick
        split
        · exact hs
        · split
          · exact protoInv_maybeCompleteWave c _ _ (protoInv_congr hs rfl rfl id) hr hwc him
          · exact protoInv_spawnEnemy _ _ hs
      · unfold intermissionTimeout
        simp only [hr, Bool.not_true, Bool.false_eq_true, if_false]
        exact protoInv_beginWave c _ _ (protoInv_phase hs rfl)

theorem protoInv_run (c : Config) (as : List Action) (s : State) (hinv : Inv s)
    (hs : ProtoInv s)
    (hsinks : ∀ a ∈ as,
      a.host.onWaveCompleteRaises = false ∧ a.host.onIntermissionRaises = false) :
    ProtoInv (run c s as) := by
  induction as generalizing s with
  | nil => exact hs
  | cons a as ih =>
    have ha := hsinks a (List.mem_cons_self _ _)
    exact ih _ (inv_step c s a hinv) (protoInv_step c s a hinv hs ha.1 ha.2)
      (fun b hb => hsinks b (List.mem_cons_of_mem _ hb))

theorem protoInv_resetState : ProtoInv _resetState :=
  Or.inr ⟨rfl, by simp [_resetState]⟩

theorem maybeCompleteWave_log (c : Config) (h : Host) (s : State) :
    ∃ d, (_maybeCompleteWave c h s).st.log = s.log ++ d
      ∧ ∀ w, Event.onWaveComplete w ∈ d →
          (_maybeCompleteWave c h s).st._toSpawn ≤ (_maybeCompleteWave c h s).st._spawned
            ∧ (_maybeCompleteWave c h s).st._active = 0
            ∧ w = (_maybeCompleteWave c h s).st.wave := by
  unfold _maybeCompleteWave
  split
  · rename_i hg
    split
    · exact ⟨[.onWaveComplete s.wave], rfl, fun w hw => by
        simp at hw
        exact ⟨hg.1, hg.2.1, hw⟩⟩
    · unfold _scheduleIntermission
      split
      · exact ⟨[.onWaveComplete s.wave, .onIntermission s.wave c.intermissionMs],
          by simp [Res.throw, State.emit], fun w hw => by
            simp at hw
            exact ⟨hg.1, hg.2.1, hw⟩⟩
      · exact ⟨[.onWaveComplete s.wave, .onIntermission s.wave c.intermissionMs],
          by simp [Res.ok, State.emit], fun w hw => by
            simp at hw
            exact ⟨hg.1, hg.2.1, hw⟩⟩
  · exact ⟨[], by simp [Res.ok], fun w hw => by simp at hw⟩

theorem beginWave_log (c : Config) (h : Host) (s : State) :
    (_beginWave c h s).st.log
      = s.log ++ [Event.onWaveStart s.wave (_calcEnemiesForWave c s.wave)
                    (_calcSpawnIntervalForWave c s.wave)] := by
  unfold _beginWave
  split <;> rfl

theorem spawnEnemy_log (h : Host) (s : State) :
    ∃ d, (_spawnEnemy h s).log = s.log ++ d ∧ ∀ w, Event.onWaveComplete w ∉ d := by
  unfold _spawnEnemy
  cases h.spawnEnemy with
  | returns enemy =>
    refine ⟨[.spawnEnemy ⟨s.wave, s._spawned + 1, s._toSpawn - (s._spawned + 1)⟩,
      .onEnemySpawned ⟨s.wave, s._spawned + 1, s._toSpawn - (s._spawned + 1)⟩ enemy], ?_,
      by simp⟩
    simp only
    split <;> simp [State.emit]
  | raises =>
    refine ⟨[.spawnEnemy ⟨s.wave, s._spawned + 1, s._toSpawn - (s._spawned + 1)⟩], ?_,
      by simp⟩
    simp only
    split <;> simp [State.emit]

theorem step_log (c : Config) (s : State) (a : Action) :
    ∃ d, (step c s a).st.log = s.log ++ d
      ∧ ∀ w, Event.onWaveComplete w ∈ d →
          (step c s a).st._toSpawn ≤ (step c s a).st._spawned
            ∧ (step c s a).st._active = 0
            ∧ w = (step c s a).st.wave := by
  have hnil : ∀ s' : State, s'.log = s.log →
      ∃ d, s'.log = s.log ++ d ∧ ∀ w, Event.onWaveComplete w ∈ d →
        s'._toSpawn ≤ s'._spawned ∧ s'._active = 0 ∧ w = s'.wave :=
    fun s' h => ⟨[], by simp [h], fun w hw => by simp at hw⟩
  unfold step
  split
  · unfold start
    split
    · exact hnil _ rfl
    · exact ⟨_, beginWave_log c _ _, fun w hw => by simp at hw⟩
  · exact hnil _ rfl
  · exact hnil _ (by simp only [pause, Res.ok]; split <;> rfl)
  · exact hnil _ (by simp only [resume, Res.ok, _startSpawnLoop]; split <;> (try split) <;> rfl)
  · unfold onEnemyKilled
    split
    · exact hnil _ rfl
    · exact maybeCompleteWave_log c _ _
  · unfold fireTimer
    split
    · exact hnil _ rfl
    · split
      · unfold spawnTick
        split
        · exact hnil _ rfl
        · split
          · exact maybeCompleteWave_log c _ _
          · obtain ⟨d, hd, hno⟩ := spawnEnemy_log a.host s
            exact ⟨d, hd, fun w hw => absurd hw (hno w)⟩
      · unfold intermissionTimeout
        simp only
        split
        · exact hnil _ rfl
        · exact ⟨_, beginWave_log c _ _, fun w hw => by simp at hw⟩

/-- With completion and intermission sinks that return, the log of every
reachable state observes the completion protocol: between one `onWaveStart`
and the next there is at most one `onWaveComplete`, and each
`onWaveComplete(w)` has been followed by exactly one `onIntermission` notice,
for the same wave `w`. And whatever the host does, a step that emits
`onWaveComplete(w)` ends in a state with `wave == w`, `_spawned == _toSpawn`
and `_active == 0` (nothing touches these fields after the emission). -/
theorem completion_once_per_wave (c : Config) (as : List Action) :
    ((∀ a ∈ as, a.host.onWaveCompleteRaises = false ∧ a.host.onIntermissionRaises = false) →
        completionProtocol (run c _resetState as).log = true)
      ∧ ∀ (a : Action) (w : ℤ),
          Event.onWaveComplete w ∈ emitted c (run c _resetState as) a →
          (step c (run c _resetState as) a).st._spawned
              = (step c (run c _resetState as) a).st._toSpawn
            ∧ (step c (run c _resetState as) a).st._active = 0
            ∧ (step c (run c _resetState as) a).st.wave = w := by
  have hinv := inv_run c as _resetState inv_resetState
  constructor
  · intro hsinks
    have hp := protoInv_run c as _resetState inv_resetState protoInv_resetState hsinks
    unfold completionProtocol
    rcases hp with hp | hp
    · rw [hp]
    · rw [hp.1]
  · intro a w hw
    obtain ⟨d, hd, hprop⟩ := step_log c (run c _resetState as) a
    have hem : emitted c (run c _resetState as) a = d := by
      unfold emitted
      rw [hd]
      exact List.drop_left _ _
    rw [hem] at hw
    have h1 := hprop w hw
    have h2 := (inv_step c _ a hinv).spawned_le
    exact ⟨le_antisymm h2 h1.1, h1.2.1, h1.2.2.symm⟩

set_option maxRecDepth 4000 in
theorem wave1OneLeft_state :
    run testConfig _resetState wave1OneLeft
      = { wave := 1, running := true, paused := false, _spawned := 3, _toSpawn := 3,
          _active := 1, _spawnTimer := none, _intermissionTimer := none,
          timers := [], nextId := 2,
          log := [.onWaveStart 1 3 50,
                  .spawnEnemy ⟨1, 1, 2⟩, .onEnemySpawned ⟨1, 1, 2⟩ none,
                  .spawnEnemy ⟨1, 2, 1⟩, .onEnemySpawned ⟨1, 2, 1⟩ none,
                  .spawnEnemy ⟨1, 3, 0⟩, .onEnemySpawned ⟨1, 3, 0⟩ none] } := by
  simp [run, wave1OneLeft, act, step, start, _beginWave, _startSpawnLoop, fireTimer, spawnTick,
    _spawnEnemy, onEnemyKilled, _maybeCompleteWave, _scheduleIntermission, clearTimer,
    State.emit, Res.ok, Res.throw, _resetState, quietHost, testConfig_wave1]

/-- In the test scenario: the log of wave 1, spawned and cleared, observes
the protocol, and the third kill report, which emits `onWaveComplete(1)`, ends
with `_spawned == _toSpawn`. -/
theorem completion_once_per_wave_witness :
    (∀ a ∈ wave1Cleared,
        a.host.onWaveCompleteRaises = false ∧ a.host.onIntermissionRaises = false)
      ∧ completionProtocol (run testConfig _resetState wave1Cleared).log = true
      ∧ Event.onWaveComplete 1
          ∈ emitted testConfig (run testConfig _resetState wave1OneLeft) (act .onEnemyKilled)
      ∧ (step testConfig (run testConfig _resetState wave1OneLeft) (act .onEnemyKilled)).st._spawned
          = (step testConfig (run testConfig _resetState wave1OneLeft)
              (act .onEnemyKilled)).st._toSpawn :=
  have hsinks : ∀ a ∈ wave1Cleared,
      a.host.onWaveCompleteRaises = false ∧ a.host.onIntermissionRaises = false := by
    simp [wave1Cleared, act, quietHost]
  have hmem : Event.onWaveComplete 1
      ∈ emitted testConfig (run testConfig _resetState wave1OneLeft) (act .onEnemyKilled) := by
    rw [wave1OneLeft_state]
    simp [emitted, step, act, onEnemyKilled, _maybeCompleteWave, _scheduleIntermission,
      quietHost, State.emit, Res.ok]
  ⟨hsinks, (completion_once_per_wave testConfig wave1Cleared).1 hsinks, hmem,
    ((completion_once_per_wave testConfig wave1OneLeft).2 (act .onEnemyKilled) 1 hmem).1⟩

/-! ## Timer callbacks in an idle scheduler -/

/-- C10 fails for the spawn tick: in the idle state left by `start()` then
`stop()` (`running` false, `_spawned` 0, `_toSpawn` 3) the body of the tick
closure, which tests `paused` but not `running`, spawns a unit: it calls
`spawnEnemy` and `onEnemySpawned` and raises `_spawned` and `_active` to 1.
The body of the intermission closure, which does test `running`, only clears
`_intermissionTimer` there and leaves wave, counters and log as they were. -/
theorem spawnTick_lacks_running_check :
    startedThenStopped.running = false
      ∧ startedThenStopped._spawned = 0
      ∧ startedThenStopped._active = 0
      ∧ (spawnTick testConfig quietHost startedThenStopped).st._spawned = 1
      ∧ (spawnTick testConfig quietHost startedThenStopped).st._active = 1
      ∧ (spawnTick testConfig quietHost startedThenStopped).st.log
          = startedThenStopped.log
              ++ [Event.spawnEnemy ⟨1, 1, 2⟩, Event.onEnemySpawned ⟨1, 1, 2⟩ none]
      ∧ intermissionTimeout testConfig quietHost startedThenStopped
          = Res.ok { startedThenStopped with _intermissionTimer := none } := by
  have hs : startedThenStopped
      = { wave := 1, running := false, paused := false, _spawned := 0, _toSpawn := 3,
          _active := 0, _spawnTimer := none, _intermissionTimer := none,
          timers := [], nextId := 2, log := [.onWaveStart 1 3 50] } := by
    simp [startedThenStopped, run, act, step, start, stop, _beginWave, _startSpawnLoop,
      clearTimer, State.emit, Res.ok, _resetState, quietHost, testConfig_wave1]
  rw [hs]
  simp [spawnTick, _spawnEnemy, intermissionTimeout, State.emit, Res.ok, quietHost]

/-! ## Handles, idle states and the announced wave -/

theorem lastWaveStart_emit (s : State) (e : Event) :
    lastWaveStart (s.emit e).log
      = if e.isWaveStart then some e else lastWaveStart s.log := by
  simp [lastWaveStart, State.emit, List.foldl_append]

theorem coherent_resetState (c : Config) : Coherent c _resetState := by
  constructor <;> simp [_resetState]

theorem coherent_beginWave (c : Config) (h : Host) (s : State)
    (hids : ∀ t ∈ s.timers, t.id < s.nextId)
    (hsp : ∀ i, s._spawnTimer = some i → i < s.nextId)
    (hrun : s.running = true) (hnone : s._intermissionTimer = none) :
    Coherent c (_beginWave c h s).st := by
  unfold _beginWave
  split
  · constructor <;>
      simp [Res.throw, hrun, hnone, lastWaveStart_emit, Event.isWaveStart]
    all_goals simp [State.emit]
    · exact hids
    · exact hsp
  · constructor <;>
      simp [Res.ok, _startSpawnLoop, hrun, hnone, lastWaveStart_emit, Event.isWaveStart]
    all_goals simp [State.emit]
    · intro t ht
      rcases ht with ht | ht
      · exact Nat.lt_succ_of_lt (hids t (mem_clearTimer ht).1)
      · simp [ht]

theorem coherent_emit {c : Config} {s : State} (hs : Coherent c s) (e : Event)
    (he : e.isWaveStart = false) : Coherent c (s.emit e) :=
  { ids_lt := hs.ids_lt
    spawn_lt := hs.spawn_lt
    interm_lt := hs.interm_lt
    handles_ne := hs.handles_ne
    idle_clean := hs.idle_clean
    active_le := hs.active_le
    announced := fun hr => by
      rw [lastWaveStart_emit, he]
      exact hs.announced hr }

theorem coherent_armIntermission {c : Config} {s : State} (hs : Coherent c s) (ms : ℚ) :
    Coherent c { s with
      timers := s.timers ++ [⟨s.nextId, .intermission, ms⟩]
      _intermissionTimer := some s.nextId
      nextId := s.nextId + 1 } :=
  { ids_lt := by
      intro t ht
      rcases List.mem_append.mp ht with ht | ht
      · exact Nat.lt_succ_of_lt (hs.ids_lt t ht)
      · simp at ht; simp [ht]
    spawn_lt := fun i hi => Nat.lt_succ_of_lt (hs.spawn_lt i hi)
    interm_lt := by intro i hi; simp at hi ⊢; omega
    handles_ne := by
      intro i hi hj
      have := hs.spawn_lt i hi
      simp at hj
      omega
    idle_clean := hs.idle_clean
    active_le := hs.active_le
    announced := hs.announced }

theorem coherent_clearSpawn {c : Config} {s : State} (hs : Coherent c s) :
    Coherent c { s with timers := clearTimer s.timers s._spawnTimer, _spawnTimer := none } :=
  { ids_lt := fun t ht => hs.ids_lt t (mem_clearTimer ht).1
    spawn_lt := by intro i hi; simp at hi
    interm_lt := hs.interm_lt
    handles_ne := by intro i hi; simp at hi
    idle_clean := fun hr => ⟨(hs.idle_clean hr).1, rfl⟩
    active_le := hs.active_le
    announced := hs.announced }

theorem coherent_startSpawnLoop {c : Config} {s : State} (hs : Coherent c s)
    (hrun : s.running = true) (o : Option ℚ) : Coherent c (_startSpawnLoop c s o) :=
  { ids_lt := by
      intro t ht
      rcases List.mem_append.mp ht with ht | ht
      · exact Nat.lt_succ_of_lt (hs.ids_lt t (mem_clearTimer ht).1)
      · simp at ht; simp [_startSpawnLoop, ht]
    spawn_lt := by intro i hi; simp [_startSpawnLoop] at hi ⊢; omega
    interm_lt := fun i hi => Nat.lt_succ_of_lt (hs.interm_lt i hi)
    handles_ne := by
      intro i hi hj
      have := hs.interm_lt i hj
      simp [_startSpawnLoop] at hi
      omega
    idle_clean := by intro hr; simp [_startSpawnLoop, hrun] at hr
    active_le := hs.active_le
    announced := hs.announced }

theorem coherent_maybeCompleteWave (c : Config) (h : Host) (s : State)
    (hs : Coherent c s) : Coherent c (_maybeCompleteWave c h s).st := by
  unfold _maybeCompleteWave
  split
  · have h1 : Coherent c (s.emit (.onWaveComplete s.wave)) := coherent_emit hs _ rfl
    split
    · exact h1
    · unfold _scheduleIntermission
      have h2 := coherent_emit h1 (.onIntermission s.wave c.intermissionMs) rfl
      split
      · exact h2
      · exact coherent_armIntermission h2 _
  · exact hs

theorem coherent_spawnEnemy (c : Config) (h : Host) (s : State) (hs : Coherent c s) :
    Coherent c (_spawnEnemy h s) := by
  have h1 : Coherent c { s with _spawned := s._spawned + 1, _active := s._active + 1 } :=
    { ids_lt := hs.ids_lt
      spawn_lt := hs.spawn_lt
      interm_lt := hs.interm_lt
      handles_ne := hs.handles_ne
      idle_clean := hs.idle_clean
      active_le := by have := hs.active_le; simp; omega
      announced := hs.announced }
  have h2 := coherent_emit h1
    (.spawnEnemy ⟨s.wave, s._spawned + 1, s._toSpawn - (s._spawned + 1)⟩) rfl
  unfold _spawnEnemy
  cases h.spawnEnemy with
  | returns enemy =>
    have h3 := coherent_emit h2
      (.onEnemySpawned ⟨s.wave, s._spawned + 1, s._toSpawn - (s._spawned + 1)⟩ enemy) rfl
    simp only
    split
    · exact coherent_clearSpawn h3
    · exact h3
  | raises =>
    simp only
    split
    · exact coherent_clearSpawn h2
    · exact h2

theorem coherent_stop (c : Config) (s : State) (hs : Coherent c s) :
    Coherent c (stop s) :=
  { ids_lt := fun t ht => hs.ids_lt t (mem_clearTimer (mem_clearTimer ht).1).1
    spawn_lt := by intro i hi; simp [stop] at hi
    interm_lt := by intro i hi; simp [stop] at hi
    handles_ne := by intro i hi; simp [stop] at hi
    idle_clean := fun _ => ⟨rfl, rfl⟩
    active_le := hs.active_le
    announced := by intro hr; simp [stop] at hr }

theorem coherent_pause (c : Config) (s : State) (hs : Coherent c s) :
    Coherent c (pause s) := by
  unfold pause
  split
  · exact hs
  · rename_i hc
    have hr : s.running = true := by
      cases hrun : s.running <;> simp [hrun] at hc ⊢
    exact
      { ids_lt := fun t ht => hs.ids_lt t (mem_clearTimer ht).1
        spawn_lt := hs.spawn_lt
        interm_lt := hs.interm_lt
        handles_ne := hs.handles_ne
        idle_clean := by intro h; simp [hr] at h
        active_le := hs.active_le
        announced := hs.announced }

theorem coherent_resume (c : Config) (s : State) (hs : Coherent c s) :
    Coherent c (resume c s) := by
  unfold resume
  split
  · exact hs
  · rename_i hc
    have hr : s.running = true := by
      cases hrun : s.running <;> simp [hrun] at hc ⊢
    have h1 : Coherent c { s with paused := false } :=
      { ids_lt := hs.ids_lt
        spawn_lt := hs.spawn_lt
        interm_lt := hs.interm_lt
        handles_ne := hs.handles_ne
        idle_clean := by intro h; simp [hr] at h
        active_le := hs.active_le
        announced := hs.announced }
    simp only
    split
    · exact coherent_startSpawnLoop h1 hr none
    · exact h1

theorem coherent_onEnemyKilled (c : Config) (h : Host) (s : State) (hinv : Inv s)
    (hs : Coherent c s) : Coherent c (onEnemyKilled c h s).st := by
  unfold onEnemyKilled
  split
  · exact hs
  · apply coherent_maybeCompleteWave
    exact
      { ids_lt := hs.ids_lt
        spawn_lt := hs.spawn_lt
        interm_lt := hs.interm_lt
        handles_ne := hs.handles_ne
        idle_clean := hs.idle_clean
        active_le := by
          have h1 := hs.active_le
          have h2 := hinv.spawned_nonneg
          simp only [sup_le_iff]
          omega
        announced := hs.announced }

theorem coherent_start (c : Config) (h : Host) (s : State) (hinv : Inv s)
    (hs : Coherent c s) : Coherent c (start c h s).st := by
  unfold start
  split
  · exact hs
  · rename_i hr
    have hr : s.running = false := by simpa using hr
    exact coherent_beginWave c h _ hs.ids_lt hs.spawn_lt rfl (hinv.idle hr).2

theorem coherent_fireTimer (c : Config) (h : Host) (s : State) (i : Nat)
    (hs : Coherent c s) : Coherent c (fireTimer c h s i).st := by
  unfold fireTimer
  split
  · exact hs
  · split
    · unfold spawnTick
      split
      · exact hs
      · split
        · exact coherent_maybeCompleteWave c h _ (coherent_clearSpawn hs)
        · exact coherent_spawnEnemy c h s hs
    · unfold intermissionTimeout
      simp only
      split
      · exact
          { ids_lt := fun t ht => hs.ids_lt t (List.mem_filter.mp ht).1
            spawn_lt := hs.spawn_lt
            interm_lt := by intro j hj; simp [Res.ok] at hj
            handles_ne := by intro j _ hj; simp [Res.ok] at hj
            idle_clean := hs.idle_clean
            active_le := hs.active_le
            announced := hs.announced }
      · rename_i hc
        have hr : s.running = true := by
          cases hrun : s.running <;> simp [hrun] at hc ⊢
        exact coherent_beginWave c h _ (fun t ht => hs.ids_lt t (List.mem_filter.mp ht).1)
          hs.spawn_lt hr rfl

theorem coherent_step (c : Config) (s : State) (a : Action) (hinv : Inv s)
    (hs : Coherent c s) : Coherent c (step c s a).st := by
  unfold step
  split
  · exact coherent_start c a.host s hinv hs
  · exact coherent_stop c s hs
  · exact coherent_pause c s hs
  · exact coherent_resume c s hs
  · exact coherent_onEnemyKilled c a.host s hinv hs
  · exact coherent_fireTimer c a.host s _ hs

theorem coherent_run (c : Config) (as : List Action) (s : State) (hinv : Inv s)
    (hs : Coherent c s) : Coherent c (run c s as) := by
  induction as generalizing s with
  | nil => exact hs
  | cons a as ih => exact ih _ (inv_step c s a hinv) (coherent_step c s a hinv hs)

/-! ## Pause -/

theorem maybeCompleteWave_quiet (c : Config) (h : Host) (s : State) :
    (_maybeCompleteWave c h s).st.paused = s.paused
      ∧ (_maybeCompleteWave c h s).st.log.filter Event.isSpawn
          = s.log.filter Event.isSpawn := by
  unfold _maybeCompleteWave
  split
  · split
    · simp [Res.throw, State.emit, List.filter_append, Event.isSpawn]
    · unfold _scheduleIntermission
      split <;> simp [Res.throw, Res.ok, State.emit, List.filter_append, Event.isSpawn]
  · exact ⟨rfl, rfl⟩

theorem beginWave_quiet (c : Config) (h : Host) (s : State) :
    (_beginWave c h s).st.paused = s.paused
      ∧ (_beginWave c h s).st.log.filter Event.isSpawn = s.log.filter Event.isSpawn := by
  unfold _beginWave
  split <;>
    simp [Res.throw, Res.ok, State.emit, _startSpawnLoop, List.filter_append, Event.isSpawn]

theorem paused_step (c : Config) (s : State) (a : Action) (hp : s.paused = true)
    (ha : a.call ≠ Call.resume ∧ a.call ≠ Call.stop ∧ a.call ≠ Call.start) :
    (step c s a).st.paused = true
      ∧ (step c s a).st.log.filter Event.isSpawn = s.log.filter Event.isSpawn := by
  unfold step
  split
  · exact absurd (by assumption) ha.2.2
  · exact absurd (by assumption) ha.2.1
  · simp [pause, hp, Res.ok]
  · exact absurd (by assumption) ha.1
  · unfold onEnemyKilled
    split
    · exact ⟨hp, rfl⟩
    · have := maybeCompleteWave_quiet c a.host { s with _active := max 0 (s._active - 1) }
      exact ⟨this.1.trans hp, this.2⟩
  · unfold fireTimer
    split
    · exact ⟨hp, rfl⟩
    · split
      · simp [spawnTick, hp, Res.ok]
      · unfold intermissionTimeout
        simp only
        split
        · exact ⟨hp, rfl⟩
        · exact ⟨(beginWave_quiet c a.host _).1.trans hp, (beginWave_quiet c a.host _).2⟩

/-- C11: from any state in which `paused` is true (so from any reachable one),
every sequence of timer firings, `onEnemyKilled` and `pause` calls, with no
`resume()`, `stop()` or `start()`, leaves `paused` true and adds no
`spawnEnemy` or `onEnemySpawned` invocation to the log, whatever the host
callbacks do; and a spawn tick executed while paused returns normally with the
whole state unchanged. -/
theorem pause_halts_spawning (c : Config) (s : State) (bs : List Action)
    (hp : s.paused = true)
    (hbs : ∀ a ∈ bs, a.call ≠ Call.resume ∧ a.call ≠ Call.stop ∧ a.call ≠ Call.start) :
    (run c s bs).paused = true
      ∧ (run c s bs).log.filter Event.isSpawn = s.log.filter Event.isSpawn
      ∧ ∀ h : Host, spawnTick c h s = Res.ok s := by
  refine ⟨?_, ?_, fun h => by simp [spawnTick, hp]⟩
  all_goals
    induction bs generalizing s with
    | nil => first | exact hp | rfl
    | cons a bs ih =>
      have h1 := paused_step c s a hp (hbs a (List.mem_cons_self _ _))
      have h2 := ih (step c s a).st h1.1 (fun b hb => hbs b (List.mem_cons_of_mem _ hb))
      rw [run_cons]
      first
        | exact h2
        | exact h2.trans h1.2

/-! ## Concrete states of the test scenario -/

theorem wave1Started_state :
    run testConfig _resetState wave1Started
      = { wave := 1, running := true, paused := false, _spawned := 0, _toSpawn := 3,
          _active := 0, _spawnTimer := some 1, _intermissionTimer := none,
          timers := [⟨1, .spawnTick, 50⟩], nextId := 2,
          log := [.onWaveStart 1 3 50] } := by
  simp [run, wave1Started, act, step, start, _beginWave, _startSpawnLoop, clearTimer,
    State.emit, Res.ok, _resetState, quietHost, testConfig_wave1]

theorem wave1Paused_state :
    run testConfig _resetState wave1Paused
      = { wave := 1, running := true, paused := true, _spawned := 1, _toSpawn := 3,
          _active := 1, _spawnTimer := some 1, _intermissionTimer := none,
          timers := [], nextId := 2,
          log := [.onWaveStart 1 3 50,
                  .spawnEnemy ⟨1, 1, 2⟩, .onEnemySpawned ⟨1, 1, 2⟩ none] } := by
  simp [run, wave1Paused, act, step, start, pause, _beginWave, _startSpawnLoop, fireTimer,
    spawnTick, _spawnEnemy, clearTimer, State.emit, Res.ok, _resetState, quietHost,
    testConfig_wave1]

theorem wave2Started_state :
    run testConfig _resetState wave2Started
      = { wave := 2, running := true, paused := false, _spawned := 0, _toSpawn := 5,
          _active := 0, _spawnTimer := some 3, _intermissionTimer := none,
          timers := [⟨3, .spawnTick, 45⟩], nextId := 4,
          log := [.onWaveStart 1 3 50,
                  .spawnEnemy ⟨1, 1, 2⟩, .onEnemySpawned ⟨1, 1, 2⟩ none,
                  .spawnEnemy ⟨1, 2, 1⟩, .onEnemySpawned ⟨1, 2, 1⟩ none,
                  .spawnEnemy ⟨1, 3, 0⟩, .onEnemySpawned ⟨1, 3, 0⟩ none,
                  .onWaveComplete 1, .onIntermission 1 100,
                  .onWaveStart 2 5 45] } := by
  rw [wave2Started, run_append, wave1Cleared_state]
  simp [run, act, step, fireTimer, intermissionTimeout, _beginWave, _startSpawnLoop,
    clearTimer, State.emit, Res.ok, quietHost, testConfig_wave2]

/-- C11 in the test scenario: paused after the first spawn of wave 1, a tick
of the (cancelled) cadence handle and a kill report add no spawn to the log. -/
theorem pause_halts_spawning_witness :
    (run testConfig _resetState wave1Paused).paused = true
      ∧ (∀ a ∈ [act (.fire 1), act .onEnemyKilled],
          a.call ≠ Call.resume ∧ a.call ≠ Call.stop ∧ a.call ≠ Call.start)
      ∧ (run testConfig (run testConfig _resetState wave1Paused)
            [act (.fire 1), act .onEnemyKilled]).log.filter Event.isSpawn
          = (run testConfig _resetState wave1Paused).log.filter Event.isSpawn :=
  ⟨by rw [wave1Paused_state], by simp [act],
    (pause_halts_spawning testConfig (run testConfig _resetState wave1Paused)
      [act (.fire 1), act .onEnemyKilled] (by rw [wave1Paused_state])
      (by simp [act])).2.1⟩

/-! ## A raising spawn callback -/

/-- C12, as stated, fails: in the test scenario the first spawn tick of wave 1
with a raising `spawnEnemy` logs the call of `spawnEnemy` with context
`{wave 1, index 1, remainingToSpawn 2}` and nothing else; `onEnemySpawned` is
not invoked, with an absent handle or any other. -/
theorem onEnemySpawned_skipped_when_spawn_raises :
    raisingHost.spawnEnemy = SpawnOutcome.raises
      ∧ (run testConfig _resetState [act .start, ⟨.fire 1, raisingHost⟩]).log
          = [Event.onWaveStart 1 3 50, Event.spawnEnemy ⟨1, 1, 2⟩]
      ∧ Event.onEnemySpawned ⟨1, 1, 2⟩ none
          ∉ (run testConfig _resetState [act .start, ⟨.fire 1, raisingHost⟩]).log := by
  have hlog : (run testConfig _resetState [act .start, ⟨.fire 1, raisingHost⟩]).log
      = [Event.onWaveStart 1 3 50, Event.spawnEnemy ⟨1, 1, 2⟩] := by
    simp [run, act, step, start, _beginWave, _startSpawnLoop, fireTimer, spawnTick,
      _spawnEnemy, clearTimer, State.emit, Res.ok, _resetState, quietHost, raisingHost,
      testConfig_wave1]
  refine ⟨rfl, hlog, ?_⟩
  rw [hlog]
  simp

/-- C12, amended: when `spawnEnemy` raises during a spawn tick (not paused,
`_spawned < _toSpawn`), the exception is swallowed, the tick returns normally,
and the call of `spawnEnemy` with the context (wave, index, remainingToSpawn)
is the tick's only callback invocation: `onEnemySpawned` is not invoked. -/
theorem spawn_raise_swallowed (c : Config) (h : Host) (s : State)
    (hp : s.paused = false) (hlt : s._spawned < s._toSpawn)
    (hraise : h.spawnEnemy = SpawnOutcome.raises) :
    (spawnTick c h s).raised = false
      ∧ (spawnTick c h s).st.log
          = s.log ++ [Event.spawnEnemy
              ⟨s.wave, s._spawned + 1, s._toSpawn - (s._spawned + 1)⟩] := by
  have hge : ¬ s._spawned ≥ s._toSpawn := by omega
  simp only [spawnTick, hp, hge, _spawnEnemy, hraise, Bool.false_eq_true, if_false, Res.ok]
  refine ⟨trivial, ?_⟩
  split <;> rfl

/-- The amended C12 at the first tick of wave 1 of the test scenario. -/
theorem spawn_raise_swallowed_witness :
    (run testConfig _resetState wave1Started).paused = false
      ∧ (run testConfig _resetState wave1Started)._spawned
          < (run testConfig _resetState wave1Started)._toSpawn
      ∧ raisingHost.spawnEnemy = SpawnOutcome.raises
      ∧ (spawnTick testConfig raisingHost (run testConfig _resetState wave1Started)).raised
          = false :=
  ⟨by rw [wave1Started_state], by rw [wave1Started_state]; norm_num, rfl,
    (spawn_raise_swallowed testConfig raisingHost (run testConfig _resetState wave1Started)
      (by rw [wave1Started_state]) (by rw [wave1Started_state]; norm_num) rfl).1⟩

/-! ## The wave counter -/

/-- C13, as stated, fails: in the test scenario the scheduler is in wave 2
when `stop()` then `start()` are called, and `start()` sets `wave` back
to 1. -/
theorem restart_lowers_wave :
    (run testConfig _resetState wave2Started).wave = 2
      ∧ (run testConfig (run testConfig _resetState wave2Started)
            [act .stop, act .start]).wave = 1 := by
  rw [wave2Started_state]
  constructor
  · rfl
  · rw [run_cons, run_cons, run_nil]
    simp only [step, act, start, stop, Res.ok, Bool.false_eq_true, if_false]
    unfold _beginWave
    split <;> rfl

theorem wave_le_step (c : Config) (s : State) (a : Action)
    (ha : a.call ≠ Call.start) : s.wave ≤ (step c s a).st.wave := by
  have hb : ∀ (h : Host) (s' : State), (_beginWave c h s').st.wave = s'.wave := by
    intro h s'
    unfold _beginWave
    split <;> rfl
  have hm : ∀ (h : Host) (s' : State), (_maybeCompleteWave c h s').st.wave = s'.wave := by
    intro h s'
    unfold _maybeCompleteWave
    split
    · split
      · rfl
      · unfold _scheduleIntermission
        split <;> rfl
    · rfl
  have hsp : ∀ (h : Host) (s' : State), (_spawnEnemy h s').wave = s'.wave := by
    intro h s'
    unfold _spawnEnemy
    cases h.spawnEnemy <;> simp only <;> split <;> rfl
  unfold step
  split
  · exact absurd (by assumption) ha
  · exact le_refl _
  · simp only [pause, Res.ok]; split <;> exact le_refl _
  · simp only [resume, Res.ok, _startSpawnLoop]; split <;> (try split) <;> exact le_refl _
  · unfold onEnemyKilled
    split
    · exact le_refl _
    · rw [hm]
  · unfold fireTimer
    split
    · exact le_refl _
    · split
      · unfold spawnTick
        split
        · exact le_refl _
        · split
          · rw [hm]
          · simp only [Res.ok]; rw [hsp]
      · unfold intermissionTimeout
        simp only
        split
        · exact le_refl _
        · rw [hb]; simp

/-- C13, amended: only `start()` on a stopped scheduler lowers the wave
counter. For every state and every sequence of stop, pause, resume,
onEnemyKilled calls and timer firings, the value of `wave` after the sequence
is at least its value before; `stop()` leaves `wave` unchanged and `start()`
on a running scheduler changes nothing, while `start()` on a stopped scheduler
sets `wave` to 1. -/
theorem wave_monotone_without_restart (c : Config) (s : State) (bs : List Action)
    (hbs : ∀ a ∈ bs, a.call ≠ Call.start) :
    s.wave ≤ (run c s bs).wave
      ∧ (stop s).wave = s.wave
      ∧ ∀ h : Host, (s.running = true → start c h s = Res.ok s)
          ∧ (s.running = false → (start c h s).st.wave = 1) := by
  refine ⟨?_, rfl, fun h => ⟨fun hr => by simp [start, hr], fun hr => ?_⟩⟩
  · induction bs generalizing s with
    | nil => exact le_refl _
    | cons a bs ih =>
      rw [run_cons]
      exact le_trans (wave_le_step c s a (hbs a (List.mem_cons_self _ _)))
        (ih _ (fun b hb => hbs b (List.mem_cons_of_mem _ hb)))
  · simp only [start, hr, Bool.false_eq_true, if_false, _beginWave]
    split <;> rfl

/-- The amended C13 in the test scenario: from the intermission after wave 1,
the intermission timer firing and a stop do not lower `wave`. -/
theorem wave_monotone_without_restart_witness :
    (∀ a ∈ [act (.fire 2), act .stop], a.call ≠ Call.start)
      ∧ (run testConfig _resetState wave1Cleared).wave
          ≤ (run testConfig (run testConfig _resetState wave1Cleared)
              [act (.fire 2), act .stop]).wave :=
  ⟨by simp [act],
    (wave_monotone_without_restart testConfig (run testConfig _resetState wave1Cleared)
      [act (.fire 2), act .stop] (by simp [act])).1⟩

/-! ## The control operations -/

/-- C14: `start()` on a non-running scheduler (in any reachable state) sets
`running`, sets `wave` to 1, `_spawned` and `_active` to 0 and `_toSpawn` to
`_calcEnemiesForWave(1)`, and invokes exactly one callback,
`onWaveStart({wave: 1, count: _calcEnemiesForWave(1), spawnIntervalMs:
_calcSpawnIntervalForWave(1)})`; once that sink has returned, `start()`
returns normally and the one live timer is a spawn cadence with that interval,
held in `_spawnTimer`. On a running scheduler `start()` returns the state
unchanged, log included. -/
theorem start_spec (c : Config) (as : List Action) (h : Host) :
    ((run c _resetState as).running = false →
        (start c h (run c _resetState as)).st.running = true
          ∧ (start c h (run c _resetState as)).st.wave = 1
          ∧ (start c h (run c _resetState as)).st._spawned = 0
          ∧ (start c h (run c _resetState as)).st._active = 0
          ∧ (start c h (run c _resetState as)).st._toSpawn = _calcEnemiesForWave c 1
          ∧ (start c h (run c _resetState as)).st.log
              = (run c _resetState as).log
                  ++ [Event.onWaveStart 1 (_calcEnemiesForWave c 1)
                        (_calcSpawnIntervalForWave c 1)]
          ∧ (h.onWaveStartRaises = false →
              (start c h (run c _resetState as)).raised = false
                ∧ (start c h (run c _resetState as)).st.timers
                    = [⟨(run c _resetState as).nextId, TimerKind.spawnTick,
                        _calcSpawnIntervalForWave c 1⟩]
                ∧ (start c h (run c _resetState as)).st._spawnTimer
                    = some (run c _resetState as).nextId))
      ∧ ((run c _resetState as).running = true →
          start c h (run c _resetState as) = Res.ok (run c _resetState as)) := by
  have hinv := inv_run c as _resetState inv_resetState
  have hcoh := coherent_run c as _resetState inv_resetState (coherent_resetState c)
  generalize run c _resetState as = s at hinv hcoh
  constructor
  · intro hr
    have ht := (hinv.idle hr).1
    have hsp := (hcoh.idle_clean hr).2
    simp only [start, hr, Bool.false_eq_true, if_false, _beginWave]
    split
    · rename_i hq
      simp [Res.throw, State.emit, hq]
    · rename_i hq
      simp [Res.ok, State.emit, _startSpawnLoop, ht, hsp, clearTimer]
  · intro hr
    simp [start, hr]

/-- C14 on a fresh test scheduler (not running) and right after its start
(running). -/
theorem start_spec_witness :
    (run testConfig _resetState []).running = false
      ∧ (start testConfig quietHost (run testConfig _resetState [])).st.wave = 1
      ∧ quietHost.onWaveStartRaises = false
      ∧ (start testConfig quietHost (run testConfig _resetState [])).st._spawnTimer
          = some (run testConfig _resetState []).nextId
      ∧ (run testConfig _resetState wave1Started).running = true
      ∧ start testConfig quietHost (run testConfig _resetState wave1Started)
          = Res.ok (run testConfig _resetState wave1Started) :=
  ⟨rfl, ((start_spec testConfig [] quietHost).1 rfl).2.1, rfl,
    (((start_spec testConfig [] quietHost).1 rfl).2.2.2.2.2.2 rfl).2.2,
    by rw [wave1Started_state],
    (start_spec testConfig wave1Started quietHost).2 (by rw [wave1Started_state])⟩

/-- C15: `stop()` from any state sets `running` and `paused` to false, clears
both handles and cancels the timers they refer to, leaves `wave`, `_spawned`,
`_toSpawn`, `_active` and the log unchanged, and a second `stop()` changes
nothing more; in a reachable state no live timer at all is left. -/
theorem stop_spec (c : Config) (as : List Action) (s : State) :
    (stop s).running = false ∧ (stop s).paused = false
      ∧ (stop s)._spawnTimer = none ∧ (stop s)._intermissionTimer = none
      ∧ (∀ t ∈ (stop s).timers,
          s._spawnTimer ≠ some t.id ∧ s._intermissionTimer ≠ some t.id)
      ∧ (stop s).wave = s.wave ∧ (stop s)._spawned = s._spawned
      ∧ (stop s)._toSpawn = s._toSpawn ∧ (stop s)._active = s._active
      ∧ (stop s).log = s.log
      ∧ stop (stop s) = stop s
      ∧ (stop (run c _resetState as)).timers = [] := by
  refine ⟨rfl, rfl, rfl, rfl, ?_, rfl, rfl, rfl, rfl, rfl, ?_, ?_⟩
  · intro t ht
    have h1 := mem_clearTimer ht
    exact ⟨(mem_clearTimer h1.1).2, h1.2⟩
  · simp [stop, clearTimer]
  · exact ((inv_stop _ (inv_run c as _resetState inv_resetState)).idle rfl).1

theorem clearTimer_spawnTimer {c : Config} {s : State} (hinv : Inv s)
    (hcoh : Coherent c s) :
    clearTimer s.timers s._spawnTimer
      = s.timers.filter (fun t => decide (t.kind = TimerKind.intermission)) := by
  cases hsp : s._spawnTimer with
  | none =>
    simp only [clearTimer]
    symm
    apply List.filter_eq_self.mpr
    intro t ht
    cases hk : t.kind with
    | spawnTick =>
      have := hinv.tick_owned t ht hk
      rw [hsp] at this
      cases this
    | intermission => simp
  | some i =>
    simp only [clearTimer]
    apply List.filter_congr
    intro t ht
    cases hk : t.kind with
    | spawnTick =>
      have := hinv.tick_owned t ht hk
      rw [hsp] at this
      injection this with this
      simp [this]
    | intermission =>
      have h1 := hinv.interm_owned t ht hk
      have h2 := hcoh.handles_ne i hsp
      have : t.id ≠ i := by
        intro heq
        rw [h1, heq] at h2
        exact h2 rfl
      simp [this]

/-- C16: in every reachable state with `running` true and `paused` false,
`pause()` sets `paused`, cancels every live spawn cadence and keeps exactly the
live intermission timers, and leaves `wave`, `_spawned`, `_toSpawn`, `_active`,
`running`, `_intermissionTimer` and the log unchanged. -/
theorem pause_spec (c : Config) (as : List Action)
    (hr : (run c _resetState as).running = true)
    (hp : (run c _resetState as).paused = false) :
    (pause (run c _resetState as)).paused = true
      ∧ (pause (run c _resetState as)).timers
          = (run c _resetState as).timers.filter
              (fun t => decide (t.kind = TimerKind.intermission))
      ∧ (pause (run c _resetState as))._intermissionTimer
          = (run c _resetState as)._intermissionTimer
      ∧ (pause (run c _resetState as)).wave = (run c _resetState as).wave
      ∧ (pause (run c _resetState as))._spawned = (run c _resetState as)._spawned
      ∧ (pause (run c _resetState as))._toSpawn = (run c _resetState as)._toSpawn
      ∧ (pause (run c _resetState as))._active = (run c _resetState as)._active
      ∧ (pause (run c _resetState as)).running = true
      ∧ (pause (run c _resetState as)).log = (run c _resetState as).log := by
  have hinv := inv_run c as _resetState inv_resetState
  have hcoh := coherent_run c as _resetState inv_resetState (coherent_resetState c)
  generalize run c _resetState as = s at hinv hcoh hr hp
  have ht := clearTimer_spawnTimer hinv hcoh
  simp [pause, hr, hp, ht]

/-- C16 right after the start of the test scheduler: pausing cancels the
cadence, and no timer is left. -/
theorem pause_spec_witness :
    (run testConfig _resetState wave1Started).running = true
      ∧ (run testConfig _resetState wave1Started).paused = false
      ∧ (pause (run testConfig _resetState wave1Started)).paused = true
      ∧ (pause (run testConfig _resetState wave1Started))._spawned
          = (run testConfig _resetState wave1Started)._spawned :=
  ⟨by rw [wave1Started_state], by rw [wave1Started_state],
    (pause_spec testConfig wave1Started (by rw [wave1Started_state])
      (by rw [wave1Started_state])).1,
    (pause_spec testConfig wave1Started (by rw [wave1Started_state])
      (by rw [wave1Started_state])).2.2.2.2.1⟩

theorem spawnTick_log (c : Config) (h : Host) (s : State)
    (hp : s.paused = false) (hlt : s._spawned < s._toSpawn) :
    (spawnTick c h s).st.log
      = s.log ++ Event.spawnEnemy ⟨s.wave, s._spawned + 1, s._toSpawn - (s._spawned + 1)⟩
          :: (match h.spawnEnemy with
              | .returns enemy =>
                [Event.onEnemySpawned
                  ⟨s.wave, s._spawned + 1, s._toSpawn - (s._spawned + 1)⟩ enemy]
              | .raises => []) := by
  have hge : ¬ s._spawned ≥ s._toSpawn := by omega
  simp only [spawnTick, hp, hge, _spawnEnemy, Bool.false_eq_true, if_false, Res.ok]
  cases h.spawnEnemy <;> simp only <;> split <;> simp [State.emit]

/-- C17: in every reachable state with `running` and `paused` true, `resume()`
clears `paused` and leaves `wave`, `_spawned`, `_toSpawn`, `_active` and the
log unchanged. The latest `onWaveStart` announced the current wave, its
`_toSpawn` and `_calcSpawnIntervalForWave(wave)`. If `_spawned < _toSpawn`,
the one live timer after `resume()` is a fresh spawn cadence with that
interval, held in `_spawnTimer`, and its first tick calls `spawnEnemy` with
index `_spawned + 1`; otherwise `resume()` arms nothing: timers and
`_spawnTimer` are as before. -/
theorem resume_spec (c : Config) (as : List Action) (h : Host)
    (hr : (run c _resetState as).running = true)
    (hp : (run c _resetState as).paused = true) :
    (resume c (run c _resetState as)).paused = false
      ∧ (resume c (run c _resetState as)).wave = (run c _resetState as).wave
      ∧ (resume c (run c _resetState as))._spawned = (run c _resetState as)._spawned
      ∧ (resume c (run c _resetState as))._toSpawn = (run c _resetState as)._toSpawn
      ∧ (resume c (run c _resetState as))._active = (run c _resetState as)._active
      ∧ (resume c (run c _resetState as)).log = (run c _resetState as).log
      ∧ lastWaveStart (run c _resetState as).log
          = some (Event.onWaveStart (run c _resetState as).wave
              (run c _resetState as)._toSpawn
              (_calcSpawnIntervalForWave c (run c _resetState as).wave))
      ∧ ((run c _resetState as)._spawned < (run c _resetState as)._toSpawn →
          (resume c (run c _resetState as)).timers
              = [⟨(run c _resetState as).nextId, TimerKind.spawnTick,
                  _calcSpawnIntervalForWave c (run c _resetState as).wave⟩]
            ∧ (resume c (run c _resetState as))._spawnTimer
                = some (run c _resetState as).nextId
            ∧ ∃ rest,
                (fireTimer c h (resume c (run c _resetState as))
                    (run c _resetState as).nextId).st.log
                  = (run c _resetState as).log
                      ++ Event.spawnEnemy
                          ⟨(run c _resetState as).wave,
                            (run c _resetState as)._spawned + 1,
                            (run c _resetState as)._toSpawn
                              - ((run c _resetState as)._spawned + 1)⟩ :: rest)
      ∧ (¬ (run c _resetState as)._spawned < (run c _resetState as)._toSpawn →
          (resume c (run c _resetState as)).timers = (run c _resetState as).timers
            ∧ (resume c (run c _resetState as))._spawnTimer
                = (run c _resetState as)._spawnTimer) := by
  have hinv := inv_run c as _resetState inv_resetState
  have hcoh := coherent_run c as _resetState inv_resetState (coherent_resetState c)
  generalize run c _resetState as = s at hinv hcoh hr hp
  have hres : resume c s
      = if s._spawned < s._toSpawn then _startSpawnLoop c { s with paused := false } none
        else { s with paused := false } := by
    simp [resume, hr, hp]
  have hsame : (resume c s).paused = false ∧ (resume c s).wave = s.wave
      ∧ (resume c s)._spawned = s._spawned ∧ (resume c s)._toSpawn = s._toSpawn
      ∧ (resume c s)._active = s._active ∧ (resume c s).log = s.log := by
    rw [hres]
    split <;> exact ⟨rfl, rfl, rfl, rfl, rfl, rfl⟩
  refine ⟨hsame.1, hsame.2.1, hsame.2.2.1, hsame.2.2.2.1, hsame.2.2.2.2.1,
    hsame.2.2.2.2.2, hcoh.announced hr, ?_, ?_⟩
  · intro hlt
    have hnone : s._intermissionTimer = none := by
      by_contra hne
      have := (hinv.pending hne).2
      omega
    have hclear : clearTimer s.timers s._spawnTimer = [] := by
      rw [clearTimer_spawnTimer hinv hcoh]
      apply List.filter_eq_nil_iff.mpr
      intro t ht
      cases hk : t.kind with
      | spawnTick => simp
      | intermission =>
        have := hinv.interm_owned t ht hk
        rw [hnone] at this
        cases this
    have hres2 : resume c s
        = { s with
            paused := false
            timers := [⟨s.nextId, TimerKind.spawnTick, _calcSpawnIntervalForWave c s.wave⟩]
            _spawnTimer := some s.nextId
            nextId := s.nextId + 1 } := by
      rw [hres, if_pos hlt]
      simp [_startSpawnLoop, hclear]
    refine ⟨by rw [hres2], by rw [hres2], ?_⟩
    have hfire : fireTimer c h (resume c s) s.nextId = spawnTick c h (resume c s) := by
      rw [hres2]
      simp [fireTimer]
    rw [hfire, spawnTick_log c h (resume c s) (by rw [hres2]) (by rw [hres2]; exact hlt)]
    rw [hres2]
    exact ⟨_, rfl⟩
  · intro hge
    rw [hres, if_neg hge]
    exact ⟨rfl, rfl⟩

/-- C17 in the test scenario: resumed after the first spawn of wave 1, the new
cadence has handle 2 and the wave's interval 50. -/
theorem resume_spec_witness :
    (run testConfig _resetState wave1Paused).running = true
      ∧ (run testConfig _resetState wave1Paused).paused = true
      ∧ (run testConfig _resetState wave1Paused)._spawned
          < (run testConfig _resetState wave1Paused)._toSpawn
      ∧ (resume testConfig (run testConfig _resetState wave1Paused)).paused = false
      ∧ (resume testConfig (run testConfig _resetState wave1Paused))._spawnTimer
          = some (run testConfig _resetState wave1Paused).nextId :=
  ⟨by rw [wave1Paused_state], by rw [wave1Paused_state],
    by rw [wave1Paused_state]; norm_num,
    (resume_spec testConfig wave1Paused quietHost (by rw [wave1Paused_state])
      (by rw [wave1Paused_state])).1,
    ((resume_spec testConfig wave1Paused quietHost (by rw [wave1Paused_state])
      (by rw [wave1Paused_state])).2.2.2.2.2.2.2.1
        (by rw [wave1Paused_state]; norm_num)).2.1⟩

/-- C18: `onEnemyKilled()` in a running state, paused or not and whatever the
host does, sets `_active` to `max(0, _active - 1)` and leaves `wave`,
`_spawned` and `_toSpawn` unchanged. If `_spawned >= _toSpawn`, the new
`_active` is 0 and `_intermissionTimer` is not set, it then invokes
`onWaveComplete` for the current wave; otherwise it returns normally having
changed nothing but `_active`, with no callback invoked. -/
theorem onEnemyKilled_spec (c : Config) (h : Host) (s : State)
    (hr : s.running = true) :
    (onEnemyKilled c h s).st._active = max 0 (s._active - 1)
      ∧ (onEnemyKilled c h s).st.wave = s.wave
      ∧ (onEnemyKilled c h s).st._spawned = s._spawned
      ∧ (onEnemyKilled c h s).st._toSpawn = s._toSpawn
      ∧ ((s._spawned ≥ s._toSpawn ∧ max 0 (s._active - 1) = 0
            ∧ s._intermissionTimer = none) →
          ∃ rest, (onEnemyKilled c h s).st.log
            = s.log ++ Event.onWaveComplete s.wave :: rest)
      ∧ (¬ (s._spawned ≥ s._toSpawn ∧ max 0 (s._active - 1) = 0
            ∧ s._intermissionTimer = none) →
          onEnemyKilled c h s = Res.ok { s with _active := max 0 (s._active - 1) }) := by
  have hk : onEnemyKilled c h s
      = _maybeCompleteWave c h { s with _active := max 0 (s._active - 1) } := by
    simp [onEnemyKilled, hr]
  rw [hk]
  unfold _maybeCompleteWave
  split
  · rename_i hg
    split
    · exact ⟨rfl, rfl, rfl, rfl, fun _ => ⟨[], rfl⟩, fun hn => absurd hg hn⟩
    · unfold _scheduleIntermission
      split
      · exact ⟨rfl, rfl, rfl, rfl,
          fun _ => ⟨[Event.onIntermission s.wave c.intermissionMs], by simp [Res.throw, State.emit]⟩,
          fun hn => absurd hg hn⟩
      · exact ⟨rfl, rfl, rfl, rfl,
          fun _ => ⟨[Event.onIntermission s.wave c.intermissionMs], by simp [Res.ok, State.emit]⟩,
          fun hn => absurd hg hn⟩
  · rename_i hg
    exact ⟨rfl, rfl, rfl, rfl, fun hy => absurd hy hg, fun _ => rfl⟩

/-- C18 in the test scenario: with wave 1 fully spawned and one unit active,
the kill report brings `_active` to 0. -/
theorem onEnemyKilled_spec_witness :
    (run testConfig _resetState wave1OneLeft).running = true
      ∧ (onEnemyKilled testConfig quietHost
            (run testConfig _resetState wave1OneLeft)).st._active
          = max 0 ((run testConfig _resetState wave1OneLeft)._active - 1) :=
  ⟨by rw [wave1OneLeft_state],
    (onEnemyKilled_spec testConfig quietHost (run testConfig _resetState wave1OneLeft)
      (by rw [wave1OneLeft_state])).1⟩

/-- C19, amended: in every state, `pause()` when not running or already
paused, `resume()` when not running or not paused and `onEnemyKilled()` when
not running each return normally and leave the whole state, log of
notifications included, unchanged; so does `stop()` on a stopped scheduler
that holds no timer handle, as the constructor leaves it, and `stop()` right
after `stop()`. -/
theorem invalid_calls_are_noops (c : Config) (h : Host) (s : State) :
    ((s.running = false ∨ s.paused = true) → step c s ⟨Call.pause, h⟩ = Res.ok s)
      ∧ ((s.running = false ∨ s.paused = false) → step c s ⟨Call.resume, h⟩ = Res.ok s)
      ∧ (s.running = false → step c s ⟨Call.onEnemyKilled, h⟩ = Res.ok s)
      ∧ (s.running = false → s.paused = false → s._spawnTimer = none →
          s._intermissionTimer = none → step c s ⟨Call.stop, h⟩ = Res.ok s)
      ∧ step c (stop s) ⟨Call.stop, h⟩ = Res.ok (stop s)
      ∧ step c _resetState ⟨Call.stop, h⟩ = Res.ok _resetState := by
  refine ⟨?_, ?_, ?_, ?_, ?_, rfl⟩
  · intro hc
    rcases hc with hc | hc <;> simp [step, pause, hc]
  · intro hc
    rcases hc with hc | hc <;> simp [step, resume, hc]
  · intro hc
    simp [step, onEnemyKilled, hc]
  · intro h1 h2 h3 h4
    cases s
    simp_all [step, stop, clearTimer, Res.ok]
  · simp [step, stop, clearTimer, Res.ok]

/-- The amended C19 on a fresh test scheduler (not running, no handle), on the
paused one and on the started one. -/
theorem invalid_calls_are_noops_witness :
    _resetState.running = false
      ∧ _resetState.paused = false
      ∧ _resetState._spawnTimer = none
      ∧ _resetState._intermissionTimer = none
      ∧ step testConfig _resetState ⟨Call.stop, quietHost⟩ = Res.ok _resetState
      ∧ step testConfig _resetState ⟨Call.onEnemyKilled, quietHost⟩ = Res.ok _resetState
      ∧ (run testConfig _resetState wave1Paused).paused = true
      ∧ step testConfig (run testConfig _resetState wave1Paused) ⟨Call.pause, quietHost⟩
          = Res.ok (run testConfig _resetState wave1Paused)
      ∧ (run testConfig _resetState wave1Started).paused = false
      ∧ step testConfig (run testConfig _resetState wave1Started) ⟨Call.resume, quietHost⟩
          = Res.ok (run testConfig _resetState wave1Started) :=
  ⟨rfl, rfl, rfl, rfl,
    (invalid_calls_are_noops testConfig quietHost _resetState).2.2.2.1 rfl rfl rfl rfl,
    (invalid_calls_are_noops testConfig quietHost _resetState).2.2.1 rfl,
    by rw [wave1Paused_state],
    (invalid_calls_are_noops testConfig quietHost
      (run testConfig _resetState wave1Paused)).1 (Or.inr (by rw [wave1Paused_state])),
    by rw [wave1Started_state],
    (invalid_calls_are_noops testConfig quietHost
      (run testConfig _resetState wave1Started)).2.1 (Or.inr (by rw [wave1Started_state]))⟩

/-- C20: a spawn tick executed while not paused with `_spawned < _toSpawn`
returns normally, whatever the host does; it increments `_spawned` and
`_active` by one and leaves `wave` and `_toSpawn` unchanged; it calls
`spawnEnemy` with `{wave, index: new _spawned, remainingToSpawn: _toSpawn -
new _spawned}` and, when `spawnEnemy` returns a handle, then calls
`onEnemySpawned` with the same context and that handle; if the new `_spawned`
equals `_toSpawn` it cancels the cadence and clears `_spawnTimer`, otherwise
timers and `_spawnTimer` are as before. -/
theorem spawnTick_spec (c : Config) (h : Host) (s : State)
    (hp : s.paused = false) (hlt : s._spawned < s._toSpawn) :
    (spawnTick c h s).raised = false
      ∧ (spawnTick c h s).st._spawned = s._spawned + 1
      ∧ (spawnTick c h s).st._active = s._active + 1
      ∧ (spawnTick c h s).st.wave = s.wave
      ∧ (spawnTick c h s).st._toSpawn = s._toSpawn
      ∧ (∃ rest, (spawnTick c h s).st.log
          = s.log ++ Event.spawnEnemy
              ⟨s.wave, s._spawned + 1, s._toSpawn - (s._spawned + 1)⟩ :: rest)
      ∧ (∀ enemy, h.spawnEnemy = SpawnOutcome.returns enemy →
          (spawnTick c h s).st.log
            = s.log ++ [Event.spawnEnemy
                  ⟨s.wave, s._spawned + 1, s._toSpawn - (s._spawned + 1)⟩,
                Event.onEnemySpawned
                  ⟨s.wave, s._spawned + 1, s._toSpawn - (s._spawned + 1)⟩ enemy])
      ∧ (s._spawned + 1 = s._toSpawn →
          (spawnTick c h s).st._spawnTimer = none
            ∧ (spawnTick c h s).st.timers = clearTimer s.timers s._spawnTimer)
      ∧ (s._spawned + 1 ≠ s._toSpawn →
          (spawnTick c h s).st._spawnTimer = s._spawnTimer
            ∧ (spawnTick c h s).st.timers = s.timers) := by
  have hlog := spawnTick_log c h s hp hlt
  have hge : ¬ s._spawned ≥ s._toSpawn := by omega
  have hst : (spawnTick c h s).raised = false
      ∧ (spawnTick c h s).st._spawned = s._spawned + 1
      ∧ (spawnTick c h s).st._active = s._active + 1
      ∧ (spawnTick c h s).st.wave = s.wave
      ∧ (spawnTick c h s).st._toSpawn = s._toSpawn
      ∧ (s._spawned + 1 = s._toSpawn →
          (spawnTick c h s).st._spawnTimer = none
            ∧ (spawnTick c h s).st.timers = clearTimer s.timers s._spawnTimer)
      ∧ (s._spawned + 1 ≠ s._toSpawn →
          (spawnTick c h s).st._spawnTimer = s._spawnTimer
            ∧ (spawnTick c h s).st.timers = s.timers) := by
    simp only [spawnTick, hp, hge, _spawnEnemy, Bool.false_eq_true, if_false, Res.ok]
    cases h.spawnEnemy <;> simp only [State.emit] <;> split <;>
      (rename_i hc
       refine ⟨trivial, rfl, rfl, rfl, rfl, fun heq => ?_, fun hne => ?_⟩
       · first
           | exact ⟨rfl, rfl⟩
           | (exfalso; simp at hc; omega)
       · first
           | exact ⟨rfl, rfl⟩
           | (exfalso; simp at hc; omega))
  refine ⟨hst.1, hst.2.1, hst.2.2.1, hst.2.2.2.1, hst.2.2.2.2.1, ⟨_, hlog⟩, ?_,
    hst.2.2.2.2.2.1, hst.2.2.2.2.2.2⟩
  intro enemy he
  rw [hlog, he]

/-- C20 at the first tick of wave 1 of the test scenario: `_spawned` goes from
0 to 1. -/
theorem spawnTick_spec_witness :
    (run testConfig _resetState wave1Started).paused = false
      ∧ (run testConfig _resetState wave1Started)._spawned
          < (run testConfig _resetState wave1Started)._toSpawn
      ∧ (spawnTick testConfig quietHost (run testConfig _resetState wave1Started)).st._spawned
          = (run testConfig _resetState wave1Started)._spawned + 1 :=
  ⟨by rw [wave1Started_state], by rw [wave1Started_state]; norm_num,
    (spawnTick_spec testConfig quietHost (run testConfig _resetState wave1Started)
      (by rw [wave1Started_state]) (by rw [wave1Started_state]; norm_num)).2.1⟩

/-! ## The test configuration -/

/-- C24, as stated, fails: with the test configuration `3 + 2*(w-1)` at
`w = 2^52` is `2^53 + 1`, which is not a binary64 value; the sum is rounded
and `_calcEnemiesForWave(2^52)` is `2^53`. -/
theorem testConfig_formula_rounds :
    (1 : ℤ) ≤ 2 ^ 52
      ∧ _calcEnemiesForWave testConfig (2 ^ 52) = 2 ^ 53
      ∧ (3 : ℤ) + 2 * (2 ^ 52 - 1) = 2 ^ 53 + 1
      ∧ _calcEnemiesForWave testConfig (2 ^ 52) ≠ 3 + 2 * (2 ^ 52 - 1) := by
  refine ⟨by norm_num, testConfig_wave_two_pow_52, by norm_num, ?_⟩
  rw [testConfig_wave_two_pow_52]
  norm_num

/-- C24, amended: with the test configuration (base 3, increment 2, base
interval 50, minimum 10, acceleration 5), `_calcEnemiesForWave(w)` is
`3 + 2*(w-1)` for every `w` from 1 to `2^52 - 1`, so 3, 5, 7, 9, 11 for waves
1 to 5 and 201 at wave 100, and `_calcSpawnIntervalForWave(100)` is 10. -/
theorem testConfig_formulas :
    (∀ w : ℤ, 1 ≤ w → w < 2 ^ 52 → _calcEnemiesForWave testConfig w = 3 + 2 * (w - 1))
      ∧ _calcEnemiesForWave testConfig 1 = 3
      ∧ _calcEnemiesForWave testConfig 2 = 5
      ∧ _calcEnemiesForWave testConfig 3 = 7
      ∧ _calcEnemiesForWave testConfig 4 = 9
      ∧ _calcEnemiesForWave testConfig 5 = 11
      ∧ _calcEnemiesForWave testConfig 100 = 201
      ∧ _calcSpawnIntervalForWave testConfig 100 = 10 := by
  refine ⟨testConfig_enemies, ?_, ?_, ?_, ?_, ?_, ?_, ?_⟩
  · rw [testConfig_enemies 1 (by norm_num) (by norm_num)]; norm_num
  · rw [testConfig_enemies 2 (by norm_num) (by norm_num)]; norm_num
  · rw [testConfig_enemies 3 (by norm_num) (by norm_num)]; norm_num
  · rw [testConfig_enemies 4 (by norm_num) (by norm_num)]; norm_num
  · rw [testConfig_enemies 5 (by norm_num) (by norm_num)]; norm_num
  · rw [testConfig_enemies 100 (by norm_num) (by norm_num)]; norm_num
  · rw [testConfig_interval 100 (by norm_num) (by norm_num)]; norm_num

/-- The amended C24 at wave 7: 15 units. -/
theorem testConfig_formulas_witness :
    (1 : ℤ) ≤ 7 ∧ (7 : ℤ) < 2 ^ 52 ∧ _calcEnemiesForWave testConfig 7 = 3 + 2 * (7 - 1) :=
  ⟨by norm_num, by norm_num, testConfig_formulas.1 7 (by norm_num) (by norm_num)⟩

/-! ## Running is kept -/

theorem beginWave_frame (c : Config) (h : Host) (s : State) :
    (_beginWave c h s).st.running = s.running
      ∧ (_beginWave c h s).st.wave = s.wave
      ∧ (_beginWave c h s).st._intermissionTimer = s._intermissionTimer := by
  unfold _beginWave
  split <;> exact ⟨rfl, rfl, rfl⟩

theorem maybeCompleteWave_frame (c : Config) (h : Host) (s : State) :
    (_maybeCompleteWave c h s).st.running = s.running
      ∧ (_maybeCompleteWave c h s).st.wave = s.wave
      ∧ (_maybeCompleteWave c h s).st._spawned = s._spawned
      ∧ (_maybeCompleteWave c h s).st._toSpawn = s._toSpawn
      ∧ (_maybeCompleteWave c h s).st._active = s._active
      ∧ (_maybeCompleteWave c h s).st._spawnTimer = s._spawnTimer := by
  unfold _maybeCompleteWave
  split
  · split
    · exact ⟨rfl, rfl, rfl, rfl, rfl, rfl⟩
    · unfold _scheduleIntermission
      split <;> exact ⟨rfl, rfl, rfl, rfl, rfl, rfl⟩
  · exact ⟨rfl, rfl, rfl, rfl, rfl, rfl⟩

theorem spawnEnemy_frame (h : Host) (s : State) :
    (_spawnEnemy h s).running = s.running
      ∧ (_spawnEnemy h s).wave = s.wave
      ∧ (_spawnEnemy h s)._intermissionTimer = s._intermissionTimer
      ∧ (_spawnEnemy h s)._toSpawn = s._toSpawn := by
  unfold _spawnEnemy
  cases h.spawnEnemy <;> simp only <;> split <;> exact ⟨rfl, rfl, rfl, rfl⟩

theorem running_step (c : Config) (s : State) (a : Action)
    (hr : s.running = true) (ha : a.call ≠ Call.stop) :
    (step c s a).st.running = true := by
  unfold step
  split
  · simp [start, hr, Res.ok]
  · exact absurd (by assumption) ha
  · simp only [pause, Res.ok]; split <;> exact hr
  · simp only [resume, Res.ok, _startSpawnLoop]; split <;> (try split) <;> exact hr
  · unfold onEnemyKilled
    split
    · exact hr
    · rw [(maybeCompleteWave_frame c _ _).1]; exact hr
  · unfold fireTimer
    split
    · exact hr
    · split
      · unfold spawnTick
        split
        · exact hr
        · split
          · rw [(maybeCompleteWave_frame c _ _).1]; exact hr
          · simp only [Res.ok]; rw [(spawnEnemy_frame _ _).1]; exact hr
      · unfold intermissionTimeout
        simp only
        split
        · exact hr
        · rw [(beginWave_frame c _ _).1]; exact hr

/-- C28: the scheduler never stops by itself. From any running state, at any
wave number and whatever the host callbacks do, every sequence of timer
firings, onEnemyKilled, pause, resume and start calls that contains no
`stop()` leaves `running` true. -/
theorem never_stops_automatically (c : Config) (s : State) (bs : List Action)
    (hr : s.running = true) (hbs : ∀ a ∈ bs, a.call ≠ Call.stop) :
    (run c s bs).running = true := by
  induction bs generalizing s with
  | nil => exact hr
  | cons a bs ih =>
    rw [run_cons]
    exact ih _ (running_step c s a hr (hbs a (List.mem_cons_self _ _)))
      (fun b hb => hbs b (List.mem_cons_of_mem _ hb))

/-- C28 in the test scenario: started, then run through wave 1 and into
wave 2, the scheduler is still running. -/
theorem never_stops_automatically_witness :
    (run testConfig _resetState wave1Started).running = true
      ∧ (∀ a ∈ scenario.tail, a.call ≠ Call.stop)
      ∧ (run testConfig (run testConfig _resetState wave1Started) scenario.tail).running
          = true :=
  ⟨by rw [wave1Started_state], by simp [scenario, act],
    never_stops_automatically testConfig (run testConfig _resetState wave1Started)
      scenario.tail (by rw [wave1Started_state]) (by simp [scenario, act])⟩

/-! ## The end-to-end scenario -/

set_option maxRecDepth 8000 in
/-- C23: the end-to-end scenario on the test configuration, step by step.
`start()` emits `onWaveStart(1, 3, 50)`; the three spawn ticks spawn indices
1, 2, 3 (remaining 2, 1, 0) and leave no cadence armed; the first two kill
reports emit nothing and the third emits `onWaveComplete(1)` then
`onIntermission(1, 100)`; the intermission firing emits
`onWaveStart(2, 5, 45)`. -/
theorem scenario_trace :
    deltas testConfig _resetState scenario
        = [[Event.onWaveStart 1 3 50],
           [Event.spawnEnemy ⟨1, 1, 2⟩, Event.onEnemySpawned ⟨1, 1, 2⟩ none],
           [Event.spawnEnemy ⟨1, 2, 1⟩, Event.onEnemySpawned ⟨1, 2, 1⟩ none],
           [Event.spawnEnemy ⟨1, 3, 0⟩, Event.onEnemySpawned ⟨1, 3, 0⟩ none],
           [],
           [],
           [Event.onWaveComplete 1, Event.onIntermission 1 100],
           [Event.onWaveStart 2 5 45]]
      ∧ (run testConfig _resetState (scenario.take 4)).timers = []
      ∧ (run testConfig _resetState (scenario.take 4))._spawnTimer = none
      ∧ (run testConfig _resetState scenario).wave = 2
      ∧ (run testConfig _resetState scenario).timers = [⟨3, TimerKind.spawnTick, 45⟩] := by
  have hms : testConfig.intermissionMs = 100 := rfl
  refine ⟨?_, ?_, ?_, ?_, ?_⟩
  · simp [deltas, emitted, scenario, act, step, start, _beginWave, _startSpawnLoop, fireTimer,
      spawnTick, _spawnEnemy, onEnemyKilled, _maybeCompleteWave, _scheduleIntermission,
      intermissionTimeout, clearTimer, State.emit, Res.ok, Res.throw, _resetState, quietHost,
      testConfig_wave1, testConfig_wave2, hms]
  · simp [run, scenario, act, step, start, _beginWave, _startSpawnLoop, fireTimer,
      spawnTick, _spawnEnemy, clearTimer, State.emit, Res.ok, _resetState, quietHost,
      testConfig_wave1]
  · simp [run, scenario, act, step, start, _beginWave, _startSpawnLoop, fireTimer,
      spawnTick, _spawnEnemy, clearTimer, State.emit, Res.ok, _resetState, quietHost,
      testConfig_wave1]
  · have h : scenario = wave2Started := rfl
    rw [h, wave2Started_state]
  · have h : scenario = wave2Started := rfl
    rw [h, wave2Started_state]

/-! ## Faults of host callbacks -/

/-- C25: whatever `spawnEnemy` and `onEnemySpawned` do, raising included, a
spawn tick returns normally (as long as the completion sinks, which those two
callbacks are not, return). When it spawns (not paused, `_spawned <
_toSpawn`), the state it leaves apart from the log does not depend on the
host: `_spawned` and `_active` are incremented by one, and the cadence is
cancelled with `_spawnTimer` cleared exactly when the new `_spawned` reaches
`_toSpawn`. -/
theorem spawn_faults_do_not_halt (c : Config) (h : Host) (s : State) :
    (h.onWaveCompleteRaises = false → h.onIntermissionRaises = false →
        (spawnTick c h s).raised = false)
      ∧ (s.paused = false → s._spawned < s._toSpawn →
          (spawnTick c h s).raised = false
            ∧ { (spawnTick c h s).st with log := s.log }
                = if s._spawned + 1 ≥ s._toSpawn then
                    { s with
                      _spawned := s._spawned + 1
                      _active := s._active + 1
                      timers := clearTimer s.timers s._spawnTimer
                      _spawnTimer := none }
                  else
                    { s with _spawned := s._spawned + 1, _active := s._active + 1 }) := by
  constructor
  · intro hwc him
    unfold spawnTick
    split
    · rfl
    · split
      · simp [_maybeCompleteWave, _scheduleIntermission, hwc, him, Res.ok]
        split <;> rfl
      · rfl
  · intro hp hlt
    have hge : ¬ s._spawned ≥ s._toSpawn := by omega
    simp only [spawnTick, hp, hge, _spawnEnemy, Bool.false_eq_true, if_false, Res.ok]
    refine ⟨trivial, ?_⟩
    cases h.spawnEnemy <;> simp only [State.emit] <;> split <;> rfl

/-- C25 at the first tick of wave 1 of the test scenario, with a raising
`spawnEnemy`. -/
theorem spawn_faults_do_not_halt_witness :
    raisingHost.onWaveCompleteRaises = false
      ∧ raisingHost.onIntermissionRaises = false
      ∧ (run testConfig _resetState wave1Started).paused = false
      ∧ (run testConfig _resetState wave1Started)._spawned
          < (run testConfig _resetState wave1Started)._toSpawn
      ∧ (spawnTick testConfig raisingHost (run testConfig _resetState wave1Started)).raised
          = false
      ∧ (spawnTick testConfig raisingHost _resetState).raised = false :=
  ⟨rfl, rfl, by rw [wave1Started_state], by rw [wave1Started_state]; norm_num,
    ((spawn_faults_do_not_halt testConfig raisingHost
        (run testConfig _resetState wave1Started)).2
      (by rw [wave1Started_state]) (by rw [wave1Started_state]; norm_num)).1,
    (spawn_faults_do_not_halt testConfig raisingHost _resetState).1 rfl rfl⟩

/-- C26 fails for the intermission callback: in the test scenario, with wave 1
cleared and the intermission pending, the intermission timer (handle 2) fires
while `onWaveStart` raises. The exception escapes the timer callback, and the
scheduler is left running in wave 2 with `_spawned` 0 of 5 and no timer armed
at all. -/
theorem intermission_callback_propagates :
    startRaisingHost.onWaveStartRaises = true
      ∧ (fireTimer testConfig startRaisingHost
            (run testConfig _resetState wave1Cleared) 2).raised = true
      ∧ (fireTimer testConfig startRaisingHost
            (run testConfig _resetState wave1Cleared) 2).st.running = true
      ∧ (fireTimer testConfig startRaisingHost
            (run testConfig _resetState wave1Cleared) 2).st.wave = 2
      ∧ (fireTimer testConfig startRaisingHost
            (run testConfig _resetState wave1Cleared) 2).st._spawned = 0
      ∧ (fireTimer testConfig startRaisingHost
            (run testConfig _resetState wave1Cleared) 2).st._toSpawn = 5
      ∧ (fireTimer testConfig startRaisingHost
            (run testConfig _resetState wave1Cleared) 2).st.timers = [] := by
  rw [wave1Cleared_state]
  simp [fireTimer, intermissionTimeout, _beginWave, State.emit, Res.throw,
    startRaisingHost, quietHost, testConfig_wave2]

/-! ## The shapes of a step -/

theorem step_cases (c : Config) (s : State) (a : Action) :
    (step c s a = Res.ok s)
      ∨ (step c s a = Res.ok (stop s))
      ∨ (step c s a = Res.ok (pause s))
      ∨ (step c s a = Res.ok (resume c s))
      ∨ (∃ t ∈ s.timers, t.kind = TimerKind.intermission ∧ a.call = Call.fire t.id
          ∧ s.running = false
          ∧ step c s a = Res.ok { s with
              timers := s.timers.filter (fun u => u.id ≠ t.id)
              _intermissionTimer := none })
      ∨ (s.running = false ∧ a.call = Call.start
          ∧ step c s a = _beginWave c a.host { s with running := true, wave := 1 })
      ∨ (∃ t ∈ s.timers, t.kind = TimerKind.intermission ∧ a.call = Call.fire t.id
          ∧ s.running = true
          ∧ step c s a = _beginWave c a.host { s with
              timers := s.timers.filter (fun u => u.id ≠ t.id)
              _intermissionTimer := none
              wave := s.wave + 1 })
      ∨ (s.running = true ∧ a.call = Call.onEnemyKilled
          ∧ step c s a
              = _maybeCompleteWave c a.host { s with _active := max 0 (s._active - 1) })
      ∨ (∃ t ∈ s.timers, t.kind = TimerKind.spawnTick ∧ a.call = Call.fire t.id
          ∧ s.paused = false ∧ s._spawned ≥ s._toSpawn
          ∧ step c s a = _maybeCompleteWave c a.host { s with
              timers := clearTimer s.timers s._spawnTimer
              _spawnTimer := none })
      ∨ (∃ t ∈ s.timers, t.kind = TimerKind.spawnTick ∧ a.call = Call.fire t.id
          ∧ s.paused = false ∧ s._spawned < s._toSpawn
          ∧ step c s a = Res.ok (_spawnEnemy a.host s)) := by
  cases hcall : a.call with
  | start =>
    cases hr : s.running with
    | true => left; simp [step, hcall, start, hr]
    | false =>
      right; right; right; right; right; left
      exact ⟨rfl, rfl, by simp [step, hcall, start, hr]⟩
  | stop => right; left; simp [step, hcall]
  | pause => right; right; left; simp [step, hcall]
  | resume => right; right; right; left; simp [step, hcall]
  | onEnemyKilled =>
    cases hr : s.running with
    | false => left; simp [step, hcall, onEnemyKilled, hr]
    | true =>
      right; right; right; right; right; right; right; left
      exact ⟨rfl, rfl, by simp [step, hcall, onEnemyKilled, hr]⟩
  | fire i =>
    cases hfind : s.timers.find? (fun t => t.id = i) with
    | none => left; simp [step, hcall, fireTimer, hfind]
    | some t =>
      have hmem : t ∈ s.timers := List.mem_of_find?_eq_some hfind
      have hid : t.id = i := by simpa using List.find?_some hfind
      subst hid
      cases hk : t.kind with
      | spawnTick =>
        cases hp : s.paused with
        | true => left; simp [step, hcall, fireTimer, hfind, hk, spawnTick, hp]
        | false =>
          by_cases hge : s._spawned ≥ s._toSpawn
          · right; right; right; right; right; right; right; right; left
            exact ⟨t, hmem, hk, rfl, rfl, hge,
              by simp [step, hcall, fireTimer, hfind, hk, spawnTick, hp, hge]⟩
          · right; right; right; right; right; right; right; right; right
            exact ⟨t, hmem, hk, rfl, rfl, by omega,
              by simp [step, hcall, fireTimer, hfind, hk, spawnTick, hp, hge]⟩
      | intermission =>
        cases hr : s.running with
        | false =>
          right; right; right; right; left
          exact ⟨t, hmem, hk, rfl, rfl,
            by simp [step, hcall, fireTimer, hfind, hk, intermissionTimeout, hr]⟩
        | true =>
          right; right; right; right; right; right; left
          exact ⟨t, hmem, hk, rfl, rfl,
            by simp [step, hcall, fireTimer, hfind, hk, intermissionTimeout, hr]⟩

theorem pause_frame (s : State) :
    (pause s).log = s.log ∧ (pause s).wave = s.wave ∧ (pause s).running = s.running
      ∧ (pause s).nextId = s.nextId := by
  unfold pause
  split <;> exact ⟨rfl, rfl, rfl, rfl⟩

theorem resume_frame (c : Config) (s : State) :
    (resume c s).log = s.log ∧ (resume c s).wave = s.wave
      ∧ (resume c s).running = s.running := by
  simp only [resume, _startSpawnLoop]
  split <;> (try split) <;> exact ⟨rfl, rfl, rfl⟩

/-! ## Completion and intermission -/

theorem no_intermission_timer {s : State} (hinv : Inv s)
    (hnone : s._intermissionTimer = none) :
    ∀ t ∈ s.timers, t.kind ≠ TimerKind.intermission := by
  intro t ht hk
  have := hinv.interm_owned t ht hk
  rw [hnone] at this
  cases this

theorem maybeCompleteWave_fires (c : Config) (h : Host) (s s1 : State) (hinv : Inv s)
    (hwc : h.onWaveCompleteRaises = false) (him : h.onIntermissionRaises = false)
    (hlog : s1.log = s.log) (hwave : s1.wave = s.wave) (hid : s1.nextId = s.nextId)
    (hint : s1._intermissionTimer = s._intermissionTimer)
    (hsub : ∀ t ∈ s1.timers, t ∈ s.timers)
    (hem : ∃ w, Event.onWaveComplete w
      ∈ (_maybeCompleteWave c h s1).st.log.drop s.log.length) :
    (_maybeCompleteWave c h s1).st.log.drop s.log.length
        = [Event.onWaveComplete s.wave, Event.onIntermission s.wave c.intermissionMs]
      ∧ (_maybeCompleteWave c h s1).st.timers.filter
            (fun t => decide (t.kind = TimerKind.intermission))
          = [⟨s.nextId, TimerKind.intermission, c.intermissionMs⟩]
      ∧ (_maybeCompleteWave c h s1).st._intermissionTimer = some s.nextId
      ∧ (_maybeCompleteWave c h s1).raised = false := by
  by_cases hg : s1._spawned ≥ s1._toSpawn ∧ s1._active = 0 ∧ s1._intermissionTimer = none
  · have hno : ∀ t ∈ s1.timers, t.kind ≠ TimerKind.intermission :=
      fun t ht => no_intermission_timer hinv (hint ▸ hg.2.2) t (hsub t ht)
    have hfil : s1.timers.filter (fun t => decide (t.kind = TimerKind.intermission)) = [] := by
      apply List.filter_eq_nil_iff.mpr
      intro t ht
      simpa using hno t ht
    simp only [_maybeCompleteWave, if_pos hg, hwc, him, _scheduleIntermission, State.emit,
      Res.ok, Bool.false_eq_true, if_false, hlog, hwave, hid, List.append_assoc,
      List.drop_left, List.filter_append, hfil]
    simp
  · exfalso
    simp only [_maybeCompleteWave, if_neg hg, Res.ok, hlog] at hem
    simp at hem

/-- C21: the completion check itself never changes `wave` or the counters.
In every reachable state, when a step invokes `onWaveComplete` and the two
completion sinks return, the step's notifications are exactly
`onWaveComplete({wave})` followed by `onIntermission({waveJustCompleted: wave,
ms: intermissionMs})` for the current wave, the step returns normally, and
afterwards exactly one intermission timer is live, with delay
`intermissionMs`, held in `_intermissionTimer`. -/
theorem completion_fires_spec (c : Config) (as : List Action) (a : Action)
    (h : Host) (s1 : State) :
    ((_maybeCompleteWave c h s1).st.wave = s1.wave
        ∧ (_maybeCompleteWave c h s1).st._spawned = s1._spawned
        ∧ (_maybeCompleteWave c h s1).st._toSpawn = s1._toSpawn
        ∧ (_maybeCompleteWave c h s1).st._active = s1._active)
      ∧ (a.host.onWaveCompleteRaises = false → a.host.onIntermissionRaises = false →
          (∃ w, Event.onWaveComplete w ∈ emitted c (run c _resetState as) a) →
          emitted c (run c _resetState as) a
              = [Event.onWaveComplete (run c _resetState as).wave,
                 Event.onIntermission (run c _resetState as).wave c.intermissionMs]
            ∧ (step c (run c _resetState as) a).st.timers.filter
                  (fun t => decide (t.kind = TimerKind.intermission))
                = [⟨(run c _resetState as).nextId, TimerKind.intermission,
                    c.intermissionMs⟩]
            ∧ (step c (run c _resetState as) a).st._intermissionTimer
                = some (run c _resetState as).nextId
            ∧ (step c (run c _resetState as) a).raised = false) := by
  have hinv := inv_run c as _resetState inv_resetState
  generalize run c _resetState as = s at hinv
  have hf := maybeCompleteWave_frame c h s1
  refine ⟨⟨hf.2.1, hf.2.2.1, hf.2.2.2.1, hf.2.2.2.2.1⟩, ?_⟩
  intro hwc him hem
  have hnil : ∀ s' : State, s'.log = s.log →
      ¬ ∃ w, Event.onWaveComplete w ∈ s'.log.drop s.log.length := by
    intro s' hl
    simp [hl]
  have hbegin : ∀ (s' : State), s'.log = s.log →
      ¬ ∃ w, Event.onWaveComplete w ∈ (_beginWave c a.host s').st.log.drop s.log.length := by
    intro s' hl
    rw [beginWave_log, hl, List.drop_left]
    simp
  unfold emitted at hem ⊢
  rcases step_cases c s a with hs | hs | hs | hs | ⟨t, _, _, _, _, hs⟩ | ⟨_, _, hs⟩
    | ⟨t, _, _, _, _, hs⟩ | ⟨_, _, hs⟩ | ⟨t, _, _, _, _, _, hs⟩ | ⟨t, _, _, _, _, _, hs⟩
  · rw [hs] at hem; exact absurd hem (hnil _ rfl)
  · rw [hs] at hem; exact absurd hem (hnil _ rfl)
  · rw [hs] at hem; exact absurd hem (hnil _ (pause_frame s).1)
  · rw [hs] at hem; exact absurd hem (hnil _ (resume_frame c s).1)
  · rw [hs] at hem; exact absurd hem (hnil _ rfl)
  · rw [hs] at hem; exact absurd hem (hbegin _ rfl)
  · rw [hs] at hem; exact absurd hem (hbegin _ rfl)
  · rw [hs] at hem ⊢
    exact maybeCompleteWave_fires c a.host s _ hinv hwc him rfl rfl rfl rfl
      (fun t ht => ht) hem
  · rw [hs] at hem ⊢
    exact maybeCompleteWave_fires c a.host s _ hinv hwc him rfl rfl rfl rfl
      (fun t ht => (mem_clearTimer ht).1) hem
  · exfalso
    rw [hs] at hem
    obtain ⟨d, hd, hno⟩ := spawnEnemy_log a.host s
    simp only [Res.ok] at hem
    rw [hd, List.drop_left] at hem
    obtain ⟨w, hw⟩ := hem
    exact hno w hw

theorem wave1OneLeft_emits :
    emitted testConfig (run testConfig _resetState wave1OneLeft) (act .onEnemyKilled)
      = [Event.onWaveComplete 1, Event.onIntermission 1 100] := by
  rw [wave1OneLeft_state]
  simp [emitted, step, act, onEnemyKilled, _maybeCompleteWave, _scheduleIntermission,
    quietHost, State.emit, Res.ok]
  rfl

/-- C21 in the test scenario: the third kill report of wave 1 emits the
completion and the intermission notice and arms timer 2. -/
theorem completion_fires_spec_witness :
    (act .onEnemyKilled).host.onWaveCompleteRaises = false
      ∧ (act .onEnemyKilled).host.onIntermissionRaises = false
      ∧ (∃ w, Event.onWaveComplete w
          ∈ emitted testConfig (run testConfig _resetState wave1OneLeft) (act .onEnemyKilled))
      ∧ (step testConfig (run testConfig _resetState wave1OneLeft)
            (act .onEnemyKilled)).st._intermissionTimer
          = some (run testConfig _resetState wave1OneLeft).nextId :=
  have hem : ∃ w, Event.onWaveComplete w
      ∈ emitted testConfig (run testConfig _resetState wave1OneLeft) (act .onEnemyKilled) :=
    ⟨1, by rw [wave1OneLeft_emits]; simp⟩
  ⟨rfl, rfl, hem,
    ((completion_fires_spec testConfig wave1OneLeft (act .onEnemyKilled) quietHost
      _resetState).2 rfl rfl hem).2.2.1⟩

/-- C22: when the intermission closure runs in a running state, paused or not,
it clears `_intermissionTimer`, raises `wave` by exactly 1, resets `_spawned`
and `_active` to 0, sets `_toSpawn` to `_calcEnemiesForWave(new wave)` and
invokes exactly one callback, `onWaveStart` with the new wave, count and
interval; once that sink has returned, it returns normally with a fresh spawn
cadence at that interval held in `_spawnTimer`. In a non-running state it only
clears `_intermissionTimer`: no increment, no wave, no notification. In a
reachable state, firing a live intermission timer runs this closure in a
running state and, once `onWaveStart` has returned, leaves the new cadence as
the only live timer. -/
theorem intermission_fires_spec (c : Config) (as : List Action) (h : Host)
    (s1 : State) (t : Timer) :
    (s1.running = true →
        (intermissionTimeout c h s1).st._intermissionTimer = none
          ∧ (intermissionTimeout c h s1).st.wave = s1.wave + 1
          ∧ (intermissionTimeout c h s1).st._spawned = 0
          ∧ (intermissionTimeout c h s1).st._active = 0
          ∧ (intermissionTimeout c h s1).st._toSpawn = _calcEnemiesForWave c (s1.wave + 1)
          ∧ (intermissionTimeout c h s1).st.paused = s1.paused
          ∧ (intermissionTimeout c h s1).st.running = true
          ∧ (intermissionTimeout c h s1).st.log
              = s1.log ++ [Event.onWaveStart (s1.wave + 1)
                    (_calcEnemiesForWave c (s1.wave + 1))
                    (_calcSpawnIntervalForWave c (s1.wave + 1))]
          ∧ (h.onWaveStartRaises = false →
              (intermissionTimeout c h s1).raised = false
                ∧ (intermissionTimeout c h s1).st._spawnTimer = some s1.nextId
                ∧ (intermissionTimeout c h s1).st.timers
                    = clearTimer s1.timers s1._spawnTimer
                        ++ [⟨s1.nextId, TimerKind.spawnTick,
                              _calcSpawnIntervalForWave c (s1.wave + 1)⟩]))
      ∧ (s1.running = false →
          intermissionTimeout c h s1 = Res.ok { s1 with _intermissionTimer := none })
      ∧ (t ∈ (run c _resetState as).timers → t.kind = TimerKind.intermission →
          (run c _resetState as).running = true
            ∧ fireTimer c h (run c _resetState as) t.id
                = intermissionTimeout c h { (run c _resetState as) with
                    timers := (run c _resetState as).timers.filter (fun u => u.id ≠ t.id) }
            ∧ (h.onWaveStartRaises = false →
                (fireTimer c h (run c _resetState as) t.id).st.timers
                  = [⟨(run c _resetState as).nextId, TimerKind.spawnTick,
                      _calcSpawnIntervalForWave c ((run c _resetState as).wave + 1)⟩])) := by
  have hinv := inv_run c as _resetState inv_resetState
  have hcoh := coherent_run c as _resetState inv_resetState (coherent_resetState c)
  generalize run c _resetState as = s at hinv hcoh
  refine ⟨?_, ?_, ?_⟩
  · intro hr
    simp only [intermissionTimeout, hr, Bool.not_true, Bool.false_eq_true, if_false,
      _beginWave]
    split
    · rename_i hq
      simp [Res.throw, State.emit, hq]
    · rename_i hq
      simp [Res.ok, State.emit, _startSpawnLoop, hq]
  · intro hr
    simp [intermissionTimeout, hr]
  · intro ht hk
    have hr : s.running = true := by
      cases hrun : s.running
      · have := (hinv.idle hrun).1
        rw [this] at ht
        cases ht
      · rfl
    have hfind : ∃ u, s.timers.find? (fun u => decide (u.id = t.id)) = some u
        ∧ u.kind = TimerKind.intermission := by
      cases hf : s.timers.find? (fun u => decide (u.id = t.id)) with
      | none =>
        have := List.find?_eq_none.mp hf t ht
        simp at this
      | some u =>
        refine ⟨u, rfl, ?_⟩
        have hu : u ∈ s.timers := List.mem_of_find?_eq_some hf
        have huid : u.id = t.id := by simpa using List.find?_some hf
        cases hku : u.kind with
        | intermission => rfl
        | spawnTick =>
          have h1 := hinv.tick_owned u hu hku
          have h2 := hinv.interm_owned t ht hk
          rw [huid] at h1
          exact absurd h2 (hcoh.handles_ne t.id h1)
    obtain ⟨u, hu, hku⟩ := hfind
    have hfire : fireTimer c h s t.id
        = intermissionTimeout c h { s with
            timers := s.timers.filter (fun u => u.id ≠ t.id) } := by
      simp [fireTimer, hu, hku]
    refine ⟨hr, hfire, ?_⟩
    intro hq
    have hclear : clearTimer (s.timers.filter (fun u => decide (u.id ≠ t.id))) s._spawnTimer
        = [] := by
      apply List.eq_nil_iff_forall_not_mem.mpr
      intro v hv
      have hv1 := mem_clearTimer hv
      have hv2 := List.mem_filter.mp hv1.1
      cases hkv : v.kind with
      | spawnTick => exact hv1.2 (hinv.tick_owned v hv2.1 hkv)
      | intermission =>
        have h1 := hinv.interm_owned v hv2.1 hkv
        have h2 := hinv.interm_owned t ht hk
        rw [h1] at h2
        injection h2 with h2
        simp [h2] at hv2
    rw [hfire]
    simp [intermissionTimeout, hr, _beginWave, hq, Res.ok, State.emit, _startSpawnLoop]
    simpa using hclear

/-- C22 in the test scenario: the intermission timer of wave 1 (handle 2) is
live, the scheduler is running, and with a returning `onWaveStart` the firing
leaves the cadence of wave 2 as the only timer. -/
theorem intermission_fires_spec_witness :
    (⟨2, TimerKind.intermission, 100⟩ : Timer) ∈ (run testConfig _resetState wave1Cleared).timers
      ∧ (run testConfig _resetState wave1Cleared).running = true
      ∧ quietHost.onWaveStartRaises = false
      ∧ (fireTimer testConfig quietHost (run testConfig _resetState wave1Cleared) 2).st.timers
          = [⟨(run testConfig _resetState wave1Cleared).nextId, TimerKind.spawnTick,
              _calcSpawnIntervalForWave testConfig
                ((run testConfig _resetState wave1Cleared).wave + 1)⟩]
      ∧ _resetState.running = false
      ∧ intermissionTimeout testConfig quietHost _resetState
          = Res.ok { _resetState with _intermissionTimer := none }
      ∧ (intermissionTimeout testConfig quietHost
            (run testConfig _resetState wave1Cleared)).st.wave
          = (run testConfig _resetState wave1Cleared).wave + 1 :=
  have hmem : (⟨2, TimerKind.intermission, 100⟩ : Timer)
      ∈ (run testConfig _resetState wave1Cleared).timers := by
    rw [wave1Cleared_state]; simp
  ⟨hmem,
    ((intermission_fires_spec testConfig wave1Cleared quietHost _resetState
      ⟨2, TimerKind.intermission, 100⟩).2.2 hmem rfl).1, rfl,
    ((intermission_fires_spec testConfig wave1Cleared quietHost _resetState
      ⟨2, TimerKind.intermission, 100⟩).2.2 hmem rfl).2.2 rfl,
    rfl,
    (intermission_fires_spec testConfig wave1Cleared quietHost _resetState
      ⟨2, TimerKind.intermission, 100⟩).2.1 rfl,
    ((intermission_fires_spec testConfig wave1Cleared quietHost
      (run testConfig _resetState wave1Cleared)
      ⟨2, TimerKind.intermission, 100⟩).1 (by rw [wave1Cleared_state])).2.1⟩

/-! ## No kill report, no completion -/

theorem unkilled_resetState : Unkilled _resetState := by
  constructor <;> simp [_resetState]

theorem unkilled_beginWave (c : Config) (h : Host) (s : State)
    (hnone : s._intermissionTimer = none)
    (hq : ∀ e ∈ s.log, e.isCompletion = false) (hw : s.running = true → s.wave = 1) :
    Unkilled (_beginWave c h s).st := by
  have h1 : (1 : ℤ) ≤ _calcEnemiesForWave c s.wave := le_max_left _ _
  have hquiet : ∀ e ∈ s.log ++ [Event.onWaveStart s.wave (_calcEnemiesForWave c s.wave)
      (_calcSpawnIntervalForWave c s.wave)], e.isCompletion = false := by
    intro e he
    rcases List.mem_append.mp he with he | he
    · exact hq e he
    · simp at he; rw [he]; rfl
  unfold _beginWave
  split
  · exact
      { active_eq := rfl
        target_pos := Or.inl h1
        no_pending := hnone
        quiet := hquiet
        wave_one := hw }
  · exact
      { active_eq := rfl
        target_pos := Or.inl h1
        no_pending := hnone
        quiet := hquiet
        wave_one := hw }

theorem spawnEnemy_quiet (h : Host) (s : State)
    (hq : ∀ e ∈ s.log, e.isCompletion = false) :
    ∀ e ∈ (_spawnEnemy h s).log, e.isCompletion = false := by
  intro e he
  unfold _spawnEnemy at he
  cases hsp : h.spawnEnemy with
  | returns enemy =>
    rw [hsp] at he
    simp only [State.emit] at he
    split at he <;>
      (simp only [List.mem_append, List.mem_singleton] at he
       rcases he with (he | he) | he
       · exact hq e he
       · rw [he]; rfl
       · rw [he]; rfl)
  | raises =>
    rw [hsp] at he
    simp only [State.emit] at he
    split at he <;>
      (simp only [List.mem_append, List.mem_singleton] at he
       rcases he with he | he
       · exact hq e he
       · rw [he]; rfl)

theorem spawnEnemy_counters (h : Host) (s : State) :
    (_spawnEnemy h s)._spawned = s._spawned + 1
      ∧ (_spawnEnemy h s)._active = s._active + 1 := by
  unfold _spawnEnemy
  cases h.spawnEnemy <;> simp only [State.emit] <;> split <;> exact ⟨rfl, rfl⟩

theorem unkilled_spawnEnemy (h : Host) (s : State) (hs : Unkilled s)
    (hpos : 1 ≤ s._toSpawn) : Unkilled (_spawnEnemy h s) :=
  { active_eq := by
      rw [(spawnEnemy_counters h s).1, (spawnEnemy_counters h s).2, hs.active_eq]
    target_pos := Or.inl (by rw [(spawnEnemy_frame h s).2.2.2]; exact hpos)
    no_pending := by rw [(spawnEnemy_frame h s).2.2.1]; exact hs.no_pending
    quiet := spawnEnemy_quiet h s hs.quiet
    wave_one := by
      rw [(spawnEnemy_frame h s).1, (spawnEnemy_frame h s).2.1]
      exact hs.wave_one }

theorem unkilled_step (c : Config) (s : State) (a : Action) (hinv : Inv s)
    (hs : Unkilled s) (ha : a.call ≠ Call.onEnemyKilled) :
    Unkilled (step c s a).st := by
  have hno := no_intermission_timer hinv hs.no_pending
  have hpos : ∀ t ∈ s.timers, 1 ≤ s._toSpawn := by
    intro t ht
    rcases hs.target_pos with hp | hp
    · exact hp
    · rw [hp.2] at ht; cases ht
  rcases step_cases c s a with h1 | h1 | h1 | h1 | ⟨t, ht, hk, _, _, _⟩ | ⟨hr, _, h1⟩
    | ⟨t, ht, hk, _, _, _⟩ | ⟨_, hcall, _⟩ | ⟨t, ht, _, _, _, hge, h1⟩
    | ⟨t, ht, _, _, _, _, h1⟩
  · rw [h1]; exact hs
  · rw [h1]
    exact
      { active_eq := hs.active_eq
        target_pos := by
          rcases hs.target_pos with hp | hp
          · exact Or.inl hp
          · right
            refine ⟨rfl, ?_⟩
            simp [stop, hp.2, clearTimer_nil, Res.ok]
        no_pending := rfl
        quiet := hs.quiet
        wave_one := by intro hr; simp [stop, Res.ok] at hr }
  · rw [h1]
    simp only [Res.ok]
    unfold pause
    split
    · exact hs
    · rename_i hc
      have hr : s.running = true := by
        cases hrun : s.running <;> simp [hrun] at hc ⊢
      exact
        { active_eq := hs.active_eq
          target_pos := by
            rcases hs.target_pos with hp | hp
            · exact Or.inl hp
            · rw [hr] at hp; cases hp.1
          no_pending := hs.no_pending
          quiet := hs.quiet
          wave_one := hs.wave_one }
  · rw [h1]
    simp only [Res.ok]
    unfold resume
    split
    · exact hs
    · rename_i hc
      have hr : s.running = true := by
        cases hrun : s.running <;> simp [hrun] at hc ⊢
      have hp1 : 1 ≤ s._toSpawn := by
        rcases hs.target_pos with hp | hp
        · exact hp
        · rw [hr] at hp; cases hp.1
      simp only [_startSpawnLoop]
      split <;> exact
        { active_eq := hs.active_eq
          target_pos := Or.inl hp1
          no_pending := hs.no_pending
          quiet := hs.quiet
          wave_one := hs.wave_one }
  · exact absurd hk (hno t ht)
  · rw [h1]
    exact unkilled_beginWave c a.host _ hs.no_pending hs.quiet (fun _ => rfl)
  · exact absurd hk (hno t ht)
  · exact absurd hcall ha
  · rw [h1]
    have hp1 := hpos t ht
    have hact := hs.active_eq
    have hg : ¬ (s._spawned ≥ s._toSpawn ∧ s._active = 0 ∧ s._intermissionTimer = none) := by
      intro hg
      omega
    simp only [_maybeCompleteWave, hg, if_false, Res.ok]
    exact
      { active_eq := hs.active_eq
        target_pos := Or.inl hp1
        no_pending := hs.no_pending
        quiet := hs.quiet
        wave_one := hs.wave_one }
  · rw [h1]
    exact unkilled_spawnEnemy a.host s hs (hpos t ht)

theorem unkilled_run (c : Config) (as : List Action) (s : State) (hinv : Inv s)
    (hs : Unkilled s) (has : ∀ a ∈ as, a.call ≠ Call.onEnemyKilled) :
    Unkilled (run c s as) := by
  induction as generalizing s with
  | nil => exact hs
  | cons a as ih =>
    exact ih _ (inv_step c s a hinv)
      (unkilled_step c s a hinv hs (has a (List.mem_cons_self _ _)))
      (fun b hb => has b (List.mem_cons_of_mem _ hb))

/-- C29: without kill reports no wave completes. After any sequence of start,
stop, pause, resume calls and timer firings on a fresh scheduler that contains
no `onEnemyKilled` call, whatever the host callbacks do, the log holds no
`onWaveComplete` and no `onIntermission` notification, and a running scheduler
is still in wave 1. -/
theorem no_kill_no_completion (c : Config) (as : List Action)
    (has : ∀ a ∈ as, a.call ≠ Call.onEnemyKilled) :
    (∀ w, Event.onWaveComplete w ∉ (run c _resetState as).log)
      ∧ (∀ w ms, Event.onIntermission w ms ∉ (run c _resetState as).log)
      ∧ ((run c _resetState as).running = true → (run c _resetState as).wave = 1) := by
  have hu := unkilled_run c as _resetState inv_resetState unkilled_resetState has
  refine ⟨?_, ?_, hu.wave_one⟩
  · intro w hw
    have := hu.quiet _ hw
    simp [Event.isCompletion] at this
  · intro w ms hw
    have := hu.quiet _ hw
    simp [Event.isCompletion] at this

theorem scenario_spawned_state :
    run testConfig _resetState (scenario.take 4)
      = { wave := 1, running := true, paused := false, _spawned := 3, _toSpawn := 3,
          _active := 3, _spawnTimer := none, _intermissionTimer := none,
          timers := [], nextId := 2,
          log := [.onWaveStart 1 3 50,
                  .spawnEnemy ⟨1, 1, 2⟩, .onEnemySpawned ⟨1, 1, 2⟩ none,
                  .spawnEnemy ⟨1, 2, 1⟩, .onEnemySpawned ⟨1, 2, 1⟩ none,
                  .spawnEnemy ⟨1, 3, 0⟩, .onEnemySpawned ⟨1, 3, 0⟩ none] } := by
  simp [run, scenario, act, step, start, _beginWave, _startSpawnLoop, fireTimer,
    spawnTick, _spawnEnemy, clearTimer, State.emit, Res.ok, _resetState, quietHost,
    testConfig_wave1]

/-- C29 in the test scenario: started and with all three units of wave 1
spawned but none reported killed, the scheduler is running and still in
wave 1. -/
theorem no_kill_no_completion_witness :
    (∀ a ∈ scenario.take 4, a.call ≠ Call.onEnemyKilled)
      ∧ (run testConfig _resetState (scenario.take 4)).running = true
      ∧ (run testConfig _resetState (scenario.take 4)).wave = 1 :=
  ⟨by simp [scenario, act], by rw [scenario_spawned_state],
    (no_kill_no_completion testConfig (scenario.take 4) (by simp [scenario, act])).2.2
      (by rw [scenario_spawned_state])⟩

/-! ## At most one timer of each kind -/

theorem nodup_clearTimer {ts : List Timer} (h : Option Nat)
    (hn : (ts.map Timer.id).Nodup) : ((clearTimer ts h).map Timer.id).Nodup := by
  cases h with
  | none => exact hn
  | some i => exact hn.sublist ((List.filter_sublist ts).map Timer.id)

theorem nodup_filter_timers {ts : List Timer} (p : Timer → Bool)
    (hn : (ts.map Timer.id).Nodup) : ((ts.filter p).map Timer.id).Nodup :=
  hn.sublist ((List.filter_sublist ts).map Timer.id)

theorem nodup_arm {ts : List Timer} {n : Nat} (k : TimerKind) (d : ℚ)
    (hn : (ts.map Timer.id).Nodup) (hlt : ∀ t ∈ ts, t.id < n) :
    ((ts ++ [(⟨n, k, d⟩ : Timer)]).map Timer.id).Nodup := by
  rw [List.map_append, List.nodup_append]
  refine ⟨hn, by simp, ?_⟩
  intro i hi hj
  simp only [List.map_cons, List.map_nil, List.mem_singleton] at hj
  obtain ⟨t, ht, rfl⟩ := List.mem_map.mp hi
  have := hlt t ht
  omega

theorem beginWave_timers (c : Config) (h : Host) (s : State) :
    (_beginWave c h s).st.timers = s.timers
      ∨ ∃ d, (_beginWave c h s).st.timers
          = clearTimer s.timers s._spawnTimer ++ [⟨s.nextId, TimerKind.spawnTick, d⟩] := by
  unfold _beginWave
  split
  · exact Or.inl rfl
  · exact Or.inr ⟨_, rfl⟩

theorem maybeCompleteWave_timers (c : Config) (h : Host) (s : State) :
    (_maybeCompleteWave c h s).st.timers = s.timers
      ∨ (_maybeCompleteWave c h s).st.timers
          = s.timers ++ [⟨s.nextId, TimerKind.intermission, c.intermissionMs⟩] := by
  unfold _maybeCompleteWave
  split
  · split
    · exact Or.inl rfl
    · unfold _scheduleIntermission
      split
      · exact Or.inl rfl
      · exact Or.inr rfl
  · exact Or.inl rfl

theorem spawnEnemy_timers (h : Host) (s : State) :
    (_spawnEnemy h s).timers = s.timers
      ∨ (_spawnEnemy h s).timers = clearTimer s.timers s._spawnTimer := by
  unfold _spawnEnemy
  cases h.spawnEnemy <;> simp only [State.emit] <;> split
  all_goals first
    | exact Or.inl rfl
    | exact Or.inr rfl

theorem nodup_step (c : Config) (s : State) (a : Action) (hcoh : Coherent c s)
    (hn : (s.timers.map Timer.id).Nodup) :
    ((step c s a).st.timers.map Timer.id).Nodup := by
  have hlt := hcoh.ids_lt
  rcases step_cases c s a with h1 | h1 | h1 | h1 | ⟨t, _, _, _, _, h1⟩ | ⟨_, _, h1⟩
    | ⟨t, _, _, _, _, h1⟩ | ⟨_, _, h1⟩ | ⟨t, _, _, _, _, _, h1⟩ | ⟨t, _, _, _, _, _, h1⟩
  · rw [h1]; exact hn
  · rw [h1]; exact nodup_clearTimer _ (nodup_clearTimer _ hn)
  · rw [h1]
    simp only [Res.ok, pause]
    split
    · exact hn
    · exact nodup_clearTimer _ hn
  · rw [h1]
    simp only [Res.ok, resume, _startSpawnLoop]
    split
    · exact hn
    · split
      · exact nodup_arm _ _ (nodup_clearTimer _ hn) (fun t ht => hlt t (mem_clearTimer ht).1)
      · exact hn
  · rw [h1]; exact nodup_filter_timers _ hn
  · rw [h1]
    rcases beginWave_timers c a.host { s with running := true, wave := 1 } with h2 | ⟨d, h2⟩
    · rw [h2]; exact hn
    · rw [h2]
      exact nodup_arm _ _ (nodup_clearTimer _ hn) (fun t ht => hlt t (mem_clearTimer ht).1)
  · rw [h1]
    rcases beginWave_timers c a.host { s with
        timers := s.timers.filter (fun u => u.id ≠ t.id)
        _intermissionTimer := none
        wave := s.wave + 1 } with h2 | ⟨d, h2⟩
    · rw [h2]; exact nodup_filter_timers _ hn
    · rw [h2]
      exact nodup_arm _ _ (nodup_clearTimer _ (nodup_filter_timers _ hn))
        (fun u hu => hlt u (List.mem_filter.mp (mem_clearTimer hu).1).1)
  · rw [h1]
    rcases maybeCompleteWave_timers c a.host { s with _active := max 0 (s._active - 1) }
      with h2 | h2
    · rw [h2]; exact hn
    · rw [h2]; exact nodup_arm _ _ hn hlt
  · rw [h1]
    rcases maybeCompleteWave_timers c a.host { s with
        timers := clearTimer s.timers s._spawnTimer
        _spawnTimer := none } with h2 | h2
    · rw [h2]; exact nodup_clearTimer _ hn
    · rw [h2]
      exact nodup_arm _ _ (nodup_clearTimer _ hn) (fun u hu => hlt u (mem_clearTimer hu).1)
  · rw [h1]
    rcases spawnEnemy_timers a.host s with h2 | h2
    · simp only [Res.ok]; rw [h2]; exact hn
    · simp only [Res.ok]; rw [h2]; exact nodup_clearTimer _ hn

theorem nodup_run (c : Config) (as : List Action) (s : State) (hinv : Inv s)
    (hcoh : Coherent c s) (hn : (s.timers.map Timer.id).Nodup) :
    ((run c s as).timers.map Timer.id).Nodup := by
  induction as generalizing s with
  | nil => exact hn
  | cons a as ih =>
    exact ih _ (inv_step c s a hinv) (coherent_step c s a hinv hcoh)
      (nodup_step c s a hcoh hn)

theorem length_le_one_of_same_id {ts : List Timer} {i : Nat}
    (hn : (ts.map Timer.id).Nodup) (hall : ∀ t ∈ ts, t.id = i) : ts.length ≤ 1 := by
  match ts, hn, hall with
  | [], _, _ => simp
  | [_], _, _ => simp
  | t :: u :: rest, hn, hall =>
    exfalso
    have ht := hall t (by simp)
    have hu := hall u (by simp)
    simp only [List.map_cons, List.nodup_cons, List.mem_cons] at hn
    exact hn.1 (Or.inl (ht.trans hu.symm))

/-- C30: in every reachable state at most one spawn cadence and at most one
intermission timer is live, and every live timer is the one its field refers
to (`_spawnTimer` for a cadence, `_intermissionTimer` for an intermission
timer), so none is orphaned. Arming a cadence with `_startSpawnLoop` leaves
the new cadence as the only live one, and while `_intermissionTimer` is set
`_maybeCompleteWave` schedules nothing. -/
theorem one_timer_per_kind (c : Config) (as : List Action) (h : Host) (o : Option ℚ) :
    ((run c _resetState as).timers.filter
          (fun t => decide (t.kind = TimerKind.spawnTick))).length ≤ 1
      ∧ ((run c _resetState as).timers.filter
          (fun t => decide (t.kind = TimerKind.intermission))).length ≤ 1
      ∧ (∀ t ∈ (run c _resetState as).timers,
          (t.kind = TimerKind.spawnTick → (run c _resetState as)._spawnTimer = some t.id)
            ∧ (t.kind = TimerKind.intermission →
                (run c _resetState as)._intermissionTimer = some t.id))
      ∧ (_startSpawnLoop c (run c _resetState as) o).timers.filter
            (fun t => decide (t.kind = TimerKind.spawnTick))
          = [⟨(run c _resetState as).nextId, TimerKind.spawnTick,
              o.getD (_calcSpawnIntervalForWave c (run c _resetState as).wave)⟩]
      ∧ ((run c _resetState as)._intermissionTimer ≠ none →
          _maybeCompleteWave c h (run c _resetState as) = Res.ok (run c _resetState as)) := by
  have hinv := inv_run c as _resetState inv_resetState
  have hcoh := coherent_run c as _resetState inv_resetState (coherent_resetState c)
  have hn := nodup_run c as _resetState inv_resetState (coherent_resetState c)
    (by simp [_resetState])
  generalize run c _resetState as = s at hinv hcoh hn
  refine ⟨?_, ?_, fun t ht => ⟨hinv.tick_owned t ht, hinv.interm_owned t ht⟩, ?_, ?_⟩
  · cases hsp : s._spawnTimer with
    | none =>
      have : s.timers.filter (fun t => decide (t.kind = TimerKind.spawnTick)) = [] := by
        apply List.filter_eq_nil_iff.mpr
        intro t ht hk
        have := hinv.tick_owned t ht (by simpa using hk)
        rw [hsp] at this
        cases this
      rw [this]; simp
    | some i =>
      apply length_le_one_of_same_id (i := i) (nodup_filter_timers _ hn)
      intro t ht
      have h1 := List.mem_filter.mp ht
      have := hinv.tick_owned t h1.1 (by simpa using h1.2)
      rw [hsp] at this
      injection this with this
      exact this.symm
  · cases hsp : s._intermissionTimer with
    | none =>
      have : s.timers.filter (fun t => decide (t.kind = TimerKind.intermission)) = [] := by
        apply List.filter_eq_nil_iff.mpr
        intro t ht hk
        have := hinv.interm_owned t ht (by simpa using hk)
        rw [hsp] at this
        cases this
      rw [this]; simp
    | some i =>
      apply length_le_one_of_same_id (i := i) (nodup_filter_timers _ hn)
      intro t ht
      have h1 := List.mem_filter.mp ht
      have := hinv.interm_owned t h1.1 (by simpa using h1.2)
      rw [hsp] at this
      injection this with this
      exact this.symm
  · have hclear : (clearTimer s.timers s._spawnTimer).filter
        (fun t => decide (t.kind = TimerKind.spawnTick)) = [] := by
      rw [clearTimer_spawnTimer hinv hcoh]
      apply List.filter_eq_nil_iff.mpr
      intro t ht hk
      have h1 := (List.mem_filter.mp ht).2
      simp only [decide_eq_true_eq] at h1 hk
      rw [h1] at hk
      cases hk
    simp [_startSpawnLoop, List.filter_append, hclear]
  · intro hpend
    simp [_maybeCompleteWave, hpend]

/-- C30 in the test scenario: with the intermission after wave 1 pending, the
completion check schedules nothing more. -/
theorem one_timer_per_kind_witness :
    (run testConfig _resetState wave1Cleared)._intermissionTimer ≠ none
      ∧ _maybeCompleteWave testConfig quietHost (run testConfig _resetState wave1Cleared)
          = Res.ok (run testConfig _resetState wave1Cleared) :=
  ⟨by rw [wave1Cleared_state]; simp,
    (one_timer_per_kind testConfig wave1Cleared quietHost none).2.2.2.2
      (by rw [wave1Cleared_state]; simp)⟩

/-! ## Wave numbers in order -/

theorem wavesUpTo_succ (k : ℤ) (hk : 0 ≤ k) : wavesUpTo (k + 1) = wavesUpTo k ++ [k + 1] := by
  unfold wavesUpTo
  have h1 : (k + 1).toNat = k.toNat + 1 := by omega
  rw [h1, List.range_succ, List.map_append]
  simp [Int.toNat_of_nonneg hk]

theorem waveStarts_append (l₁ l₂ : List Event) :
    waveStarts (l₁ ++ l₂) = waveStarts l₁ ++ waveStarts l₂ := by
  simp [waveStarts, List.filterMap_append]

theorem maybeCompleteWave_waveStarts (c : Config) (h : Host) (s : State) :
    ∃ d, (_maybeCompleteWave c h s).st.log = s.log ++ d ∧ waveStarts d = [] := by
  unfold _maybeCompleteWave
  split
  · split
    · exact ⟨[.onWaveComplete s.wave], rfl, rfl⟩
    · unfold _scheduleIntermission
      split
      · exact ⟨[.onWaveComplete s.wave, .onIntermission s.wave c.intermissionMs],
          by simp [Res.throw, State.emit], rfl⟩
      · exact ⟨[.onWaveComplete s.wave, .onIntermission s.wave c.intermissionMs],
          by simp [Res.ok, State.emit], rfl⟩
  · exact ⟨[], by simp [Res.ok], rfl⟩

theorem spawnEnemy_waveStarts (h : Host) (s : State) :
    ∃ d, (_spawnEnemy h s).log = s.log ++ d ∧ waveStarts d = [] := by
  unfold _spawnEnemy
  cases h.spawnEnemy with
  | returns enemy =>
    refine ⟨[.spawnEnemy ⟨s.wave, s._spawned + 1, s._toSpawn - (s._spawned + 1)⟩,
      .onEnemySpawned ⟨s.wave, s._spawned + 1, s._toSpawn - (s._spawned + 1)⟩ enemy], ?_,
      rfl⟩
    simp only
    split <;> simp [State.emit]
  | raises =>
    refine ⟨[.spawnEnemy ⟨s.wave, s._spawned + 1, s._toSpawn - (s._spawned + 1)⟩], ?_,
      rfl⟩
    simp only
    split <;> simp [State.emit]

theorem wave_step (c : Config) (s : State) (a : Action) (hr : s.running = true) :
    ∃ d, (step c s a).st.log = s.log ++ d
      ∧ (((step c s a).st.wave = s.wave ∧ waveStarts d = [])
        ∨ ((step c s a).st.wave = s.wave + 1 ∧ waveStarts d = [s.wave + 1]
            ∧ ∃ t ∈ s.timers, t.kind = TimerKind.intermission ∧ a.call = Call.fire t.id)) := by
  rcases step_cases c s a with h1 | h1 | h1 | h1 | ⟨t, _, _, _, hnr, _⟩ | ⟨hnr, _, _⟩
    | ⟨t, ht, hk, hcall, _, h1⟩ | ⟨_, _, h1⟩ | ⟨t, _, _, _, _, _, h1⟩
    | ⟨t, _, _, _, _, _, h1⟩
  · exact ⟨[], by rw [h1]; simp [Res.ok], Or.inl ⟨by rw [h1]; rfl, rfl⟩⟩
  · exact ⟨[], by rw [h1]; simp [Res.ok, stop], Or.inl ⟨by rw [h1]; rfl, rfl⟩⟩
  · exact ⟨[], by rw [h1]; simp [Res.ok, (pause_frame s).1],
      Or.inl ⟨by rw [h1]; exact (pause_frame s).2.1, rfl⟩⟩
  · exact ⟨[], by rw [h1]; simp [Res.ok, (resume_frame c s).1],
      Or.inl ⟨by rw [h1]; exact (resume_frame c s).2.1, rfl⟩⟩
  · rw [hr] at hnr; cases hnr
  · rw [hr] at hnr; cases hnr
  · refine ⟨[Event.onWaveStart (s.wave + 1) (_calcEnemiesForWave c (s.wave + 1))
        (_calcSpawnIntervalForWave c (s.wave + 1))], ?_, Or.inr ⟨?_, rfl, t, ht, hk, hcall⟩⟩
    · rw [h1]; exact beginWave_log c a.host _
    · rw [h1, (beginWave_frame c a.host _).2.1]
  · obtain ⟨d, hd, hw⟩ := maybeCompleteWave_waveStarts c a.host
      { s with _active := max 0 (s._active - 1) }
    exact ⟨d, by rw [h1]; exact hd,
      Or.inl ⟨by rw [h1]; exact (maybeCompleteWave_frame c a.host _).2.1, hw⟩⟩
  · obtain ⟨d, hd, hw⟩ := maybeCompleteWave_waveStarts c a.host
      { s with timers := clearTimer s.timers s._spawnTimer, _spawnTimer := none }
    exact ⟨d, by rw [h1]; exact hd,
      Or.inl ⟨by rw [h1]; exact (maybeCompleteWave_frame c a.host _).2.1, hw⟩⟩
  · obtain ⟨d, hd, hw⟩ := spawnEnemy_waveStarts a.host s
    exact ⟨d, by rw [h1]; exact hd,
      Or.inl ⟨by rw [h1]; exact (spawnEnemy_frame a.host s).2.1, hw⟩⟩

theorem waveStarts_run (c : Config) (bs : List Action) (s : State)
    (hr : s.running = true) (hw : 1 ≤ s.wave) (hbs : ∀ a ∈ bs, a.call ≠ Call.stop) :
    ∃ d, (run c s bs).log = s.log ++ d
      ∧ wavesUpTo (run c s bs).wave = wavesUpTo s.wave ++ waveStarts d
      ∧ 1 ≤ (run c s bs).wave := by
  induction bs generalizing s with
  | nil => exact ⟨[], by simp [run], by simp [run, waveStarts], hw⟩
  | cons a bs ih =>
    have hr1 := running_step c s a hr (hbs a (List.mem_cons_self _ _))
    obtain ⟨d1, hd1, hcase⟩ := wave_step c s a hr
    have hw1 : 1 ≤ (step c s a).st.wave ∧
        wavesUpTo (step c s a).st.wave = wavesUpTo s.wave ++ waveStarts d1 := by
      rcases hcase with ⟨h1, h2⟩ | ⟨h1, h2, _⟩
      · rw [h1, h2]; exact ⟨hw, by simp⟩
      · rw [h1, h2]; exact ⟨by omega, wavesUpTo_succ s.wave (by omega)⟩
    obtain ⟨d2, hd2, hup, hw2⟩ := ih (step c s a).st hr1 hw1.1
      (fun b hb => hbs b (List.mem_cons_of_mem _ hb))
    refine ⟨d1 ++ d2, ?_, ?_, ?_⟩
    · rw [run_cons, hd2, hd1, List.append_assoc]
    · rw [run_cons, hup, hw1.2, waveStarts_append, List.append_assoc]
    · rw [run_cons]; exact hw2

theorem wave_pos_run (c : Config) (as : List Action) (s : State)
    (hs : s.running = true → 1 ≤ s.wave) :
    (run c s as).running = true → 1 ≤ (run c s as).wave := by
  induction as generalizing s with
  | nil => exact hs
  | cons a as ih =>
    rw [run_cons]
    apply ih
    intro hr1
    cases hr : s.running with
    | true =>
      obtain ⟨d, _, hcase⟩ := wave_step c s a hr
      have := hs hr
      rcases hcase with ⟨h1, _⟩ | ⟨h1, _⟩ <;> omega
    | false =>
      rcases step_cases c s a with h1 | h1 | h1 | h1 | ⟨t, _, _, _, _, h1⟩ | ⟨_, _, h1⟩
        | ⟨t, _, _, _, hrt, _⟩ | ⟨hrt, _, _⟩ | ⟨t, _, _, _, _, _, h1⟩
        | ⟨t, _, _, _, _, _, h1⟩
      · rw [h1] at hr1; simp [Res.ok, hr] at hr1
      · rw [h1] at hr1; simp [Res.ok, stop] at hr1
      · rw [h1] at hr1; simp [Res.ok, (pause_frame s).2.2.1, hr] at hr1
      · rw [h1] at hr1; simp [Res.ok, (resume_frame c s).2.2, hr] at hr1
      · rw [h1] at hr1; simp [Res.ok, hr] at hr1
      · rw [h1, (beginWave_frame c a.host _).2.1]
      · rw [hr] at hrt; cases hrt
      · rw [hr] at hrt; cases hrt
      · rw [h1, (maybeCompleteWave_frame c a.host _).1] at hr1; simp [hr] at hr1
      · rw [h1] at hr1; simp [Res.ok, (spawnEnemy_frame a.host s).1, hr] at hr1

/-- C27: a running reachable scheduler has `wave >= 1`. From a running state a
step either leaves `wave` unchanged or is the firing of a live intermission
timer and raises it by exactly 1; the spawn tick, `onEnemyKilled`, `pause`,
`resume` and `start` on a running scheduler leave `wave` unchanged. Hence,
after `start()` on a stopped scheduler and any further steps without `stop()`,
the `onWaveStart` notifications emitted since that start carry the wave
numbers 1, 2, ..., up to the current `wave`, in order. -/
theorem wave_counter_spec (c : Config) (as : List Action) (s0 : State) (h0 h : Host)
    (bs : List Action) (a : Action) :
    ((run c _resetState as).running = true → 1 ≤ (run c _resetState as).wave)
      ∧ (s0.running = true →
          (step c s0 a).st.wave = s0.wave
            ∨ ((step c s0 a).st.wave = s0.wave + 1
                ∧ ∃ t ∈ s0.timers, t.kind = TimerKind.intermission
                    ∧ a.call = Call.fire t.id))
      ∧ ((spawnTick c h s0).st.wave = s0.wave
          ∧ (onEnemyKilled c h s0).st.wave = s0.wave
          ∧ (pause s0).wave = s0.wave
          ∧ (resume c s0).wave = s0.wave
          ∧ (s0.running = true → (start c h s0).st.wave = s0.wave))
      ∧ (s0.running = false → (∀ b ∈ bs, b.call ≠ Call.stop) →
          waveStarts ((run c (start c h0 s0).st bs).log.drop s0.log.length)
            = wavesUpTo (run c (start c h0 s0).st bs).wave) := by
  refine ⟨wave_pos_run c as _resetState (by simp [_resetState]), ?_, ?_, ?_⟩
  · intro hr
    obtain ⟨d, _, hcase⟩ := wave_step c s0 a hr
    rcases hcase with ⟨h1, _⟩ | ⟨h1, _, ht⟩
    · exact Or.inl h1
    · exact Or.inr ⟨h1, ht⟩
  · refine ⟨?_, ?_, (pause_frame s0).2.1, (resume_frame c s0).2.1, ?_⟩
    · unfold spawnTick
      split
      · rfl
      · split
        · exact (maybeCompleteWave_frame c h _).2.1
        · exact (spawnEnemy_frame h s0).2.1
    · unfold onEnemyKilled
      split
      · rfl
      · exact (maybeCompleteWave_frame c h _).2.1
    · intro hr
      simp [start, hr, Res.ok]
  · intro hr hbs
    have hstart : start c h0 s0 = _beginWave c h0 { s0 with running := true, wave := 1 } := by
      simp [start, hr]
    have hlog : (start c h0 s0).st.log
        = s0.log ++ [Event.onWaveStart 1 (_calcEnemiesForWave c 1)
            (_calcSpawnIntervalForWave c 1)] := by
      rw [hstart]; exact beginWave_log c h0 _
    have hwave : (start c h0 s0).st.wave = 1 := by
      rw [hstart, (beginWave_frame c h0 _).2.1]
    have hrun : (start c h0 s0).st.running = true := by
      rw [hstart, (beginWave_frame c h0 _).1]
    obtain ⟨d, hd, hup, _⟩ := waveStarts_run c bs (start c h0 s0).st hrun
      (by rw [hwave]) hbs
    rw [hd, hlog, List.append_assoc, List.drop_left, hup, hwave, waveStarts_append]
    rfl

/-- C27 in the test scenario: the started scheduler is in wave 1, and after
the scenario the `onWaveStart` notifications carry 1 and 2. -/
theorem wave_counter_spec_witness :
    (run testConfig _resetState wave1Started).running = true
      ∧ 1 ≤ (run testConfig _resetState wave1Started).wave
      ∧ _resetState.running = false
      ∧ (∀ b ∈ scenario.tail, b.call ≠ Call.stop)
      ∧ waveStarts ((run testConfig (start testConfig quietHost _resetState).st
            scenario.tail).log.drop _resetState.log.length)
          = wavesUpTo (run testConfig (start testConfig quietHost _resetState).st
              scenario.tail).wave
      ∧ ((step testConfig (run testConfig _resetState wave1Started) (act .pause)).st.wave
            = (run testConfig _resetState wave1Started).wave
          ∨ ((step testConfig (run testConfig _resetState wave1Started)
                (act .pause)).st.wave
              = (run testConfig _resetState wave1Started).wave + 1
            ∧ ∃ t ∈ (run testConfig _resetState wave1Started).timers,
                t.kind = TimerKind.intermission ∧ (act .pause).call = Call.fire t.id)) :=
  ⟨by rw [wave1Started_state],
    (wave_counter_spec testConfig wave1Started _resetState quietHost quietHost
      scenario.tail (act .pause)).1 (by rw [wave1Started_state]),
    rfl, by simp [scenario, act],
    (wave_counter_spec testConfig wave1Started _resetState quietHost quietHost
      scenario.tail (act .pause)).2.2.2 rfl (by simp [scenario, act]),
    (wave_counter_spec testConfig wave1Started (run testConfig _resetState wave1Started)
      quietHost quietHost scenario.tail (act .pause)).2.1 (by rw [wave1Started_state])⟩

/-! ## Counters and the target count, continued -/

/-- C35: in every state reachable from a freshly constructed scheduler,
whatever the host callbacks do, `_active <= _spawned`. -/
theorem active_le_spawned (c : Config) (as : List Action) :
    (run c _resetState as)._active ≤ (run c _resetState as)._spawned :=
  (coherent_run c as _resetState inv_resetState (coherent_resetState c)).active_le

/-- C36, as stated, fails in its closed form: base 3 and increment 2 are
integers with `baseEnemies >= 1` and `perWaveIncrement >= 0`, yet at
`w = 2^53` the sum `3 + (2^54 - 2)` is rounded to `2^54` and
`_calcEnemiesForWave(w)` differs from `baseEnemies + perWaveIncrement*(w-1)
= 2^54 + 1`. -/
theorem calcEnemiesForWave_closed_form_rounds :
    testConfig.baseEnemies = ((3 : ℤ) : ℚ)
      ∧ testConfig.perWaveIncrement = ((2 : ℤ) : ℚ)
      ∧ (1 : ℤ) ≤ 3 ∧ (0 : ℤ) ≤ 2 ∧ (1 : ℤ) ≤ 2 ^ 53
      ∧ _calcEnemiesForWave testConfig (2 ^ 53) = 2 ^ 54
      ∧ _calcEnemiesForWave testConfig (2 ^ 53) ≠ 3 + 2 * (2 ^ 53 - 1) := by
  refine ⟨by norm_num [testConfig], by norm_num [testConfig], by norm_num, by norm_num,
    by norm_num, testConfig_wave_two_pow_53, ?_⟩
  rw [testConfig_wave_two_pow_53]
  norm_num

/-- C36, amended: with `perWaveIncrement >= 0` the target count of wave `w+1`
is at least that of wave `w`, for every wave number; and when
`baseEnemies >= 1` and `perWaveIncrement >= 0` are integers and `w-1`, the
product and the sum stay within `2^53`, `_calcEnemiesForWave(w)` is
`baseEnemies + perWaveIncrement*(w-1)` for every `w >= 1`. -/
theorem calcEnemiesForWave_monotone (c : Config) (w : ℤ)
    (hinc : 0 ≤ c.perWaveIncrement) :
    _calcEnemiesForWave c (w + 1) ≥ _calcEnemiesForWave c w
      ∧ ∀ b i : ℤ, c.baseEnemies = b → c.perWaveIncrement = i → 1 ≤ b → 1 ≤ w →
          w - 1 ≤ 2 ^ 53 → i * (w - 1) ≤ 2 ^ 53 → b + i * (w - 1) ≤ 2 ^ 53 →
          _calcEnemiesForWave c w = b + i * (w - 1) := by
  constructor
  · exact calcEnemiesForWave_mono c hinc (by omega)
  · intro b i hb hi hb1 hw h1 h2 h3
    have hi0 : 0 ≤ i := by
      have : (0 : ℚ) ≤ (i : ℚ) := by rw [← hi]; exact hinc
      exact_mod_cast this
    have hp : 0 ≤ i * (w - 1) := mul_nonneg hi0 (by omega)
    rw [calcEnemiesForWave_int c b i w hb hi
      (abs_le.mpr ⟨by linarith, by linarith⟩)
      (abs_le.mpr ⟨by linarith, by linarith⟩)
      (abs_le.mpr ⟨by linarith, by linarith⟩)]
    exact max_eq_right (by linarith)

/-- The amended C36 at the test configuration, wave 4: 3 + 2*3 = 9. -/
theorem calcEnemiesForWave_monotone_witness :
    0 ≤ testConfig.perWaveIncrement
      ∧ _calcEnemiesForWave testConfig (4 + 1) ≥ _calcEnemiesForWave testConfig 4
      ∧ testConfig.baseEnemies = ((3 : ℤ) : ℚ)
      ∧ testConfig.perWaveIncrement = ((2 : ℤ) : ℚ)
      ∧ (1 : ℤ) ≤ 3 ∧ (1 : ℤ) ≤ 4 ∧ (4 : ℤ) - 1 ≤ 2 ^ 53
      ∧ (2 : ℤ) * (4 - 1) ≤ 2 ^ 53 ∧ (3 : ℤ) + 2 * (4 - 1) ≤ 2 ^ 53
      ∧ _calcEnemiesForWave testConfig 4 = 3 + 2 * (4 - 1) :=
  ⟨by norm_num [testConfig],
    (calcEnemiesForWave_monotone testConfig 4 (by norm_num [testConfig])).1,
    by norm_num [testConfig], by norm_num [testConfig],
    by norm_num, by norm_num, by norm_num, by norm_num, by norm_num,
    (calcEnemiesForWave_monotone testConfig 4 (by norm_num [testConfig])).2 3 2
      (by norm_num [testConfig]) (by norm_num [testConfig]) (by norm_num) (by norm_num)
      (by norm_num) (by norm_num) (by norm_num)⟩

/-! ## The constructor -/

/-- C32: constructing the scheduler without options, or with `{}`, gives the
defaults 10000, 5, 2, 800, 200, 50; an omitted field takes its default and a
supplied value, 0 included, is kept; the state is the reset state: `wave` 0,
not running, not paused, counters 0, no timer handle. -/
theorem constructor_defaults (o : Opts) (v : ℚ) :
    (constructor none).1
        = { intermissionMs := 10000, baseEnemies := 5, perWaveIncrement := 2,
            baseSpawnIntervalMs := 800, minSpawnIntervalMs := 200,
            spawnAccelPerWaveMs := 50 }
      ∧ (constructor (some Opts.empty)).1 = (constructor none).1
      ∧ ((o.intermissionMs = none → (constructor (some o)).1.intermissionMs = 10000)
        ∧ (o.baseEnemies = none → (constructor (some o)).1.baseEnemies = 5)
        ∧ (o.perWaveIncrement = none → (constructor (some o)).1.perWaveIncrement = 2)
        ∧ (o.baseSpawnIntervalMs = none →
            (constructor (some o)).1.baseSpawnIntervalMs = 800)
        ∧ (o.minSpawnIntervalMs = none → (constructor (some o)).1.minSpawnIntervalMs = 200)
        ∧ (o.spawnAccelPerWaveMs = none →
            (constructor (some o)).1.spawnAccelPerWaveMs = 50))
      ∧ ((o.intermissionMs = some v → (constructor (some o)).1.intermissionMs = v)
        ∧ (o.baseEnemies = some v → (constructor (some o)).1.baseEnemies = v)
        ∧ (o.perWaveIncrement = some v → (constructor (some o)).1.perWaveIncrement = v)
        ∧ (o.baseSpawnIntervalMs = some v →
            (constructor (some o)).1.baseSpawnIntervalMs = v)
        ∧ (o.minSpawnIntervalMs = some v → (constructor (some o)).1.minSpawnIntervalMs = v)
        ∧ (o.spawnAccelPerWaveMs = some v →
            (constructor (some o)).1.spawnAccelPerWaveMs = v))
      ∧ (constructor (some { Opts.empty with
            intermissionMs := some 0, baseEnemies := some 0, perWaveIncrement := some 0,
            baseSpawnIntervalMs := some 0, minSpawnIntervalMs := some 0,
            spawnAccelPerWaveMs := some 0 })).1
          = { intermissionMs := 0, baseEnemies := 0, perWaveIncrement := 0,
              baseSpawnIntervalMs := 0, minSpawnIntervalMs := 0, spawnAccelPerWaveMs := 0 }
      ∧ ((constructor (some o)).2 = _resetState ∧ (constructor none).2 = _resetState)
      ∧ (_resetState.wave = 0 ∧ _resetState.running = false ∧ _resetState.paused = false
          ∧ _resetState._spawned = 0 ∧ _resetState._toSpawn = 0 ∧ _resetState._active = 0
          ∧ _resetState._spawnTimer = none ∧ _resetState._intermissionTimer = none) := by
  refine ⟨rfl, rfl, ⟨?_, ?_, ?_, ?_, ?_, ?_⟩, ⟨?_, ?_, ?_, ?_, ?_, ?_⟩, rfl, ⟨rfl, rfl⟩,
    ⟨rfl, rfl, rfl, rfl, rfl, rfl, rfl, rfl⟩⟩
  all_goals
    intro h
    simp [constructor, h]

/-- C32 with only `intermissionMs: 0` supplied: 0 is kept, and the omitted
`baseEnemies` is 5. -/
theorem constructor_defaults_witness :
    ({ Opts.empty with intermissionMs := some 0 } : Opts).intermissionMs = some 0
      ∧ ({ Opts.empty with intermissionMs := some 0 } : Opts).baseEnemies = none
      ∧ (constructor (some { Opts.empty with intermissionMs := some 0 })).1.intermissionMs = 0
      ∧ (constructor (some { Opts.empty with intermissionMs := some 0 })).1.baseEnemies = 5 :=
  ⟨rfl, rfl,
    (constructor_defaults { Opts.empty with intermissionMs := some 0 } 0).2.2.2.1.1 rfl,
    (constructor_defaults { Opts.empty with intermissionMs := some 0 } 0).2.2.1.2.1 rfl⟩

/-! ## Timers and the phase of the wave -/

theorem mem_clearTimer_of {ts : List Timer} {h : Option Nat} {t : Timer}
    (ht : t ∈ ts) (hne : h ≠ some t.id) : t ∈ clearTimer ts h := by
  cases h with
  | none => exact ht
  | some i =>
    simp only [clearTimer, List.mem_filter, decide_eq_true_eq]
    exact ⟨ht, fun heq => hne (by rw [heq])⟩

theorem maybeCompleteWave_arm (c : Config) (h : Host) (s : State) :
    ((_maybeCompleteWave c h s).st.timers = s.timers
        ∧ (_maybeCompleteWave c h s).st._intermissionTimer = s._intermissionTimer)
      ∨ ((_maybeCompleteWave c h s).st.timers
            = s.timers ++ [⟨s.nextId, TimerKind.intermission, c.intermissionMs⟩]
          ∧ (_maybeCompleteWave c h s).st._intermissionTimer = some s.nextId) := by
  unfold _maybeCompleteWave
  split
  · split
    · exact Or.inl ⟨rfl, rfl⟩
    · unfold _scheduleIntermission
      split
      · exact Or.inl ⟨rfl, rfl⟩
      · exact Or.inr ⟨rfl, rfl⟩
  · exact Or.inl ⟨rfl, rfl⟩

theorem spawnEnemy_shape (h : Host) (s : State) :
    (s._spawned + 1 < s._toSpawn ∧ (_spawnEnemy h s).timers = s.timers)
      ∨ (s._toSpawn ≤ s._spawned + 1
          ∧ (_spawnEnemy h s).timers = clearTimer s.timers s._spawnTimer) := by
  unfold _spawnEnemy
  cases h.spawnEnemy <;> simp only [State.emit] <;> split
  all_goals
    rename_i hc
    first
      | exact Or.inr ⟨hc, rfl⟩
      | exact Or.inl ⟨by omega, rfl⟩

theorem beginWave_counters (c : Config) (h : Host) (s : State) :
    (_beginWave c h s).st._spawned = 0
      ∧ (_beginWave c h s).st._active = 0
      ∧ 1 ≤ (_beginWave c h s).st._toSpawn
      ∧ (_beginWave c h s).st.paused = s.paused := by
  have h1 : (1 : ℤ) ≤ _calcEnemiesForWave c s.wave := le_max_left _ _
  unfold _beginWave
  split <;> exact ⟨rfl, rfl, h1, rfl⟩

theorem phases_resetState : Phases _resetState := by
  constructor <;> simp [_resetState]

theorem phases_beginWave (c : Config) (h : Host) (s : State)
    (hnone : s._intermissionTimer = none) : Phases (_beginWave c h s).st :=
  { cadence_lt := by
      intro t _ _
      have := beginWave_counters c h s
      omega
    interm_live := by
      intro i hi
      rw [(beginWave_frame c h s).2.2, hnone] at hi
      cases hi }

theorem phases_step (c : Config) (s : State) (a : Action) (hinv : Inv s)
    (hcoh : Coherent c s) (hs : Phases s) : Phases (step c s a).st := by
  have hkeep : ∀ i, s._intermissionTimer = some i →
      ∃ t ∈ clearTimer s.timers s._spawnTimer, t.id = i ∧ t.kind = TimerKind.intermission := by
    intro i hi
    obtain ⟨t, ht, hid, hk⟩ := hs.interm_live i hi
    refine ⟨t, mem_clearTimer_of ht ?_, hid, hk⟩
    intro hsp
    rw [hid] at hsp
    exact hcoh.handles_ne i hsp hi
  rcases step_cases c s a with h1 | h1 | h1 | h1 | ⟨t, ht, _, _, hnr, _⟩ | ⟨hnr, _, h1⟩
    | ⟨t, ht, hk, _, _, h1⟩ | ⟨_, _, h1⟩ | ⟨t, ht, hk, _, _, hge, _⟩
    | ⟨t, ht, hk, _, _, hlt, h1⟩
  · rw [h1]; exact hs
  · rw [h1]
    exact
      { cadence_lt := fun t ht hk =>
          hs.cadence_lt t (mem_clearTimer (mem_clearTimer ht).1).1 hk
        interm_live := by intro i hi; simp [stop, Res.ok] at hi }
  · rw [h1]
    simp only [Res.ok, pause]
    split
    · exact hs
    · exact
        { cadence_lt := fun t ht hk => hs.cadence_lt t (mem_clearTimer ht).1 hk
          interm_live := hkeep }
  · rw [h1]
    simp only [Res.ok, resume]
    split
    · exact hs
    · split
      · rename_i hlt
        exact
          { cadence_lt := fun _ _ _ => hlt
            interm_live := by
              intro i hi
              obtain ⟨t, ht, hid, hk⟩ := hkeep i hi
              exact ⟨t, List.mem_append_left _ ht, hid, hk⟩ }
      · exact
          { cadence_lt := hs.cadence_lt
            interm_live := hs.interm_live }
  · have := (hinv.idle hnr).1
    rw [this] at ht
    cases ht
  · rw [h1]
    exact phases_beginWave c a.host _ (hinv.idle hnr).2
  · rw [h1]
    exact phases_beginWave c a.host _ rfl
  · rw [h1]
    rcases maybeCompleteWave_arm c a.host { s with _active := max 0 (s._active - 1) }
      with ⟨h2, h3⟩ | ⟨h2, h3⟩
    · exact
        { cadence_lt := by
            intro t ht hk
            rw [h2] at ht
            rw [(maybeCompleteWave_frame c a.host _).2.2.1,
              (maybeCompleteWave_frame c a.host _).2.2.2.1]
            exact hs.cadence_lt t ht hk
          interm_live := by
            intro i hi
            rw [h3] at hi
            rw [h2]
            exact hs.interm_live i hi }
    · exact
        { cadence_lt := by
            intro t ht hk
            rw [h2] at ht
            rw [(maybeCompleteWave_frame c a.host _).2.2.1,
              (maybeCompleteWave_frame c a.host _).2.2.2.1]
            rcases List.mem_append.mp ht with ht | ht
            · exact hs.cadence_lt t ht hk
            · simp at ht; rw [ht] at hk; cases hk
          interm_live := by
            intro i hi
            rw [h3] at hi
            injection hi with hi
            rw [h2]
            exact ⟨_, List.mem_append_right _ (List.mem_singleton_self _), hi, rfl⟩ }
  · have := hs.cadence_lt t ht hk
    omega
  · rw [h1]
    simp only [Res.ok]
    rcases spawnEnemy_shape a.host s with ⟨h2, h3⟩ | ⟨h2, h3⟩
    · exact
        { cadence_lt := by
            intro _ _ _
            rw [(spawnEnemy_counters a.host s).1, (spawnEnemy_frame a.host s).2.2.2]
            exact h2
          interm_live := by
            intro i hi
            rw [(spawnEnemy_frame a.host s).2.2.1] at hi
            rw [h3]
            exact hs.interm_live i hi }
    · exact
        { cadence_lt := by
            intro u hu hku
            rw [h3] at hu
            exact absurd (hinv.tick_owned u (mem_clearTimer hu).1 hku) (mem_clearTimer hu).2
          interm_live := by
            intro i hi
            rw [(spawnEnemy_frame a.host s).2.2.1] at hi
            rw [h3]
            exact hkeep i hi }

theorem phases_run (c : Config) (as : List Action) (s : State) (hinv : Inv s)
    (hcoh : Coherent c s) (hs : Phases s) : Phases (run c s as) := by
  induction as generalizing s with
  | nil => exact hs
  | cons a as ih =>
    exact ih _ (inv_step c s a hinv) (coherent_step c s a hinv hcoh)
      (phases_step c s a hinv hcoh hs)

theorem maybeCompleteWave_completed (c : Config) (h : Host) (s : State)
    (hwc : h.onWaveCompleteRaises = false) (him : h.onIntermissionRaises = false) :
    Completed (_maybeCompleteWave c h s).st := by
  unfold _maybeCompleteWave
  split
  · simp only [hwc, him, _scheduleIntermission, Res.ok, Bool.false_eq_true, if_false]
    intro _ _ _
    simp
  · next hg =>
    intro _ heq hact hnone
    exact hg ⟨le_of_eq heq.symm, hact, hnone⟩

theorem completed_step (c : Config) (s : State) (a : Action) (hinv : Inv s)
    (hs : Completed s)
    (hwc : a.host.onWaveCompleteRaises = false)
    (him : a.host.onIntermissionRaises = false) :
    Completed (step c s a).st := by
  rcases step_cases c s a with h1 | h1 | h1 | h1 | ⟨t, _, _, _, hnr, h1⟩ | ⟨_, _, h1⟩
    | ⟨t, _, _, _, _, h1⟩ | ⟨_, _, h1⟩ | ⟨t, _, _, _, _, _, h1⟩
    | ⟨t, _, _, _, _, _, h1⟩
  · rw [h1]; exact hs
  · rw [h1]
    intro hr
    simp [stop, Res.ok] at hr
  · rw [h1]
    simp only [Res.ok, pause]
    split <;> exact hs
  · rw [h1]
    simp only [Res.ok, resume, _startSpawnLoop]
    split
    · exact hs
    · split <;> exact hs
  · rw [h1]
    intro hr
    simp [Res.ok, hnr] at hr
  · rw [h1]
    intro _ heq
    have := beginWave_counters c a.host { s with running := true, wave := 1 }
    omega
  · rw [h1]
    intro _ heq
    have := beginWave_counters c a.host { s with
      timers := s.timers.filter (fun u => u.id ≠ t.id)
      _intermissionTimer := none
      wave := s.wave + 1 }
    omega
  · rw [h1]
    exact maybeCompleteWave_completed c a.host _ hwc him
  · rw [h1]
    exact maybeCompleteWave_completed c a.host _ hwc him
  · rw [h1]
    intro _ _ hact
    simp only [Res.ok] at hact
    rw [(spawnEnemy_counters a.host s).2] at hact
    have := hinv.active_nonneg
    omega

theorem completed_run (c : Config) (as : List Action) :
    ∀ s : State, Inv s → Completed s →
      (∀ a ∈ as, a.host.onWaveCompleteRaises = false
        ∧ a.host.onIntermissionRaises = false) →
      Completed (run c s as) := by
  induction as with
  | nil => intro s _ hs _; simpa [run] using hs
  | cons a as ih =>
    intro s hinv hs hq
    rw [run_cons]
    have ha := hq a (List.mem_cons_self _ _)
    exact ih _ (inv_step c s a hinv) (completed_step c s a hinv hs ha.1 ha.2)
      (fun b hb => hq b (List.mem_cons_of_mem _ hb))

theorem completed_resetState : Completed _resetState := by
  intro hr
  simp [_resetState] at hr

theorem beginWave_arms (c : Config) (h : Host) (s : State)
    (hq : h.onWaveStartRaises = false) :
    ∃ t ∈ (_beginWave c h s).st.timers, t.kind = TimerKind.spawnTick := by
  refine ⟨⟨s.nextId, TimerKind.spawnTick, _calcSpawnIntervalForWave c s.wave⟩, ?_, rfl⟩
  simp [_beginWave, hq, Res.ok, _startSpawnLoop, State.emit]

theorem cadenceLive_step (c : Config) (s : State) (a : Action)
    (hs : CadenceLive s) (hq : a.host.onWaveStartRaises = false) :
    CadenceLive (step c s a).st := by
  rcases step_cases c s a with h1 | h1 | h1 | h1 | ⟨t, _, _, _, hnr, h1⟩ | ⟨_, _, h1⟩
    | ⟨t, _, _, _, _, h1⟩ | ⟨_, _, h1⟩ | ⟨t, _, _, _, _, hge, h1⟩
    | ⟨t, ht, hk, _, _, hlt, h1⟩
  · rw [h1]; exact hs
  · rw [h1]
    intro hr
    simp [stop, Res.ok] at hr
  · rw [h1]
    simp only [Res.ok, pause]
    split
    · exact hs
    · intro _ hp
      simp at hp
  · rw [h1]
    simp only [Res.ok, resume]
    split
    · exact hs
    · split
      · intro _ _ _
        exact ⟨⟨s.nextId, TimerKind.spawnTick, _calcSpawnIntervalForWave c s.wave⟩,
          by simp [_startSpawnLoop], rfl⟩
      · next hn =>
        intro _ _ hlt
        exact absurd hlt hn
  · rw [h1]
    intro hr
    simp [Res.ok, hnr] at hr
  · rw [h1]
    intro _ _ _
    exact beginWave_arms c a.host _ hq
  · rw [h1]
    intro _ _ _
    exact beginWave_arms c a.host _ hq
  · rw [h1]
    intro hr hp hlt
    have hf := maybeCompleteWave_frame c a.host { s with _active := max 0 (s._active - 1) }
    have hpq := (maybeCompleteWave_quiet c a.host
      { s with _active := max 0 (s._active - 1) }).1
    rw [hf.1] at hr
    rw [hpq] at hp
    rw [hf.2.2.1, hf.2.2.2.1] at hlt
    obtain ⟨u, hu, hku⟩ := hs hr hp hlt
    refine ⟨u, ?_, hku⟩
    rcases maybeCompleteWave_arm c a.host { s with _active := max 0 (s._active - 1) }
      with ⟨e, _⟩ | ⟨e, _⟩
    · rw [e]; exact hu
    · rw [e]; exact List.mem_append_left _ hu
  · rw [h1]
    intro _ _ hlt
    have hf := maybeCompleteWave_frame c a.host { s with
      timers := clearTimer s.timers s._spawnTimer
      _spawnTimer := none }
    rw [hf.2.2.1, hf.2.2.2.1] at hlt
    exact absurd hlt (not_lt.mpr hge)
  · rw [h1]
    intro _ _ hlt2
    simp only [Res.ok] at hlt2 ⊢
    rw [(spawnEnemy_counters a.host s).1, (spawnEnemy_frame a.host s).2.2.2] at hlt2
    rcases spawnEnemy_shape a.host s with ⟨_, e⟩ | ⟨hle, _⟩
    · rw [e]; exact ⟨t, ht, hk⟩
    · omega

theorem cadenceLive_run (c : Config) (as : List Action) :
    ∀ s : State, CadenceLive s →
      (∀ a ∈ as, a.host.onWaveStartRaises = false) →
      CadenceLive (run c s as) := by
  induction as with
  | nil => intro s hs _; simpa [run] using hs
  | cons a as ih =>
    intro s hs hq
    rw [run_cons]
    exact ih _ (cadenceLive_step c s a hs (hq a (List.mem_cons_self _ _)))
      (fun b hb => hq b (List.mem_cons_of_mem _ hb))

theorem cadenceLive_resetState : CadenceLive _resetState := by
  intro hr
  simp [_resetState] at hr

/-! ## Phases of a wave -/

theorem fireTimer_tick (c : Config) (h : Host) (s : State) (hinv : Inv s)
    (hcoh : Coherent c s) (t : Timer) (ht : t ∈ s.timers)
    (hk : t.kind = TimerKind.spawnTick) :
    fireTimer c h s t.id = spawnTick c h s := by
  cases hf : s.timers.find? (fun u => decide (u.id = t.id)) with
  | none =>
    have := List.find?_eq_none.mp hf t ht
    simp at this
  | some u =>
    have hu : u ∈ s.timers := List.mem_of_find?_eq_some hf
    have huid : u.id = t.id := by simpa using List.find?_some hf
    cases hku : u.kind with
    | spawnTick => simp [fireTimer, hf, hku]
    | intermission =>
      have h1 := hinv.interm_owned u hu hku
      have h2 := hinv.tick_owned t ht hk
      rw [huid] at h1
      exact absurd h1 (hcoh.handles_ne t.id h2)

/-- C37: in every reachable state in which a spawn cadence is live,
`_spawned < _toSpawn`. Firing that cadence runs the tick closure, which for
every host either returns at once because `paused` is set, leaving the state
as it was, or calls `_spawnEnemy`; it never takes the branch that clears the
cadence and calls `_maybeCompleteWave`. -/
theorem tick_completion_branch_unreachable (c : Config) (as : List Action) (h : Host)
    (t : Timer) (ht : t ∈ (run c _resetState as).timers)
    (hk : t.kind = TimerKind.spawnTick) :
    (run c _resetState as)._spawned < (run c _resetState as)._toSpawn
      ∧ fireTimer c h (run c _resetState as) t.id = spawnTick c h (run c _resetState as)
      ∧ spawnTick c h (run c _resetState as)
          = (if (run c _resetState as).paused then Res.ok (run c _resetState as)
             else Res.ok (_spawnEnemy h (run c _resetState as)))
      ∧ step c (run c _resetState as) ⟨Call.fire t.id, h⟩
          = (if (run c _resetState as).paused then Res.ok (run c _resetState as)
             else Res.ok (_spawnEnemy h (run c _resetState as))) := by
  have hinv := inv_run c as _resetState inv_resetState
  have hcoh := coherent_run c as _resetState inv_resetState (coherent_resetState c)
  have hph := phases_run c as _resetState inv_resetState (coherent_resetState c)
    phases_resetState
  generalize run c _resetState as = s at hinv hcoh hph ht
  have hlt := hph.cadence_lt t ht hk
  have hfire := fireTimer_tick c h s hinv hcoh t ht hk
  have hge : ¬ s._spawned ≥ s._toSpawn := not_le.mpr hlt
  have htick : spawnTick c h s
      = (if s.paused then Res.ok s else Res.ok (_spawnEnemy h s)) := by
    simp only [spawnTick, hge, if_false]
  refine ⟨hlt, hfire, htick, ?_⟩
  simp only [step]
  rw [hfire, htick]

/-- C37 in the test scenario: right after `start()` the cadence (handle 1) is
live with 0 of 3 units spawned, and its tick spawns a unit. -/
theorem tick_completion_branch_unreachable_witness :
    (⟨1, TimerKind.spawnTick, 50⟩ : Timer) ∈ (run testConfig _resetState wave1Started).timers
      ∧ (run testConfig _resetState wave1Started)._spawned
          < (run testConfig _resetState wave1Started)._toSpawn
      ∧ fireTimer testConfig quietHost (run testConfig _resetState wave1Started) 1
          = spawnTick testConfig quietHost (run testConfig _resetState wave1Started)
      ∧ spawnTick testConfig quietHost (run testConfig _resetState wave1Started)
          = (if (run testConfig _resetState wave1Started).paused
             then Res.ok (run testConfig _resetState wave1Started)
             else Res.ok (_spawnEnemy quietHost (run testConfig _resetState wave1Started)))
      ∧ step testConfig (run testConfig _resetState wave1Started) ⟨Call.fire 1, quietHost⟩
          = (if (run testConfig _resetState wave1Started).paused
             then Res.ok (run testConfig _resetState wave1Started)
             else Res.ok (_spawnEnemy quietHost (run testConfig _resetState wave1Started))) :=
  have hmem : (⟨1, TimerKind.spawnTick, 50⟩ : Timer)
      ∈ (run testConfig _resetState wave1Started).timers := by
    rw [wave1Started_state]; simp
  ⟨hmem, tick_completion_branch_unreachable testConfig wave1Started quietHost
    ⟨1, TimerKind.spawnTick, 50⟩ hmem rfl⟩

/-- What holds of the phases: in every reachable state a live spawn cadence implies
`_spawned < _toSpawn`; when every `onWaveStart` sink has returned, a running,
unpaused scheduler has a live cadence if and only if `_spawned < _toSpawn`. In
every reachable state a pending intermission (`_intermissionTimer` set)
implies `_spawned = _toSpawn`, `_active = 0`, no live spawn cadence and a live
intermission timer with that handle; a live intermission timer is always the
pending one, so a spawn cadence and an intermission timer are never live
together. -/
theorem phase_characterisation (c : Config) (as : List Action) :
    (∀ t ∈ (run c _resetState as).timers, t.kind = TimerKind.spawnTick →
        (run c _resetState as)._spawned < (run c _resetState as)._toSpawn)
      ∧ ((∀ a ∈ as, a.host.onWaveStartRaises = false) →
          (run c _resetState as).running = true →
          (run c _resetState as).paused = false →
          ((∃ t ∈ (run c _resetState as).timers, t.kind = TimerKind.spawnTick)
            ↔ (run c _resetState as)._spawned < (run c _resetState as)._toSpawn))
      ∧ ((run c _resetState as)._intermissionTimer ≠ none →
          (run c _resetState as)._spawned = (run c _resetState as)._toSpawn
            ∧ (run c _resetState as)._active = 0
            ∧ (∀ t ∈ (run c _resetState as).timers, t.kind ≠ TimerKind.spawnTick)
            ∧ ∃ t ∈ (run c _resetState as).timers, t.kind = TimerKind.intermission
                ∧ (run c _resetState as)._intermissionTimer = some t.id)
      ∧ (∀ t ∈ (run c _resetState as).timers, t.kind = TimerKind.intermission →
          (run c _resetState as)._intermissionTimer = some t.id)
      ∧ ¬ ∃ t ∈ (run c _resetState as).timers, ∃ u ∈ (run c _resetState as).timers,
            t.kind = TimerKind.spawnTick ∧ u.kind = TimerKind.intermission := by
  have hinv := inv_run c as _resetState inv_resetState
  have hph := phases_run c as _resetState inv_resetState (coherent_resetState c)
    phases_resetState
  have hlive := cadenceLive_run c as _resetState cadenceLive_resetState
  generalize run c _resetState as = s at hinv hph hlive
  have hpend : s._intermissionTimer ≠ none →
      s._spawned = s._toSpawn ∧ s._active = 0
        ∧ (∀ t ∈ s.timers, t.kind ≠ TimerKind.spawnTick)
        ∧ ∃ t ∈ s.timers, t.kind = TimerKind.intermission
            ∧ s._intermissionTimer = some t.id := by
    intro hp
    have h1 := hinv.pending hp
    have h2 := hinv.spawned_le
    refine ⟨le_antisymm h2 h1.2, h1.1, ?_, ?_⟩
    · intro t ht hk
      have := hph.cadence_lt t ht hk
      omega
    · cases hi : s._intermissionTimer with
      | none => exact absurd hi hp
      | some i =>
        obtain ⟨t, ht, hid, hk⟩ := hph.interm_live i hi
        exact ⟨t, ht, hk, by rw [hid]⟩
  refine ⟨hph.cadence_lt, ?_, hpend, hinv.interm_owned, ?_⟩
  · intro hq hr hp
    constructor
    · rintro ⟨t, ht, hk⟩
      exact hph.cadence_lt t ht hk
    · intro hlt
      exact hlive hq hr hp hlt
  · rintro ⟨t, ht, u, hu, hkt, hku⟩
    have hp : s._intermissionTimer ≠ none := by
      rw [hinv.interm_owned u hu hku]; simp
    exact (hpend hp).2.2.1 t ht hkt

/-- In the test scenario: right after `start()` the scheduler runs
unpaused with a live cadence and 0 of 3 units spawned; once wave 1 is cleared
the intermission is pending with 3 of 3 spawned, none active and no cadence. -/
theorem phase_characterisation_witness :
    (∀ a ∈ wave1Started, a.host.onWaveStartRaises = false)
      ∧ (run testConfig _resetState wave1Started).running = true
      ∧ (run testConfig _resetState wave1Started).paused = false
      ∧ ((∃ t ∈ (run testConfig _resetState wave1Started).timers,
            t.kind = TimerKind.spawnTick)
          ↔ (run testConfig _resetState wave1Started)._spawned
              < (run testConfig _resetState wave1Started)._toSpawn)
      ∧ (run testConfig _resetState wave1Cleared)._intermissionTimer ≠ none
      ∧ (run testConfig _resetState wave1Cleared)._spawned
          = (run testConfig _resetState wave1Cleared)._toSpawn
      ∧ (run testConfig _resetState wave1Cleared)._active = 0
      ∧ (∀ t ∈ (run testConfig _resetState wave1Cleared).timers,
          t.kind ≠ TimerKind.spawnTick)
      ∧ ∃ t ∈ (run testConfig _resetState wave1Cleared).timers,
          t.kind = TimerKind.intermission
            ∧ (run testConfig _resetState wave1Cleared)._intermissionTimer = some t.id :=
  have hq : ∀ a ∈ wave1Started, a.host.onWaveStartRaises = false := by
    intro a ha
    simp only [wave1Started, List.mem_singleton] at ha
    rw [ha]; rfl
  have hp : (run testConfig _resetState wave1Cleared)._intermissionTimer ≠ none := by
    rw [wave1Cleared_state]; simp
  ⟨hq, by rw [wave1Started_state], by rw [wave1Started_state],
    (phase_characterisation testConfig wave1Started).2.1 hq
      (by rw [wave1Started_state]) (by rw [wave1Started_state]),
    hp, (phase_characterisation testConfig wave1Cleared).2.2.1 hp⟩

/-- When the completion sinks `onWaveComplete` and `onIntermission` have
returned at every step, every reachable running state with
`_spawned = _toSpawn` and `_active = 0` has its intermission pending:
`_intermissionTimer` is set and the timer with that handle is live. -/
theorem no_missed_completion (c : Config) (as : List Action)
    (hq : ∀ a ∈ as, a.host.onWaveCompleteRaises = false
      ∧ a.host.onIntermissionRaises = false)
    (hr : (run c _resetState as).running = true)
    (hsp : (run c _resetState as)._spawned = (run c _resetState as)._toSpawn)
    (hact : (run c _resetState as)._active = 0) :
    (run c _resetState as)._intermissionTimer ≠ none
      ∧ ∃ t ∈ (run c _resetState as).timers, t.kind = TimerKind.intermission
          ∧ (run c _resetState as)._intermissionTimer = some t.id := by
  have hph := phases_run c as _resetState inv_resetState (coherent_resetState c)
    phases_resetState
  have hcomp := completed_run c as _resetState inv_resetState completed_resetState hq
  generalize run c _resetState as = s at hph hcomp hr hsp hact
  have hp := hcomp hr hsp hact
  refine ⟨hp, ?_⟩
  cases hi : s._intermissionTimer with
  | none => exact absurd hi hp
  | some i =>
    obtain ⟨t, ht, hid, hk⟩ := hph.interm_live i hi
    exact ⟨t, ht, hk, by rw [hid]⟩

/-- In the test scenario: after three spawns and three kill reports with
returning sinks, wave 1 is fully spawned and cleared and its intermission
timer (handle 2) is pending. -/
theorem no_missed_completion_witness :
    (∀ a ∈ wave1Cleared, a.host.onWaveCompleteRaises = false
        ∧ a.host.onIntermissionRaises = false)
      ∧ (run testConfig _resetState wave1Cleared).running = true
      ∧ (run testConfig _resetState wave1Cleared)._spawned
          = (run testConfig _resetState wave1Cleared)._toSpawn
      ∧ (run testConfig _resetState wave1Cleared)._active = 0
      ∧ (run testConfig _resetState wave1Cleared)._intermissionTimer ≠ none
      ∧ ∃ t ∈ (run testConfig _resetState wave1Cleared).timers,
          t.kind = TimerKind.intermission
            ∧ (run testConfig _resetState wave1Cleared)._intermissionTimer = some t.id :=
  have hq : ∀ a ∈ wave1Cleared, a.host.onWaveCompleteRaises = false
      ∧ a.host.onIntermissionRaises = false := by
    intro a ha
    simp only [wave1Cleared, List.mem_cons, List.mem_singleton, List.not_mem_nil,
      or_false] at ha
    rcases ha with ha | ha | ha | ha | ha | ha | ha <;> rw [ha] <;> exact ⟨rfl, rfl⟩
  ⟨hq, by rw [wave1Cleared_state], by rw [wave1Cleared_state], by rw [wave1Cleared_state],
    no_missed_completion testConfig wave1Cleared hq (by rw [wave1Cleared_state])
      (by rw [wave1Cleared_state]) (by rw [wave1Cleared_state])⟩

/-! ## Spawn contexts in index order -/

theorem waveLog_emit (s : State) (e : Event) :
    waveLog (s.emit e).log = (waveLog s.log).next e := by
  simp [waveLog, State.emit, List.foldl_append]

theorem spawnContexts_zero (w n : ℤ) : spawnContexts w n 0 = [] := by
  simp [spawnContexts]

theorem spawnContexts_succ (w n k : ℤ) (hk : 0 ≤ k) :
    spawnContexts w n (k + 1) = spawnContexts w n k ++ [⟨w, k + 1, n - (k + 1)⟩] := by
  unfold spawnContexts
  have h1 : (k + 1).toNat = k.toNat + 1 := by omega
  rw [h1, List.range_succ, List.map_append]
  simp [Int.toNat_of_nonneg hk]

theorem spawnOrder_resetState : SpawnOrder _resetState := by
  refine ⟨rfl, ?_, ?_⟩
  · simp [_resetState, waveLog, spawnContexts]
  · intro hr
    simp [_resetState] at hr

theorem spawnOrder_beginWave (c : Config) (h : Host) (s : State)
    (hok : (waveLog s.log).ok = true) : SpawnOrder (_beginWave c h s).st := by
  have hlog : waveLog (_beginWave c h s).st.log
      = (waveLog s.log).next (Event.onWaveStart s.wave (_calcEnemiesForWave c s.wave)
          (_calcSpawnIntervalForWave c s.wave)) := by
    rw [beginWave_log]
    simp [waveLog, List.foldl_append]
  have hw := (beginWave_frame c h s).2.1
  have hsp := (beginWave_counters c h s).1
  have hto : (_beginWave c h s).st._toSpawn = _calcEnemiesForWave c s.wave := by
    unfold _beginWave
    split <;> rfl
  refine ⟨?_, ?_, ?_⟩
  · rw [hlog]; exact hok
  · rw [hlog, hsp, spawnContexts_zero]; rfl
  · intro _
    rw [hlog, hw, hto]; rfl

theorem spawnOrder_maybeCompleteWave (c : Config) (h : Host) (s : State)
    (hr : s.running = true) (hle : s._spawned ≤ s._toSpawn) (ho : SpawnOrder s) :
    SpawnOrder (_maybeCompleteWave c h s).st := by
  have hf := maybeCompleteWave_frame c h s
  have hlog : waveLog (_maybeCompleteWave c h s).st.log = waveLog s.log
      ∨ (s._toSpawn ≤ s._spawned
          ∧ waveLog (_maybeCompleteWave c h s).st.log
              = (waveLog s.log).next (Event.onWaveComplete s.wave)) := by
    unfold _maybeCompleteWave
    split
    · next hg =>
      right
      refine ⟨hg.1, ?_⟩
      split
      · simp [Res.throw, waveLog, State.emit, List.foldl_append]
      · unfold _scheduleIntermission
        split <;>
          simp [Res.throw, Res.ok, waveLog, State.emit, List.foldl_append, WaveLog.next]
    · exact Or.inl rfl
  have hnext : s._toSpawn ≤ s._spawned →
      (waveLog s.log).next (Event.onWaveComplete s.wave) = waveLog s.log := by
    intro hge
    have heq : s._spawned = s._toSpawn := le_antisymm hle hge
    have h1 := ho.announced hr
    have h2 := ho.spawns
    have h3 := ho.ok
    rw [heq] at h2
    generalize waveLog s.log = m at h1 h2 h3
    obtain ⟨an, sp, ok⟩ := m
    simp only at h1 h2 h3
    subst h1 h2 h3
    simp [WaveLog.next]
  have hsame : waveLog (_maybeCompleteWave c h s).st.log = waveLog s.log := by
    rcases hlog with e | ⟨hge, e⟩
    · exact e
    · rw [e, hnext hge]
  refine ⟨?_, ?_, ?_⟩
  · rw [hsame]; exact ho.ok
  · rw [hsame, hf.2.1, hf.2.2.1, hf.2.2.2.1]; exact ho.spawns
  · intro _
    rw [hsame, hf.2.1, hf.2.2.2.1]; exact ho.announced hr

theorem spawnOrder_spawnEnemy (h : Host) (s : State) (hnn : 0 ≤ s._spawned)
    (ho : SpawnOrder s) : SpawnOrder (_spawnEnemy h s) := by
  have hf := spawnEnemy_frame h s
  have hc := (spawnEnemy_counters h s).1
  have hlog : waveLog (_spawnEnemy h s).log
      = (waveLog s.log).next
          (Event.spawnEnemy ⟨s.wave, s._spawned + 1, s._toSpawn - (s._spawned + 1)⟩) := by
    unfold _spawnEnemy
    cases h.spawnEnemy <;> simp only [State.emit] <;> split <;>
      simp [waveLog, List.foldl_append, WaveLog.next]
  refine ⟨?_, ?_, ?_⟩
  · rw [hlog]; exact ho.ok
  · rw [hlog, hc, hf.2.1, hf.2.2.2, spawnContexts_succ _ _ _ hnn]
    simp [WaveLog.next, ho.spawns]
  · intro hr
    rw [hf.1] at hr
    rw [hlog, hf.2.1, hf.2.2.2]
    exact ho.announced hr

theorem spawnOrder_step (c : Config) (s : State) (a : Action) (hinv : Inv s)
    (hph : Phases s) (ho : SpawnOrder s) : SpawnOrder (step c s a).st := by
  rcases step_cases c s a with h1 | h1 | h1 | h1 | ⟨t, _, _, _, hnr, h1⟩ | ⟨_, _, h1⟩
    | ⟨t, _, _, _, _, h1⟩ | ⟨hr, _, h1⟩ | ⟨t, ht, hk, _, _, hge, h1⟩
    | ⟨t, _, _, _, _, _, h1⟩
  · rw [h1]; exact ho
  · rw [h1]
    exact ⟨ho.ok, ho.spawns, fun hr => by simp [stop, Res.ok] at hr⟩
  · rw [h1]
    simp only [Res.ok, pause]
    split
    · exact ho
    · exact ⟨ho.ok, ho.spawns, ho.announced⟩
  · rw [h1]
    simp only [Res.ok, resume, _startSpawnLoop]
    split
    · exact ho
    · split <;> exact ⟨ho.ok, ho.spawns, ho.announced⟩
  · rw [h1]
    exact ⟨ho.ok, ho.spawns, fun hr => by simp [Res.ok, hnr] at hr⟩
  · rw [h1]
    exact spawnOrder_beginWave c a.host _ ho.ok
  · rw [h1]
    exact spawnOrder_beginWave c a.host _ ho.ok
  · rw [h1]
    exact spawnOrder_maybeCompleteWave c a.host _ hr hinv.spawned_le
      ⟨ho.ok, ho.spawns, ho.announced⟩
  · have := hph.cadence_lt t ht hk
    omega
  · rw [h1]
    exact spawnOrder_spawnEnemy a.host s hinv.spawned_nonneg ho

theorem spawnOrder_run (c : Config) (as : List Action) :
    ∀ s : State, Inv s → Coherent c s → Phases s → SpawnOrder s →
      SpawnOrder (run c s as) := by
  induction as with
  | nil => intro s _ _ _ ho; simpa [run] using ho
  | cons a as ih =>
    intro s hinv hcoh hph ho
    rw [run_cons]
    exact ih _ (inv_step c s a hinv) (coherent_step c s a hinv hcoh)
      (phases_step c s a hinv hcoh hph) (spawnOrder_step c s a hinv hph ho)

/-- C31: the log of every reachable state passes the reader `waveLog`: every
`onWaveComplete` carries the wave of the latest `onWaveStart` and the contexts
passed to `spawnEnemy` between that `onWaveStart`, of count `n`, and the
`onWaveComplete` are exactly `spawnContexts wave n n`. That list has `n`
entries, their indices are 1, 2, ..., n in this order, and each entry carries
the wave number and `remainingToSpawn = n - index`. While a wave is under way
the contexts since its `onWaveStart` are those of the first `_spawned` spawns,
and while running that `onWaveStart` announced `wave` and `_toSpawn`. -/
theorem spawns_in_index_order (c : Config) (as : List Action) :
    (waveLog (run c _resetState as).log).ok = true
      ∧ (waveLog (run c _resetState as).log).spawns
          = spawnContexts (run c _resetState as).wave (run c _resetState as)._toSpawn
              (run c _resetState as)._spawned
      ∧ ((run c _resetState as).running = true →
          (waveLog (run c _resetState as).log).announced
            = some ((run c _resetState as).wave, (run c _resetState as)._toSpawn))
      ∧ (∀ w n : ℤ, (spawnContexts w n n).length = n.toNat
          ∧ (spawnContexts w n n).map SpawnInfo.index = wavesUpTo n
          ∧ ∀ info ∈ spawnContexts w n n,
              info.wave = w ∧ info.remainingToSpawn = n - info.index) := by
  have ho := spawnOrder_run c as _resetState inv_resetState (coherent_resetState c)
    phases_resetState spawnOrder_resetState
  refine ⟨ho.ok, ho.spawns, ho.announced, ?_⟩
  intro w n
  refine ⟨by simp [spawnContexts], by simp [spawnContexts, wavesUpTo], ?_⟩
  intro info hinfo
  simp only [spawnContexts, List.mem_map, List.mem_range] at hinfo
  obtain ⟨k, _, hk⟩ := hinfo
  rw [← hk]
  exact ⟨rfl, rfl⟩

/-- C31 in the test scenario: once wave 1 is cleared the scheduler is running,
the latest `onWaveStart` announced wave 1 with 3 units, and the second of the
three contexts of that wave is wave 1, index 2, 1 remaining. -/
theorem spawns_in_index_order_witness :
    (run testConfig _resetState wave1Cleared).running = true
      ∧ (waveLog (run testConfig _resetState wave1Cleared).log).announced
          = some ((run testConfig _resetState wave1Cleared).wave,
              (run testConfig _resetState wave1Cleared)._toSpawn)
      ∧ (⟨1, 2, 1⟩ : SpawnInfo) ∈ spawnContexts 1 3 3
      ∧ (⟨1, 2, 1⟩ : SpawnInfo).wave = 1
      ∧ (⟨1, 2, 1⟩ : SpawnInfo).remainingToSpawn = 3 - (⟨1, 2, 1⟩ : SpawnInfo).index :=
  have hmem : (⟨1, 2, 1⟩ : SpawnInfo) ∈ spawnContexts 1 3 3 := by
    simp [spawnContexts, List.range_succ]
  ⟨by rw [wave1Cleared_state],
    (spawns_in_index_order testConfig wave1Cleared).2.2.1 (by rw [wave1Cleared_state]),
    hmem,
    (spawns_in_index_order testConfig wave1Cleared).2.2.2 1 3 |>.2.2 ⟨1, 2, 1⟩ hmem⟩

/-! ## Sinks that raise -/

theorem wave1OneLeft_raising_kill_state :
    run testConfig _resetState (wave1OneLeft ++ [⟨Call.onEnemyKilled, completeRaisingHost⟩])
      = { wave := 1, running := true, paused := false, _spawned := 3, _toSpawn := 3,
          _active := 0, _spawnTimer := none, _intermissionTimer := none,
          timers := [], nextId := 2,
          log := [.onWaveStart 1 3 50,
                  .spawnEnemy ⟨1, 1, 2⟩, .onEnemySpawned ⟨1, 1, 2⟩ none,
                  .spawnEnemy ⟨1, 2, 1⟩, .onEnemySpawned ⟨1, 2, 1⟩ none,
                  .spawnEnemy ⟨1, 3, 0⟩, .onEnemySpawned ⟨1, 3, 0⟩ none,
                  .onWaveComplete 1] } := by
  rw [run_append, wave1OneLeft_state]
  simp [run, step, onEnemyKilled, _maybeCompleteWave, completeRaisingHost, quietHost,
    Res.throw, State.emit]

/-- C7: the claim fails on the code when `onWaveComplete` raises. At the last
kill of wave 1 of the test scenario the exception escapes `onEnemyKilled()`,
`onWaveComplete(1)` is the only notification of that call (no `onIntermission`
follows it) and no intermission is scheduled; the next `onEnemyKilled()`, with
sinks that return, invokes `onWaveComplete(1)` a second time within the same
wave. The log breaks the completion protocol. -/
theorem completion_repeats_after_raising_sink :
    (step testConfig (run testConfig _resetState wave1OneLeft)
        ⟨Call.onEnemyKilled, completeRaisingHost⟩).raised = true
      ∧ emitted testConfig (run testConfig _resetState wave1OneLeft)
          ⟨Call.onEnemyKilled, completeRaisingHost⟩ = [Event.onWaveComplete 1]
      ∧ emitted testConfig
          (run testConfig _resetState
            (wave1OneLeft ++ [⟨Call.onEnemyKilled, completeRaisingHost⟩]))
          (act .onEnemyKilled)
          = [Event.onWaveComplete 1, Event.onIntermission 1 100]
      ∧ completionProtocol
          (run testConfig
            (run testConfig _resetState
              (wave1OneLeft ++ [⟨Call.onEnemyKilled, completeRaisingHost⟩]))
            [act .onEnemyKilled]).log = false := by
  rw [wave1OneLeft_raising_kill_state, wave1OneLeft_state]
  refine ⟨?_, ?_, ?_, ?_⟩
  · simp [step, onEnemyKilled, _maybeCompleteWave, completeRaisingHost, quietHost,
      Res.throw, State.emit]
  · simp [emitted, step, onEnemyKilled, _maybeCompleteWave, completeRaisingHost, quietHost,
      Res.throw, State.emit]
  · simp [emitted, step, act, onEnemyKilled, _maybeCompleteWave, _scheduleIntermission,
      quietHost, Res.ok, State.emit]
    rfl
  · simp [run, step, act, onEnemyKilled, _maybeCompleteWave, _scheduleIntermission,
      quietHost, Res.ok, State.emit, completionProtocol, logPhase, Phase.next]

/-- C33: the claim fails on the code when `onWaveComplete` raises. After the
last kill of wave 1 of the test scenario with a raising `onWaveComplete`, the
scheduler is running with 3 of 3 units spawned and none active, and no
intermission is pending: `_scheduleIntermission` was skipped. -/
theorem raising_onWaveComplete_misses_intermission :
    (run testConfig _resetState
        (wave1OneLeft ++ [⟨Call.onEnemyKilled, completeRaisingHost⟩])).running = true
      ∧ (run testConfig _resetState
          (wave1OneLeft ++ [⟨Call.onEnemyKilled, completeRaisingHost⟩]))._spawned
          = (run testConfig _resetState
              (wave1OneLeft ++ [⟨Call.onEnemyKilled, completeRaisingHost⟩]))._toSpawn
      ∧ (run testConfig _resetState
          (wave1OneLeft ++ [⟨Call.onEnemyKilled, completeRaisingHost⟩]))._active = 0
      ∧ (run testConfig _resetState
          (wave1OneLeft ++ [⟨Call.onEnemyKilled, completeRaisingHost⟩]))._intermissionTimer
          = none := by
  rw [run_append, wave1OneLeft_state]
  simp [run, step, onEnemyKilled, _maybeCompleteWave, completeRaisingHost, quietHost,
    Res.throw, State.emit]

/-- C34: the claim fails on the code when `onWaveStart` raises. After `start()`
on a fresh test scheduler with a raising `onWaveStart`, the scheduler is
running and not paused with 0 of 3 units spawned, and no spawn cadence is
live: `_startSpawnLoop` was skipped. -/
theorem raising_onWaveStart_leaves_no_cadence :
    (run testConfig _resetState [⟨Call.start, startRaisingHost⟩]).running = true
      ∧ (run testConfig _resetState [⟨Call.start, startRaisingHost⟩]).paused = false
      ∧ (run testConfig _resetState [⟨Call.start, startRaisingHost⟩])._spawned
          < (run testConfig _resetState [⟨Call.start, startRaisingHost⟩])._toSpawn
      ∧ (run testConfig _resetState [⟨Call.start, startRaisingHost⟩]).timers = [] := by
  simp [run, step, start, _beginWave, _resetState, startRaisingHost, quietHost,
    Res.throw, State.emit, testConfig_wave1]

/-! ## Sinks that call back into the scheduler -/

theorem beginWaveWith_sinks (c : Config) (h : Host) (s : State) :
    _beginWaveWith c h.sinks s = _beginWave c h s := by
  unfold _beginWaveWith _beginWave Host.sinks
  cases h.onWaveStartRaises <;> simp [Res.ok, Res.throw]

theorem scheduleIntermissionWith_sinks (c : Config) (h : Host) (s : State) :
    _scheduleIntermissionWith c h.sinks s = _scheduleIntermission c h s := by
  unfold _scheduleIntermissionWith _scheduleIntermission Host.sinks
  cases h.onIntermissionRaises <;> simp [Res.ok, Res.throw, State.emit]

theorem maybeCompleteWaveWith_sinks (c : Config) (h : Host) (s : State) :
    _maybeCompleteWaveWith c h.sinks s = _maybeCompleteWave c h s := by
  unfold _maybeCompleteWaveWith _maybeCompleteWave
  split
  · have e := scheduleIntermissionWith_sinks c h (s.emit (.onWaveComplete s.wave))
    cases hq : h.onWaveCompleteRaises
    · simpa [Host.sinks, hq, Res.ok] using e
    · simp [Host.sinks, hq, Res.throw]
  · rfl

theorem startWith_sinks (c : Config) (h : Host) (s : State) :
    startWith c h.sinks s = start c h s := by
  unfold startWith start
  rw [beginWaveWith_sinks]

theorem onEnemyKilledWith_sinks (c : Config) (h : Host) (s : State) :
    onEnemyKilledWith c h.sinks s = onEnemyKilled c h s := by
  unfold onEnemyKilledWith onEnemyKilled
  rw [maybeCompleteWaveWith_sinks]

theorem startWith_stopOnWaveStart :
    startWith testConfig stopOnWaveStart _resetState
      = Res.ok
        { wave := 1, running := false, paused := false, _spawned := 0, _toSpawn := 3,
          _active := 0, _spawnTimer := some 1, _intermissionTimer := none,
          timers := [⟨1, .spawnTick, 50⟩], nextId := 2,
          log := [.onWaveStart 1 3 50] } := by
  simp [startWith, _beginWaveWith, stopOnWaveStart, stop, _startSpawnLoop, clearTimer,
    State.emit, Res.ok, _resetState, testConfig_wave1]

/-- C9: the claim fails on the code when the host calls `stop()` from inside
its `onWaveStart` sink. `start()` on a fresh test scheduler then returns with
`running` false and the spawn cadence armed all the same, because
`_beginWave` arms it after the sink has returned; and when that cadence fires,
although the scheduler is stopped and no `start()` has followed, the tick
calls `spawnEnemy` and `onEnemySpawned` for index 1 of wave 1. -/
theorem stop_inside_onWaveStart_spawns :
    (startWith testConfig stopOnWaveStart _resetState).raised = false
      ∧ (startWith testConfig stopOnWaveStart _resetState).st.running = false
      ∧ (startWith testConfig stopOnWaveStart _resetState).st.log
          = [Event.onWaveStart 1 3 50]
      ∧ (startWith testConfig stopOnWaveStart _resetState).st.timers
          = [⟨1, TimerKind.spawnTick, 50⟩]
      ∧ (fireTimer testConfig quietHost
            (startWith testConfig stopOnWaveStart _resetState).st 1).st.log
          = [Event.onWaveStart 1 3 50, Event.spawnEnemy ⟨1, 1, 2⟩,
              Event.onEnemySpawned ⟨1, 1, 2⟩ none] := by
  rw [startWith_stopOnWaveStart]
  refine ⟨rfl, rfl, rfl, rfl, ?_⟩
  simp [fireTimer, spawnTick, _spawnEnemy, State.emit, Res.ok, quietHost]

theorem onEnemyKilledWith_stopOnWaveComplete :
    onEnemyKilledWith testConfig stopOnWaveComplete (run testConfig _resetState wave1OneLeft)
      = Res.ok
        { wave := 1, running := false, paused := false, _spawned := 3, _toSpawn := 3,
          _active := 0, _spawnTimer := none, _intermissionTimer := some 2,
          timers := [⟨2, .intermission, 100⟩], nextId := 3,
          log := [.onWaveStart 1 3 50,
                  .spawnEnemy ⟨1, 1, 2⟩, .onEnemySpawned ⟨1, 1, 2⟩ none,
                  .spawnEnemy ⟨1, 2, 1⟩, .onEnemySpawned ⟨1, 2, 1⟩ none,
                  .spawnEnemy ⟨1, 3, 0⟩, .onEnemySpawned ⟨1, 3, 0⟩ none,
                  .onWaveComplete 1, .onIntermission 1 100] } := by
  rw [wave1OneLeft_state]
  simp [onEnemyKilledWith, _maybeCompleteWaveWith, _scheduleIntermissionWith,
    stopOnWaveComplete, stop, clearTimer, State.emit, Res.ok]
  rfl

/-- C19, as stated, fails for `stop()`: when the host calls `stop()` from
inside its `onWaveComplete` sink at the last kill of wave 1 of the test
scenario, `onEnemyKilled()` returns with the scheduler stopped and the
intermission timeout armed all the same, held in `_intermissionTimer`; a
further `stop()` on this stopped scheduler clears the handle and the timer, so
it does not leave the state unchanged. -/
theorem stop_after_stop_inside_sink_changes_state :
    (onEnemyKilledWith testConfig stopOnWaveComplete
        (run testConfig _resetState wave1OneLeft)).st.running = false
      ∧ (onEnemyKilledWith testConfig stopOnWaveComplete
          (run testConfig _resetState wave1OneLeft)).st._intermissionTimer = some 2
      ∧ (onEnemyKilledWith testConfig stopOnWaveComplete
          (run testConfig _resetState wave1OneLeft)).st.timers
          = [⟨2, TimerKind.intermission, 100⟩]
      ∧ step testConfig
          (onEnemyKilledWith testConfig stopOnWaveComplete
            (run testConfig _resetState wave1OneLeft)).st ⟨Call.stop, quietHost⟩
          ≠ Res.ok (onEnemyKilledWith testConfig stopOnWaveComplete
              (run testConfig _resetState wave1OneLeft)).st := by
  rw [onEnemyKilledWith_stopOnWaveComplete]
  refine ⟨rfl, rfl, rfl, ?_⟩
  intro h
  have h2 := congrArg (fun r => r.st._intermissionTimer) h
  simp [step, stop, Res.ok] at h2

end WaveManager
